import Mathlib

/-!
# binaryscarf: text filter, layout, canvas and drawing

A shallow embedding of `config.go` and `main.go`: the text filter, the colour
parser and the flag validation of `config.go`, and the layout, the canvas size
and the drawing of `main.go`.

* A Go `int` is a 64-bit two's-complement integer: its value is an `Int` in
  the range from -2^63 up to 2^63 - 1, and every sum, difference and product
  computed by the layout, the canvas size and the drawing of the border is
  reduced into that range by `wrap64`, as the hardware does. The validation
  of the flags puts no upper bound on any of them, so wrap-around is
  reachable; `Config.Fits` says that the canvas the flags describe is less
  than 2^63 pixels wide and high, and under it no operation wraps.
* Bytes are natural numbers (a Go `byte` is a value below 256); the space
  byte is 32.
* `os.Exit(1)` in `filterText` is the error result of an `Except`.
* An image is its bounds and a colour for every pixel; SetNRGBA writes inside
  the bounds only.
* Calls into the Go library (bytes.Replace, bytes.TrimSpace, bytes.Repeat,
  strings.ToLower, strconv.ParseUint, filepath.Clean, image.Rect) are modelled
  by functions of the same name following the library documentation.
-/

set_option autoImplicit false
set_option maxRecDepth 100000

namespace BinaryScarf

/-! ## Go integers -/

/-- The Go `int` that results when the exact integer `z` is stored in 64 bits
(two's complement): the representative of `z` modulo 2^64 in the range from
-2^63 up to 2^63 - 1. -/
def wrap64 (z : Int) : Int := (z + 2 ^ 63) % 2 ^ 64 - 2 ^ 63

/-- Go `a + b` on `int`. -/
def add64 (a b : Int) : Int := wrap64 (a + b)

/-- Go `a - b` on `int`. -/
def sub64 (a b : Int) : Int := wrap64 (a - b)

/-- Go `a * b` on `int`. -/
def mul64 (a b : Int) : Int := wrap64 (a * b)

/-! ## Configuration (config.go) -/

/-- The type color.NRGBA. -/
structure NRGBA where
  R : Nat
  G : Nat
  B : Nat
  A : Nat
deriving DecidableEq, Repr

/-- The struct Config of config.go; Colors is the two-entry palette. -/
structure Config where
  Output : String
  Columns : Int
  Spacing : Int
  Border : Int
  StitchWidth : Int
  StitchHeight : Int
  Colors : NRGBA × NRGBA

namespace Config

def BorderWidth (c : Config) : Int := mul64 c.Border c.StitchWidth
def BorderHeight (c : Config) : Int := mul64 c.Border c.StitchHeight
def SpacingWidth (c : Config) : Int := mul64 c.Spacing c.StitchWidth
def SpacingHeight (c : Config) : Int := mul64 c.Spacing c.StitchHeight
def ColumnWidth (c : Config) : Int := mul64 7 c.StitchWidth

/-- The numeric part of the validation in ParseConfig (config.go:78-79):
the run continues only when none of the rejected comparisons holds. -/
def Valid (c : Config) : Prop :=
  1 ≤ c.Columns ∧ 0 ≤ c.Spacing ∧ 0 ≤ c.Border ∧ 1 ≤ c.StitchWidth ∧ 1 ≤ c.StitchHeight

instance (c : Config) : Decidable c.Valid := by
  unfold Valid; infer_instance

end Config

/-- The default configuration of ParseConfig (config.go:43-51). -/
def defaultConfig : Config :=
  { Output := "out.png", Columns := 3, Spacing := 2, Border := 2,
    StitchWidth := 2, StitchHeight := 3,
    Colors := (⟨0xff, 0xff, 0xff, 0xff⟩, ⟨0x64, 0x73, 0x84, 0xff⟩) }

/-- The default configuration with `-columns 1`. -/
def oneColumnConfig : Config := { defaultConfig with Columns := 1 }

/-! ## Layout (main.go) -/

/-- The struct Char: a byte value and the top-left pixel of its cell. -/
structure Char where
  Value : Nat
  X : Int
  Y : Int
deriving DecidableEq, Repr

/-- The space byte. -/
def space : Nat := 32

/-- The value `int(math.Ceil(float64(len(v)) / float64(c.Columns)))` of
main.go:99, with the quotient taken exactly (in the rationals); the float64
quotient has the same ceiling for all lengths and column counts below 2^53. -/
def rowsOf (c : Config) (v : List Nat) : Int :=
  Int.ceil (((v.length : Int) : ℚ) / ((c.Columns : Int) : ℚ))

/-- The value of `top` after main.go:101-105. -/
def topOf (c : Config) : Int :=
  if c.Border > 0 then add64 c.SpacingHeight (add64 c.BorderHeight c.SpacingHeight)
  else c.SpacingHeight

/-- The value of `bottom` (main.go:107). -/
def bottomOf (c : Config) (v : List Nat) : Int :=
  add64 (topOf c) (mul64 (rowsOf c v) c.StitchHeight)

/-- The loop of buildCharacterSet (main.go:109-131) from cursor `(x, y)` over
the remaining bytes; the records appended to `out` are returned in order. -/
def layoutLoop (c : Config) (top bottom : Int) : Int → Int → List Nat → List Char
  | _, _, [] => []
  | x, y, b :: bs =>
    if b = space ∧ y = top then
      layoutLoop c top bottom x y bs
    else if b = space ∧ y ≥ sub64 bottom c.StitchHeight then
      layoutLoop c top bottom (add64 x (add64 c.ColumnWidth c.SpacingWidth)) top bs
    else
      { Value := b, X := x, Y := y } ::
        (if add64 y c.StitchHeight ≥ bottom then
          layoutLoop c top bottom (add64 x (add64 c.ColumnWidth c.SpacingWidth)) top bs
        else
          layoutLoop c top bottom x (add64 y c.StitchHeight) bs)

/-- The function buildCharacterSet (main.go:98-134). -/
def buildCharacterSet (c : Config) (v : List Nat) : List Char :=
  layoutLoop c (topOf c) (bottomOf c v) c.SpacingWidth (topOf c) v

/-! ## Canvas size (main.go) -/

/-- The type image.Rectangle, as its two corner points. -/
structure Rectangle where
  MinX : Int
  MinY : Int
  MaxX : Int
  MaxY : Int
deriving DecidableEq, Repr

/-- The constructor image.Rect, which orders each pair of coordinates. -/
def Rect (x0 y0 x1 y1 : Int) : Rectangle :=
  { MinX := if x0 > x1 then x1 else x0
    MinY := if y0 > y1 then y1 else y0
    MaxX := if x0 > x1 then x0 else x1
    MaxY := if y0 > y1 then y0 else y1 }

def Rectangle.Dx (r : Rectangle) : Int := sub64 r.MaxX r.MinX
def Rectangle.Dy (r : Rectangle) : Int := sub64 r.MaxY r.MinY

/-- The loop of main.go:80-84: the largest Y of the records, starting from `h`. -/
def highestY (h : Int) (charset : List Char) : Int :=
  charset.foldl (fun h r => if h < r.Y then r.Y else h) h

/-- The function computePatternRect (main.go:74-94). -/
def computePatternRect (c : Config) (charset : List Char) : Rectangle :=
  let w := add64 (mul64 c.Columns 7) (mul64 (add64 (sub64 c.Columns 1) 2) c.Spacing)
  let h := highestY 0 charset
  let h := add64 h c.StitchHeight
  let h :=
    if c.Border > 0 then
      add64 h (add64 (add64 c.SpacingHeight c.BorderHeight) c.SpacingHeight)
    else h
  let w := mul64 w c.StitchWidth
  Rect 0 0 w h

/-- The exact width, in pixels, of the canvas the flags describe: the value
computePatternRect computes for `w` when nothing wraps. -/
def Config.exactWidth (c : Config) : Int :=
  (c.Columns * 7 + ((c.Columns - 1) + 2) * c.Spacing) * c.StitchWidth

/-- The exact height, in pixels, of the canvas for the text `v`: the rows of
the text, the spacing above and below them and, when a border is drawn, the
two border bands with their outer spacing. -/
def Config.exactHeight (c : Config) (v : List Nat) : Int :=
  (rowsOf c v + (if c.Border > 0 then 2 * (2 * c.Spacing + c.Border) else c.Spacing))
    * c.StitchHeight

/-- The canvas width fits a Go `int`. -/
def Config.FitsWidth (c : Config) : Prop := c.exactWidth < 2 ^ 63

/-- The canvas height for the text `v` fits a Go `int`. -/
def Config.FitsHeight (c : Config) (v : List Nat) : Prop := c.exactHeight v < 2 ^ 63

/-- Both canvas dimensions fit a Go `int`. -/
def Config.Fits (c : Config) (v : List Nat) : Prop := c.FitsWidth ∧ c.FitsHeight v

instance (c : Config) : Decidable c.FitsWidth := by
  unfold Config.FitsWidth; infer_instance

instance (c : Config) (v : List Nat) : Decidable (c.FitsHeight v) := by
  unfold Config.FitsHeight; infer_instance

instance (c : Config) (v : List Nat) : Decidable (c.Fits v) := by
  unfold Config.Fits; infer_instance

/-! ## Text filter (config.go) -/

def bCR : List Nat := [13]
def bLF : List Nat := [10]
def bTab : List Nat := [9]
def bSpace : List Nat := [32]
def b2Space : List Nat := [32, 32]

/-- The scan of bytes.Replace: `skip` counts the bytes of a matched occurrence
of `old` still to be passed over; with `skip = 0` an occurrence of `old` at the
head is replaced by `new`, any other byte is copied. -/
def replaceFrom (old new : List Nat) : Nat → List Nat → List Nat
  | _, [] => []
  | skip + 1, _ :: t => replaceFrom old new skip t
  | 0, b :: t =>
    if old.isPrefixOf (b :: t) then new ++ replaceFrom old new (old.length - 1) t
    else b :: replaceFrom old new 0 t

/-- The call `bytes.Replace(s, old, new, -1)` for a non-empty `old`: every
non-overlapping occurrence of `old`, found left to right, is replaced. -/
def Replace (s old new : List Nat) : List Nat := replaceFrom old new 0 s

/-- UTF-8 encodings of the code points for which unicode.IsSpace holds:
U+0009..U+000D, U+0020, U+0085, U+00A0, U+1680, U+2000..U+200A, U+2028,
U+2029, U+202F, U+205F and U+3000. -/
def whiteSpace : List (List Nat) :=
  [[0x09], [0x0A], [0x0B], [0x0C], [0x0D], [0x20],
   [0xC2, 0x85], [0xC2, 0xA0], [0xE1, 0x9A, 0x80],
   [0xE2, 0x80, 0x80], [0xE2, 0x80, 0x81], [0xE2, 0x80, 0x82], [0xE2, 0x80, 0x83],
   [0xE2, 0x80, 0x84], [0xE2, 0x80, 0x85], [0xE2, 0x80, 0x86], [0xE2, 0x80, 0x87],
   [0xE2, 0x80, 0x88], [0xE2, 0x80, 0x89], [0xE2, 0x80, 0x8A],
   [0xE2, 0x80, 0xA8], [0xE2, 0x80, 0xA9], [0xE2, 0x80, 0xAF],
   [0xE2, 0x81, 0x9F], [0xE3, 0x80, 0x80]]

/-- Removes from the head of `s`, repeatedly, any byte sequence of `tbl`; the
first argument bounds the number of removals. -/
def strip (tbl : List (List Nat)) : Nat → List Nat → List Nat
  | 0, s => s
  | n + 1, s =>
    match tbl.find? (fun w => w.isPrefixOf s) with
    | some w => strip tbl n (s.drop w.length)
    | none => s

/-- Leading white space removed (the left half of bytes.TrimSpace). -/
def TrimLeft (s : List Nat) : List Nat := strip whiteSpace s.length s

/-- Trailing white space removed (the right half of bytes.TrimSpace): the
trailing white space of `s` is the leading white space of its reversal, each
encoding read backwards. -/
def TrimRight (s : List Nat) : List Nat :=
  (strip (whiteSpace.map List.reverse) s.length s.reverse).reverse

/-- The call bytes.TrimSpace: all leading and trailing white space, as defined
by Unicode, is sliced off. A byte sequence that is not the UTF-8 encoding of a
white-space code point decodes to another rune (or to U+FFFD), which is not
white space. -/
def TrimSpace (s : List Nat) : List Nat := TrimRight (TrimLeft s)

/-- The call bytes.Repeat for a non-negative count: `count` copies of `b`. -/
def Repeat (b : List Nat) : Nat → List Nat
  | 0 => []
  | n + 1 => b ++ Repeat b n

/-- The ways filterText ends without returning. -/
inductive FilterFailure where
  /-- "input text is empty after filtering", exit status 1 (config.go:131-134) -/
  | emptyAfterFiltering
  /-- the panic of bytes.Repeat on a negative count -/
  | negativeRepeat
deriving DecidableEq, Repr

/-- The text of filterText before the emptiness test (config.go:125-129). -/
def normalize (v : List Nat) : List Nat :=
  let v := Replace v bCR []
  let v := Replace v bLF bSpace
  let v := Replace v bTab bSpace
  let v := Replace v b2Space bSpace
  TrimSpace v

/-- The function filterText (config.go:124-137). -/
def filterText (v : List Nat) (n : Int) : Except FilterFailure (List Nat) :=
  let v := normalize v
  if v.length = 0 then .error .emptyAfterFiltering
  else if n < 0 then .error .negativeRepeat
  else .ok (Repeat v n.toNat)

/-- The text of filterText after the four replacements and before the trim
(config.go:125-128). -/
def squeeze (v : List Nat) : List Nat :=
  Replace (Replace (Replace (Replace v bCR []) bLF bSpace) bTab bSpace) b2Space bSpace

/-! ## Image and drawing (main.go) -/

/-- The test `image.Point{x, y}.In(r)`. -/
def Rectangle.In (r : Rectangle) (x y : Int) : Prop :=
  r.MinX ≤ x ∧ x < r.MaxX ∧ r.MinY ≤ y ∧ y < r.MaxY

instance (r : Rectangle) (x y : Int) : Decidable (r.In x y) := by
  unfold Rectangle.In; infer_instance

/-- The type image.NRGBA: its bounds and the colour stored for each pixel; the
pixel buffer is read and written through coordinates only. -/
structure Image where
  Rect : Rectangle
  Pix : Int → Int → NRGBA

/-- The call image.NewNRGBA: every pixel is the zero colour. -/
def NewNRGBA (r : Rectangle) : Image :=
  { Rect := r, Pix := fun _ _ => ⟨0, 0, 0, 0⟩ }

/-- The method SetNRGBA: a point outside the bounds is ignored. -/
def Image.SetNRGBA (img : Image) (x y : Int) (clr : NRGBA) : Image :=
  if img.Rect.In x y then
    { img with Pix := fun px py => if px = x ∧ py = y then clr else img.Pix px py }
  else img

/-- The inner loop `for px := x; px < x+w; px++` of fillRect at row `py`:
`px` runs from `x` up to the wrapped sum `x+w`, not including it. -/
def fillRow (img : Image) (x py w : Int) (clr : NRGBA) : Image :=
  (List.range (add64 x w - x).toNat).foldl
    (fun im (dx : Nat) => im.SetNRGBA (x + (dx : Int)) py clr) img

/-- The function fillRect (main.go:64-70): `py` runs from `y` up to the
wrapped sum `y+h`, not including it. -/
def fillRect (img : Image) (x y w h : Int) (clr : NRGBA) : Image :=
  (List.range (add64 y h - y).toNat).foldl
    (fun im (dy : Nat) => fillRow im x (y + (dy : Int)) w clr) img

/-- The function plotBit (main.go:160-168): the painted image and `x + sw`.
The sums `x + cx`, `y + cy` and `x + sw` are taken exactly: they are the Go
values whenever the block ends at or below 2^63 - 1, as it does for every cell
inside an image and for every cell laid out by the flags used in this file. -/
def plotBit (img : Image) (x y sw sh : Int) (clr : NRGBA) : Image × Int :=
  ((List.range sh.toNat).foldl
      (fun im (cy : Nat) =>
        (List.range sw.toNat).foldl
          (fun im2 (cx : Nat) => im2.SetNRGBA (x + (cx : Int)) (y + (cy : Int)) clr) im)
      img,
    x + sw)

/-- Indexing of the palette `[2]color.NRGBA` by a bit. -/
def colorAt (colors : NRGBA × NRGBA) (i : Nat) : NRGBA :=
  if i = 0 then colors.1 else colors.2

/-- The method Char.Plot (main.go:143-158). -/
def Char.Plot (c : Char) (img : Image) (sw sh : Int) (colors : NRGBA × NRGBA) : Image :=
  if c.Value = space then img
  else
    let x := c.X
    let y := c.Y
    let p := plotBit img x y sw sh (colorAt colors ((c.Value >>> 6) &&& 1))
    let p := plotBit p.1 p.2 y sw sh (colorAt colors ((c.Value >>> 5) &&& 1))
    let p := plotBit p.1 p.2 y sw sh (colorAt colors ((c.Value >>> 4) &&& 1))
    let p := plotBit p.1 p.2 y sw sh (colorAt colors ((c.Value >>> 3) &&& 1))
    let p := plotBit p.1 p.2 y sw sh (colorAt colors ((c.Value >>> 2) &&& 1))
    let p := plotBit p.1 p.2 y sw sh (colorAt colors ((c.Value >>> 1) &&& 1))
    let p := plotBit p.1 p.2 y sw sh (colorAt colors ((c.Value >>> 0) &&& 1))
    p.1

/-- The function drawPattern (main.go:37-61). -/
def drawPattern (c : Config) (charset : List Char) : Image :=
  let rect := computePatternRect c charset
  let img := NewNRGBA rect
  let img := fillRect img 0 0 rect.Dx rect.Dy c.Colors.1
  let img :=
    if c.Border > 0 then
      let x := c.SpacingWidth
      let y := c.SpacingHeight
      let w := sub64 rect.Dx (mul64 c.SpacingWidth 2)
      let h := c.BorderHeight
      let img := fillRect img x y w h c.Colors.2
      let y := sub64 (sub64 rect.Dy c.SpacingHeight) c.BorderHeight
      fillRect img x y w h c.Colors.2
    else img
  charset.foldl (fun im ch => ch.Plot im c.StitchWidth c.StitchHeight c.Colors) img

/-- A run of plotBit calls, one per colour of `cs`, each starting at the x
returned by the one before: the body of Char.Plot for a list of stitches. -/
def plotBits (img : Image) (x y sw sh : Int) (cs : List NRGBA) : Image × Int :=
  cs.foldl (fun p clr => plotBit p.1 p.2 y sw sh clr) (img, x)

/-- A sample record: the letter A with its cell at (1, 1). -/
def sampleChar : Char := { Value := 0x41, X := 1, Y := 1 }

/-- A sample blank image of 20 by 10 pixels. -/
def sampleImage : Image := NewNRGBA (Rect 0 0 20 10)

/-! ## Colour parsing (config.go) -/

/-- The call strings.ToLower on a string of ASCII bytes: the letters A..Z are
mapped to a..z. Bytes outside ASCII are kept as they are; Go maps them rune by
rune through the Unicode tables, which can change the length of the string
(U+212A becomes `k`). No such rune is mapped to `0`, `x` or a hexadecimal
digit, so parseColor rejects such input in either case, though not always with
the same error. -/
def ToLower (s : List Nat) : List Nat :=
  s.map (fun b => if 65 ≤ b ∧ b ≤ 90 then b + 32 else b)

/-- The errors of strconv.ParseUint. -/
inductive NumError where
  /-- strconv.ErrSyntax -/
  | malformed
  /-- strconv.ErrRange -/
  | outOfRange
deriving DecidableEq, Repr

/-- The digit loop of strconv.ParseUint for base 16 and bit size 8, from the
accumulated value `n` over the remaining bytes; `lower(c)` is `c | 0x20`. -/
def parseDigits : Nat → List Nat → Nat × Option NumError
  | n, [] => (n, none)
  | n, c :: t =>
    if 48 ≤ c ∧ c ≤ 57 then
      if c - 48 ≥ 16 then (0, some .malformed)
      else if n ≥ 2 ^ 60 then (255, some .outOfRange)
      else if n * 16 + (c - 48) > 255 then (255, some .outOfRange)
      else parseDigits (n * 16 + (c - 48)) t
    else if 97 ≤ (c ||| 32) ∧ (c ||| 32) ≤ 122 then
      if (c ||| 32) - 97 + 10 ≥ 16 then (0, some .malformed)
      else if n ≥ 2 ^ 60 then (255, some .outOfRange)
      else if n * 16 + ((c ||| 32) - 97 + 10) > 255 then (255, some .outOfRange)
      else parseDigits (n * 16 + ((c ||| 32) - 97 + 10)) t
    else (0, some .malformed)

/-- The call `strconv.ParseUint(s, 16, 8)`: the value and the error. -/
def ParseUint16 (s : List Nat) : Nat × Option NumError :=
  if s = [] then (0, some .malformed) else parseDigits 0 s

/-- The errors parseColor returns. -/
inductive ColorError where
  /-- "invalid or missing color value" (config.go:152) -/
  | invalidOrMissing (v : List Nat)
  /-- an error of strconv.ParseUint -/
  | parse (e : NumError)
deriving DecidableEq, Repr

/-- The closure pickError of parseColor. -/
def pickError (a b c : Option NumError) : Option NumError :=
  if a ≠ none then a else if b ≠ none then b else c

/-- The function parseColor (config.go:139-166): the colour left in `out` and
the returned error (`none` for nil). -/
def parseColor (out : NRGBA) (v : List Nat) : NRGBA × Option ColorError :=
  let v := ToLower v
  if v.length ≠ 8 ∨ ¬ [48, 120].isPrefixOf v then (out, some (.invalidOrMissing v))
  else
    let v := v.drop 2
    let r := ParseUint16 (v.take 2)
    let g := ParseUint16 ((v.drop 2).take 2)
    let b := ParseUint16 (v.drop 4)
    ({ R := r.1 % 256, G := g.1 % 256, B := b.1 % 256, A := 0xff },
      (pickError r.2 g.2 b.2).map ColorError.parse)

/-- Hexadecimal digits: 0..9, a..f, A..F. -/
def isHexDigit (b : Nat) : Prop :=
  (48 ≤ b ∧ b ≤ 57) ∨ (97 ≤ b ∧ b ≤ 102) ∨ (65 ≤ b ∧ b ≤ 70)

instance (b : Nat) : Decidable (isHexDigit b) := by
  unfold isHexDigit; infer_instance

/-- The value of a hexadecimal digit. -/
def hexValue (b : Nat) : Nat :=
  if 48 ≤ b ∧ b ≤ 57 then b - 48
  else if 97 ≤ b ∧ b ≤ 102 then b - 87
  else b - 55

/-! ## Validation of the configuration (config.go) -/

/-- One path element of filepath.Clean; `out` holds the kept elements, the
last one first. Empty and `.` elements are dropped, `..` removes the element
before it, is dropped at the root and is kept at the start of a relative path. -/
def cleanStep (rooted : Bool) (out : List String) (elem : String) : List String :=
  if elem = "" ∨ elem = "." then out
  else if elem = ".." then
    match out with
    | top :: rest => if top = ".." then ".." :: top :: rest else rest
    | [] => if rooted then [] else [".."]
  else elem :: out

/-- The call filepath.Clean for slash-separated paths: the shortest equivalent
path, and "." when that is empty. -/
def Clean (path : String) : String :=
  if path = "" then "."
  else
    let rooted := path.front = '/'
    let out := (path.splitOn "/").foldl (cleanStep rooted) []
    let s := (if rooted then "/" else "") ++ "/".intercalate out.reverse
    if s = "" then "." else s

/-- The validation of ParseConfig (config.go:77-82) on the parsed flags: the
configuration with its cleaned output path, or `none` when the usage text is
printed and the program exits with status 1. -/
def validate (c : Config) (rep : Int) : Option Config :=
  let c := { c with Output := Clean c.Output }
  if c.Output.utf8ByteSize = 0 ∨ c.Columns < 1 ∨ c.Spacing < 0 ∨ c.Border < 0 ∨
      c.StitchWidth < 1 ∨ c.StitchHeight < 1 ∨ rep < 1 then none
  else some c

/-- The default flags with `-out ""`. -/
def emptyOutConfig : Config := { defaultConfig with Output := "" }

/-- The cursor `(x, y)` of the loop of buildCharacterSet (main.go:109-131)
after the bytes `bs`, started at `(x, y)`. -/
def cursorLoop (c : Config) (top bottom : Int) : Int → Int → List Nat → Int × Int
  | x, y, [] => (x, y)
  | x, y, b :: bs =>
    if b = space ∧ y = top then
      cursorLoop c top bottom x y bs
    else if b = space ∧ y ≥ sub64 bottom c.StitchHeight then
      cursorLoop c top bottom (add64 x (add64 c.ColumnWidth c.SpacingWidth)) top bs
    else if add64 y c.StitchHeight ≥ bottom then
      cursorLoop c top bottom (add64 x (add64 c.ColumnWidth c.SpacingWidth)) top bs
    else
      cursorLoop c top bottom x (add64 y c.StitchHeight) bs

/-- The flags `-spacing 4611686018427387903 -stitch-width 4 -stitch-height 4
-border 0`: the spacing is 2^62 - 1, so spacing times stitch size wraps to -4. -/
def wideSpacingConfig : Config :=
  { defaultConfig with
    Spacing := 4611686018427387903, Border := 0, StitchWidth := 4, StitchHeight := 4 }

/-- The flags of wideSpacingConfig with `-border 2`. -/
def wideSpacingBorderConfig : Config := { wideSpacingConfig with Border := 2 }

/-- The flags `-columns 2 -spacing 4294967289 -stitch-width 4294967296`: the
spacing is 2^32 - 7 and the stitch width 2^32, so the column stride wraps to 0. -/
def zeroStrideConfig : Config :=
  { defaultConfig with Columns := 2, Spacing := 4294967289, StitchWidth := 4294967296 }

/-- The flags `-columns 1 -stitch-height 4611686018427387904`: the stitch
height is 2^62, so `rows * StitchHeight` wraps for five rows. -/
def tallStitchConfig : Config :=
  { defaultConfig with Columns := 1, StitchHeight := 4611686018427387904 }

/-- The flags `-columns 4611686018427387904 -spacing 0 -stitch-width 1`: the
column count is 2^62, so `Columns * 7` wraps to -2^62. -/
def manyColumnsConfig : Config :=
  { defaultConfig with Columns := 4611686018427387904, Spacing := 0, StitchWidth := 1 }

/-- The flags `-columns 1 -spacing 2305843009213693951 -border 0
-stitch-width 1 -stitch-height 4`: the spacing is 2^61 - 1, so the column top
is 2^63 - 4 and the canvas width still fits. -/
def tallSpacingConfig : Config :=
  { defaultConfig with
    Columns := 1, Spacing := 2305843009213693951, Border := 0,
    StitchWidth := 1, StitchHeight := 4 }

/-- The flags `-spacing 0 -stitch-width 1152921504606846976`: the stitch width
is 2^60, so the third column starts beyond 2^63 and the canvas height still
fits. -/
def wideStitchConfig : Config :=
  { defaultConfig with Spacing := 0, StitchWidth := 1152921504606846976 }

/-! ## Index-level description of the layout -/

/-- Index-level description of the layout loop: the cursor is the linear cell
index `i` (column `i / R`, row `i % R`); each record carries its index. -/
def cells (R : Nat) : Nat → List Nat → List (Nat × Nat)
  | _, [] => []
  | i, b :: bs =>
    if b = space ∧ i % R = 0 then cells R i bs
    else if b = space ∧ i % R + 1 = R then cells R (i + 1) bs
    else (b, i) :: cells R (i + 1) bs

/-- The record placed at linear cell index `p.2` holding byte `p.1`: the column
cursor has been advanced `p.2 / R` times from `x0`, each time by a wrapping
addition of the wrapped column stride. -/
def place (c : Config) (top x0 : Int) (R : Nat) (p : Nat × Nat) : Char :=
  { Value := p.1
    X := wrap64 (x0 + ((p.2 / R : Nat) : Int) * (c.ColumnWidth + c.SpacingWidth))
    Y := top + ((p.2 % R : Nat) : Int) * c.StitchHeight }


/-! ## Lemmas: Go integers -/

theorem wrap64_of_range (z : Int) (h1 : -2 ^ 63 ≤ z) (h2 : z < 2 ^ 63) : wrap64 z = z := by
  unfold wrap64; omega

theorem wrap64_range (z : Int) : -2 ^ 63 ≤ wrap64 z ∧ wrap64 z < 2 ^ 63 := by
  unfold wrap64; omega

theorem wrap64_idem (z : Int) : wrap64 (wrap64 z) = wrap64 z := by
  unfold wrap64; omega

theorem wrap64_add_wrap (a b : Int) : wrap64 (wrap64 a + wrap64 b) = wrap64 (a + b) := by
  unfold wrap64; omega

theorem wrap64_sub_wrap (a b : Int) : wrap64 (wrap64 a - b) = wrap64 (a - b) := by
  unfold wrap64; omega

theorem add64_of_range (a b : Int) (h1 : -2 ^ 63 ≤ a + b) (h2 : a + b < 2 ^ 63) :
    add64 a b = a + b := wrap64_of_range _ h1 h2

theorem sub64_of_range (a b : Int) (h1 : -2 ^ 63 ≤ a - b) (h2 : a - b < 2 ^ 63) :
    sub64 a b = a - b := wrap64_of_range _ h1 h2

theorem mul64_of_range (a b : Int) (h1 : -2 ^ 63 ≤ a * b) (h2 : a * b < 2 ^ 63) :
    mul64 a b = a * b := wrap64_of_range _ h1 h2

/-! ## Lemmas: rows and the layout loop -/

theorem rowsOf_eq (c : Config) (v : List Nat) (k : Int) (hC : 0 < c.Columns)
    (h1 : (k - 1) * c.Columns < (v.length : Int)) (h2 : (v.length : Int) ≤ k * c.Columns) :
    rowsOf c v = k := by
  have hq : (0 : ℚ) < ((c.Columns : Int) : ℚ) := by exact_mod_cast hC
  unfold rowsOf
  rw [Int.ceil_eq_iff]
  constructor
  · rw [lt_div_iff₀ hq]; exact_mod_cast h1
  · rw [div_le_iff₀ hq]; exact_mod_cast h2

example : wrap64 (4611686018427387903 * 4) = -4 := by decide
example : wrap64 (4611686018427387903 * 4) = -4 := by rfl

theorem rowsOf_nonneg (c : Config) (hc : c.Valid) (v : List Nat) : 0 ≤ rowsOf c v := by
  unfold rowsOf
  apply Int.ceil_nonneg
  have h1 : (0 : ℚ) ≤ ((c.Columns : Int) : ℚ) := by
    have := hc.1
    exact_mod_cast (by omega : (0 : Int) ≤ c.Columns)
  positivity

theorem rowsOf_pos (c : Config) (hc : c.Valid) (v : List Nat) (hv : v ≠ []) :
    0 < rowsOf c v := by
  unfold rowsOf
  rw [Int.ceil_pos]
  have h1 : (0 : ℚ) < ((c.Columns : Int) : ℚ) := by
    have := hc.1
    exact_mod_cast (by omega : (0 : Int) < c.Columns)
  have h2 : (0 : ℚ) < (((v.length : Nat) : Int) : ℚ) := by
    have : 0 < v.length := List.length_pos.mpr hv
    exact_mod_cast this
  positivity

theorem length_le_rows_mul (c : Config) (hc : c.Valid) (v : List Nat) :
    (v.length : Int) ≤ rowsOf c v * c.Columns := by
  have h1 : (0 : ℚ) < ((c.Columns : Int) : ℚ) := by
    have := hc.1
    exact_mod_cast (by omega : (0 : Int) < c.Columns)
  have h2 := Int.le_ceil ((((v.length : Nat) : Int) : ℚ) / ((c.Columns : Int) : ℚ))
  rw [div_le_iff₀ h1] at h2
  unfold rowsOf
  exact_mod_cast h2

theorem rowsOf_le_length (c : Config) (hc : c.Valid) (v : List Nat) :
    rowsOf c v ≤ (v.length : Int) := by
  have h1 : (1 : ℚ) ≤ ((c.Columns : Int) : ℚ) := by exact_mod_cast hc.1
  unfold rowsOf
  rw [Int.ceil_le]
  have h2 : (0 : ℚ) ≤ (((v.length : Nat) : Int) : ℚ) := by positivity
  rw [div_le_iff₀ (by linarith)]
  push_cast at h2 ⊢
  nlinarith

/-- When the canvas width fits, no product or sum of the horizontal layout
wraps. -/
theorem fitsWidth_facts (c : Config) (hc : c.Valid) (hw : c.FitsWidth) :
    c.ColumnWidth = 7 * c.StitchWidth ∧ c.SpacingWidth = c.Spacing * c.StitchWidth ∧
    add64 c.ColumnWidth c.SpacingWidth = c.ColumnWidth + c.SpacingWidth ∧
    0 < c.ColumnWidth + c.SpacingWidth ∧ 0 ≤ c.SpacingWidth ∧
    c.Columns * (c.ColumnWidth + c.SpacingWidth) + c.SpacingWidth = c.exactWidth ∧
    c.exactWidth < 2 ^ 63 := by
  obtain ⟨h1, h2, h3, h4, h5⟩ := hc
  unfold Config.FitsWidth at hw
  have hS : 0 ≤ c.Spacing * c.StitchWidth := mul_nonneg h2 (by omega)
  have hW : c.exactWidth
      = c.Columns * (7 * c.StitchWidth + c.Spacing * c.StitchWidth)
        + c.Spacing * c.StitchWidth := by
    unfold Config.exactWidth; ring
  have hC : 7 * c.StitchWidth + c.Spacing * c.StitchWidth
      ≤ c.Columns * (7 * c.StitchWidth + c.Spacing * c.StitchWidth) := by nlinarith
  have e1 : c.ColumnWidth = 7 * c.StitchWidth :=
    mul64_of_range _ _ (by omega) (by omega)
  have e2 : c.SpacingWidth = c.Spacing * c.StitchWidth :=
    mul64_of_range _ _ (by omega) (by omega)
  rw [e1, e2]
  refine ⟨rfl, rfl, add64_of_range _ _ (by omega) (by omega), by omega, hS, hW.symm, hw⟩

/-- When the canvas height fits, no product or sum of the vertical layout
wraps. -/
theorem fitsHeight_facts (c : Config) (hc : c.Valid) (v : List Nat) (hh : c.FitsHeight v) :
    c.SpacingHeight = c.Spacing * c.StitchHeight ∧
    c.BorderHeight = c.Border * c.StitchHeight ∧
    topOf c = (if c.Border > 0 then c.SpacingHeight + (c.BorderHeight + c.SpacingHeight)
      else c.SpacingHeight) ∧
    bottomOf c v = topOf c + rowsOf c v * c.StitchHeight ∧
    0 ≤ c.SpacingHeight ∧ 0 ≤ c.BorderHeight ∧
    bottomOf c v + (if c.Border > 0 then topOf c else 0) = c.exactHeight v ∧
    c.exactHeight v < 2 ^ 63 := by
  have hr := rowsOf_nonneg c hc v
  obtain ⟨h1, h2, h3, h4, h5⟩ := hc
  unfold Config.FitsHeight at hh
  have hS : 0 ≤ c.Spacing * c.StitchHeight := mul_nonneg h2 (by omega)
  have hB : 0 ≤ c.Border * c.StitchHeight := mul_nonneg h3 (by omega)
  have hR : 0 ≤ rowsOf c v * c.StitchHeight := mul_nonneg hr (by omega)
  by_cases hb : c.Border > 0
  · have hH : c.exactHeight v = rowsOf c v * c.StitchHeight
        + 4 * (c.Spacing * c.StitchHeight) + 2 * (c.Border * c.StitchHeight) := by
      unfold Config.exactHeight; rw [if_pos hb]; ring
    have e1 : c.SpacingHeight = c.Spacing * c.StitchHeight :=
      mul64_of_range _ _ (by omega) (by omega)
    have e2 : c.BorderHeight = c.Border * c.StitchHeight :=
      mul64_of_range _ _ (by omega) (by omega)
    have e3 : topOf c = c.SpacingHeight + (c.BorderHeight + c.SpacingHeight) := by
      unfold topOf
      rw [if_pos hb, e1, e2, add64_of_range (c.Border * c.StitchHeight) _ (by omega) (by omega),
        add64_of_range _ _ (by omega) (by omega)]
    have e4 : bottomOf c v = topOf c + rowsOf c v * c.StitchHeight := by
      unfold bottomOf
      rw [mul64_of_range _ _ (by omega) (by omega), e3, e1, e2,
        add64_of_range _ _ (by omega) (by omega)]
    refine ⟨e1, e2, ?_, e4, by omega, by omega, ?_, hh⟩
    · rw [if_pos hb]; exact e3
    · rw [if_pos hb, e4, e3, e1, e2]; omega
  · have hb0 : c.Border = 0 := by omega
    have hH : c.exactHeight v = rowsOf c v * c.StitchHeight
        + c.Spacing * c.StitchHeight := by
      unfold Config.exactHeight; rw [if_neg hb]; ring
    have e1 : c.SpacingHeight = c.Spacing * c.StitchHeight :=
      mul64_of_range _ _ (by omega) (by omega)
    have e2 : c.BorderHeight = c.Border * c.StitchHeight := by
      unfold Config.BorderHeight
      rw [hb0]; exact mul64_of_range _ _ (by omega) (by omega)
    have e3 : topOf c = c.SpacingHeight := by
      unfold topOf
      rw [if_neg hb]
    have e4 : bottomOf c v = topOf c + rowsOf c v * c.StitchHeight := by
      unfold bottomOf
      rw [mul64_of_range _ _ (by omega) (by omega), e3, e1,
        add64_of_range _ _ (by omega) (by omega)]
    refine ⟨e1, e2, ?_, e4, by omega, by omega, ?_, hh⟩
    · rw [if_neg hb]; exact e3
    · rw [if_neg hb, e4, e3, e1]; omega

theorem topOf_nonneg (c : Config) (hc : c.Valid) (v : List Nat) (hh : c.FitsHeight v) :
    0 ≤ topOf c := by
  obtain ⟨-, -, e3, -, hs, hb, -, -⟩ := fitsHeight_facts c hc v hh
  rw [e3]; split_ifs <;> omega

theorem succ_div_mod (R i : Nat) (h : i % R + 1 < R) :
    (i + 1) / R = i / R ∧ (i + 1) % R = i % R + 1 := by
  have hR : 0 < R := by omega
  have h1 : i = R * (i / R) + i % R := (Nat.div_add_mod i R).symm
  have h2 : i + 1 = i % R + 1 + R * (i / R) := by omega
  constructor
  · rw [h2, Nat.add_mul_div_left _ _ hR, Nat.div_eq_of_lt h]; simp
  · rw [h2, Nat.add_mul_mod_self_left, Nat.mod_eq_of_lt h]

theorem succ_div_mod_wrap (R i : Nat) (h : i % R + 1 = R) :
    (i + 1) / R = i / R + 1 ∧ (i + 1) % R = 0 := by
  have hR : 0 < R := by omega
  have h1 : i = R * (i / R) + i % R := (Nat.div_add_mod i R).symm
  have h2 : i + 1 = R * (i / R + 1) := by rw [Nat.mul_add]; omega
  constructor
  · rw [h2, Nat.mul_div_cancel_left _ hR]
  · rw [h2, Nat.mul_mod_right]

/-- The layout loop against its index-level description, for a band of `R`
rows that lies inside the range of a Go `int`: the row cursor never wraps,
the column cursor is advanced by wrapping additions. -/
theorem layoutLoop_eq_cells (c : Config) (hsh : 1 ≤ c.StitchHeight) (top x0 : Int)
    (R : Nat) (hR : 0 < R) (hlo : -2 ^ 63 ≤ top)
    (hhi : top + (R : Int) * c.StitchHeight < 2 ^ 63) (bs : List Nat) (i : Nat) :
    layoutLoop c top (top + (R : Int) * c.StitchHeight)
        (wrap64 (x0 + ((i / R : Nat) : Int) * (c.ColumnWidth + c.SpacingWidth)))
        (top + ((i % R : Nat) : Int) * c.StitchHeight) bs
      = (cells R i bs).map (place c top x0 R) := by
  induction bs generalizing i with
  | nil => simp [layoutLoop, cells]
  | cons b bs ih =>
    have hlt : i % R < R := Nat.mod_lt i hR
    have hj0 : (0 : Int) ≤ ((i % R : Nat) : Int) := Int.natCast_nonneg _
    have hjR : ((i % R : Nat) : Int) + 1 ≤ (R : Int) := by exact_mod_cast hlt
    have hm0 : 0 ≤ ((i % R : Nat) : Int) * c.StitchHeight := mul_nonneg hj0 (by omega)
    have hm1 : (((i % R : Nat) : Int) + 1) * c.StitchHeight ≤ (R : Int) * c.StitchHeight :=
      mul_le_mul_of_nonneg_right hjR (by omega)
    have hm2 : (((i % R : Nat) : Int) + 1) * c.StitchHeight
        = ((i % R : Nat) : Int) * c.StitchHeight + c.StitchHeight := by ring
    have htop : (top + ((i % R : Nat) : Int) * c.StitchHeight = top) ↔ i % R = 0 := by
      constructor
      · intro h
        have h0 : ((i % R : Nat) : Int) * c.StitchHeight = 0 := by linarith
        rcases mul_eq_zero.mp h0 with h1 | h1
        · exact_mod_cast h1
        · omega
      · intro h; rw [h]; simp
    have hadd : add64 (top + ((i % R : Nat) : Int) * c.StitchHeight) c.StitchHeight
        = top + ((i % R : Nat) : Int) * c.StitchHeight + c.StitchHeight :=
      add64_of_range _ _ (by omega) (by omega)
    have hsub : sub64 (top + (R : Int) * c.StitchHeight) c.StitchHeight
        = top + (R : Int) * c.StitchHeight - c.StitchHeight :=
      sub64_of_range _ _ (by omega) (by omega)
    have hlast : (top + ((i % R : Nat) : Int) * c.StitchHeight + c.StitchHeight
        ≥ top + (R : Int) * c.StitchHeight) ↔ i % R + 1 = R := by
      constructor
      · intro h
        have h0 : ((R : Int) - ((i % R : Nat) : Int) - 1) * c.StitchHeight ≤ 0 := by nlinarith
        by_contra hne
        have h1 : (1 : Int) ≤ (R : Int) - ((i % R : Nat) : Int) - 1 := by omega
        nlinarith
      · intro h
        have : (R : Int) = ((i % R : Nat) : Int) + 1 := by exact_mod_cast h.symm
        rw [this]; nlinarith
    have hlast2 : (top + ((i % R : Nat) : Int) * c.StitchHeight
        ≥ top + (R : Int) * c.StitchHeight - c.StitchHeight) ↔ i % R + 1 = R := by
      rw [← hlast]; constructor <;> intro h <;> linarith
    have hstep : add64 (wrap64 (x0 + ((i / R : Nat) : Int) * (c.ColumnWidth + c.SpacingWidth)))
        (add64 c.ColumnWidth c.SpacingWidth)
        = wrap64 (x0 + ((i / R + 1 : Nat) : Int) * (c.ColumnWidth + c.SpacingWidth)) := by
      unfold add64
      rw [wrap64_add_wrap]
      congr 1
      push_cast; ring
    rw [layoutLoop, cells]
    simp only [hadd, hsub, hstep, htop, hlast, hlast2]
    by_cases h1 : b = space ∧ i % R = 0
    · rw [if_pos h1, if_pos h1]; exact ih i
    · rw [if_neg h1, if_neg h1]
      by_cases h3 : i % R + 1 = R
      · have hw := succ_div_mod_wrap R i h3
        have key := ih (i + 1)
        rw [hw.1, hw.2] at key
        have hy : top + ((0 : Nat) : Int) * c.StitchHeight = top := by simp
        rw [hy] at key
        by_cases h2 : b = space
        · have h4 : b = space ∧ i % R + 1 = R := ⟨h2, h3⟩
          rw [if_pos h4, if_pos h4]; exact key
        · have h4 : ¬(b = space ∧ i % R + 1 = R) := fun h => h2 h.1
          rw [if_neg h4, if_neg h4, if_pos h3, key]
          simp [place]
      · have hw := succ_div_mod R i (by omega)
        have key := ih (i + 1)
        rw [hw.1, hw.2] at key
        have hy : top + ((i % R + 1 : Nat) : Int) * c.StitchHeight
            = top + ((i % R : Nat) : Int) * c.StitchHeight + c.StitchHeight := by
          push_cast; ring
        rw [hy] at key
        have h4 : ¬(b = space ∧ i % R + 1 = R) := fun h => h3 h.2
        rw [if_neg h4, if_neg h4, if_neg h3, key]
        simp [place]

theorem buildCharacterSet_eq_cells (c : Config) (hc : c.Valid) (v : List Nat)
    (hh : c.FitsHeight v) :
    buildCharacterSet c v
      = (cells (rowsOf c v).toNat 0 v).map
          (place c (topOf c) c.SpacingWidth (rowsOf c v).toNat) := by
  cases v with
  | nil => simp [buildCharacterSet, layoutLoop, cells]
  | cons b bs =>
    have hpos := rowsOf_pos c hc (b :: bs) (by simp)
    have hR : 0 < (rowsOf c (b :: bs)).toNat := by omega
    have hcast : (((rowsOf c (b :: bs)).toNat : Nat) : Int) = rowsOf c (b :: bs) :=
      Int.toNat_of_nonneg (le_of_lt hpos)
    obtain ⟨-, -, -, e4, -, -, e7, e8⟩ := fitsHeight_facts c hc _ hh
    have ht := topOf_nonneg c hc _ hh
    have hbot : bottomOf c (b :: bs) < 2 ^ 63 := by
      split_ifs at e7 <;> omega
    have key := layoutLoop_eq_cells c hc.2.2.2.2 (topOf c) c.SpacingWidth
      (rowsOf c (b :: bs)).toNat hR (by omega) (by rw [hcast, ← e4]; exact hbot) (b :: bs) 0
    have hx : wrap64 c.SpacingWidth = c.SpacingWidth := wrap64_idem _
    simp only [Nat.zero_div, Nat.zero_mod, Nat.cast_zero, zero_mul, add_zero, hcast, hx] at key
    unfold buildCharacterSet
    rw [e4]
    exact key

theorem cells_index_bounds (R : Nat) (bs : List Nat) (i : Nat) :
    ∀ p ∈ cells R i bs, i ≤ p.2 ∧ p.2 < i + bs.length := by
  induction bs generalizing i with
  | nil => simp [cells]
  | cons b bs ih =>
    intro p hp
    rw [cells] at hp
    split_ifs at hp with h1 h2
    · have := ih i p hp; simp only [List.length_cons]; omega
    · have := ih (i + 1) p hp; simp only [List.length_cons]; omega
    · rcases List.mem_cons.mp hp with h | h
      · subst h; simp
      · have := ih (i + 1) p h; simp only [List.length_cons]; omega

theorem cells_pairwise (R : Nat) (bs : List Nat) (i : Nat) :
    (cells R i bs).Pairwise (fun p q => p.2 < q.2) := by
  induction bs generalizing i with
  | nil => simp [cells]
  | cons b bs ih =>
    rw [cells]
    split_ifs with h1 h2
    · exact ih i
    · exact ih (i + 1)
    · refine List.pairwise_cons.mpr ⟨?_, ih (i + 1)⟩
      intro q hq
      have := (cells_index_bounds R bs (i + 1) q hq).1
      simp only; omega

theorem cells_space (R : Nat) (bs : List Nat) (i : Nat) :
    ∀ p ∈ cells R i bs, p.1 = space → p.2 % R ≠ 0 ∧ p.2 % R + 1 ≠ R := by
  induction bs generalizing i with
  | nil => simp [cells]
  | cons b bs ih =>
    intro p hp hs
    rw [cells] at hp
    split_ifs at hp with h1 h2
    · exact ih i p hp hs
    · exact ih (i + 1) p hp hs
    · rcases List.mem_cons.mp hp with h | h
      · subst h
        simp only at hs ⊢
        exact ⟨fun h => h1 ⟨hs, h⟩, fun h => h2 ⟨hs, h⟩⟩
      · exact ih (i + 1) p h hs

theorem cells_no_space (R : Nat) (bs : List Nat) (i : Nat) (h : ∀ b ∈ bs, b ≠ space) :
    cells R i bs = (bs.enumFrom i).map (fun p => (p.2, p.1)) := by
  induction bs generalizing i with
  | nil => simp [cells]
  | cons b bs ih =>
    have hb : b ≠ space := h b (by simp)
    rw [cells, if_neg (fun h => hb h.1), if_neg (fun h => hb h.1),
      ih (i + 1) (fun x hx => h x (List.mem_cons_of_mem _ hx))]
    simp

/-- The loop drops space bytes only: the values of its records are a sublist
of the bytes, with the same non-space part. -/
theorem layoutLoop_values (c : Config) (top bottom : Int) (bs : List Nat) (x y : Int) :
    ((layoutLoop c top bottom x y bs).map Char.Value).Sublist bs ∧
    ((layoutLoop c top bottom x y bs).map Char.Value).filter (fun b => decide (b ≠ space))
      = bs.filter (fun b => decide (b ≠ space)) := by
  induction bs generalizing x y with
  | nil => simp [layoutLoop]
  | cons b bs ih =>
    rw [layoutLoop]
    by_cases h1 : b = space ∧ y = top
    · rw [if_pos h1]
      obtain ⟨s, f⟩ := ih x y
      exact ⟨s.cons b, by rw [f]; simp [h1.1]⟩
    · rw [if_neg h1]
      by_cases h2 : b = space ∧ y ≥ sub64 bottom c.StitchHeight
      · rw [if_pos h2]
        obtain ⟨s, f⟩ := ih (add64 x (add64 c.ColumnWidth c.SpacingWidth)) top
        exact ⟨s.cons b, by rw [f]; simp [h2.1]⟩
      · rw [if_neg h2]
        by_cases h3 : add64 y c.StitchHeight ≥ bottom
        · rw [if_pos h3]
          obtain ⟨s, f⟩ := ih (add64 x (add64 c.ColumnWidth c.SpacingWidth)) top
          simp only [List.map_cons, List.filter_cons, f]
          exact ⟨s.cons₂ b, trivial⟩
        · rw [if_neg h3]
          obtain ⟨s, f⟩ := ih x (add64 y c.StitchHeight)
          simp only [List.map_cons, List.filter_cons, f]
          exact ⟨s.cons₂ b, trivial⟩

/-- A space is recorded only where the loop's two tests let it through: below
the column top and above the last row. -/
theorem layoutLoop_space (c : Config) (top bottom : Int) (bs : List Nat) (x y : Int) :
    ∀ r ∈ layoutLoop c top bottom x y bs, r.Value = space →
      r.Y ≠ top ∧ r.Y < sub64 bottom c.StitchHeight := by
  induction bs generalizing x y with
  | nil => simp [layoutLoop]
  | cons b bs ih =>
    intro r hr hs
    rw [layoutLoop] at hr
    by_cases h1 : b = space ∧ y = top
    · rw [if_pos h1] at hr; exact ih x y r hr hs
    · rw [if_neg h1] at hr
      by_cases h2 : b = space ∧ y ≥ sub64 bottom c.StitchHeight
      · rw [if_pos h2] at hr; exact ih _ _ r hr hs
      · rw [if_neg h2] at hr
        rcases List.mem_cons.mp hr with h | h
        · subst h
          simp only at hs ⊢
          refine ⟨fun e => h1 ⟨hs, e⟩, ?_⟩
          by_contra hn
          exact h2 ⟨hs, by omega⟩
        · split_ifs at h
          · exact ih _ _ r h hs
          · exact ih _ _ r h hs

/-- The records of a concatenation: those of the first part, then those of
the second part laid out from the cursor the first part leaves. -/
theorem layoutLoop_append (c : Config) (top bottom : Int) (pre post : List Nat) (x y : Int) :
    layoutLoop c top bottom x y (pre ++ post)
      = layoutLoop c top bottom x y pre
        ++ layoutLoop c top bottom (cursorLoop c top bottom x y pre).1
            (cursorLoop c top bottom x y pre).2 post := by
  induction pre generalizing x y with
  | nil => simp [layoutLoop, cursorLoop]
  | cons b bs ih =>
    rw [List.cons_append, layoutLoop, layoutLoop, cursorLoop]
    by_cases h1 : b = space ∧ y = top
    · rw [if_pos h1, if_pos h1, if_pos h1]; exact ih x y
    · rw [if_neg h1, if_neg h1, if_neg h1]
      by_cases h2 : b = space ∧ y ≥ sub64 bottom c.StitchHeight
      · rw [if_pos h2, if_pos h2, if_pos h2]; exact ih _ _
      · rw [if_neg h2, if_neg h2, if_neg h2]
        by_cases h3 : add64 y c.StitchHeight ≥ bottom
        · rw [if_pos h3, if_pos h3, if_pos h3, ih]; rfl
        · rw [if_neg h3, if_neg h3, if_neg h3, ih]; rfl

theorem le_highestY (charset : List Char) (h : Int) :
    h ≤ highestY h charset ∧ ∀ r ∈ charset, r.Y ≤ highestY h charset := by
  induction charset generalizing h with
  | nil => simp [highestY]
  | cons a l ih =>
    have h1 := ih (if h < a.Y then a.Y else h)
    have e : highestY h (a :: l) = highestY (if h < a.Y then a.Y else h) l := by
      simp [highestY]
    rw [e]
    refine ⟨?_, ?_⟩
    · have := h1.1; split_ifs at this <;> omega
    · intro r hr
      rcases List.mem_cons.mp hr with hra | hrl
      · subst hra; have := h1.1; split_ifs at this <;> omega
      · exact h1.2 r hrl

theorem highestY_attained (charset : List Char) (h : Int) :
    highestY h charset = h ∨ ∃ r ∈ charset, highestY h charset = r.Y := by
  induction charset generalizing h with
  | nil => left; simp [highestY]
  | cons a l ih =>
    have e : highestY h (a :: l) = highestY (if h < a.Y then a.Y else h) l := by
      simp [highestY]
    rw [e]
    rcases ih (if h < a.Y then a.Y else h) with h1 | ⟨r, hr, h1⟩
    · by_cases hlt : h < a.Y
      · right
        refine ⟨a, List.mem_cons_self _ _, ?_⟩
        rw [h1, if_pos hlt]
      · left
        rw [h1, if_neg hlt]
    · right
      exact ⟨r, List.mem_cons_of_mem _ hr, h1⟩

/-- When the canvas width fits, the rectangle of computePatternRect starts at
x = 0 and is exactly as wide as the flags describe. -/
theorem width_eq (c : Config) (hc : c.Valid) (hw : c.FitsWidth) (charset : List Char) :
    (computePatternRect c charset).MinX = 0 ∧
    (computePatternRect c charset).MaxX = c.exactWidth ∧
    (computePatternRect c charset).Dx = c.exactWidth := by
  obtain ⟨h1, h2, h3, h4, h5⟩ := hc
  unfold Config.FitsWidth at hw
  have hp : 0 ≤ (c.Columns - 1 + 2) * c.Spacing := mul_nonneg (by omega) h2
  have ha : c.Columns * 7 + (c.Columns - 1 + 2) * c.Spacing
      ≤ (c.Columns * 7 + (c.Columns - 1 + 2) * c.Spacing) * c.StitchWidth := by nlinarith
  have hW : c.exactWidth
      = (c.Columns * 7 + (c.Columns - 1 + 2) * c.Spacing) * c.StitchWidth := rfl
  have e1 : mul64 c.Columns 7 = c.Columns * 7 := mul64_of_range _ _ (by omega) (by omega)
  have e2 : sub64 c.Columns 1 = c.Columns - 1 := sub64_of_range _ _ (by omega) (by omega)
  have e3 : add64 (c.Columns - 1) 2 = c.Columns - 1 + 2 :=
    add64_of_range _ _ (by omega) (by omega)
  have e4 : mul64 (c.Columns - 1 + 2) c.Spacing = (c.Columns - 1 + 2) * c.Spacing :=
    mul64_of_range _ _ (by omega) (by omega)
  have e5 : add64 (c.Columns * 7) ((c.Columns - 1 + 2) * c.Spacing)
      = c.Columns * 7 + (c.Columns - 1 + 2) * c.Spacing :=
    add64_of_range _ _ (by omega) (by omega)
  have e6 : mul64 (c.Columns * 7 + (c.Columns - 1 + 2) * c.Spacing) c.StitchWidth
      = c.exactWidth := mul64_of_range _ _ (by omega) (by omega)
  have h0 : 0 ≤ c.exactWidth := by omega
  simp only [computePatternRect, Rect, Rectangle.Dx, e1, e2, e3, e4, e5, e6]
  rw [if_neg (by omega), if_neg (by omega)]
  have e7 := sub64_of_range c.exactWidth 0 (by omega) (by omega)
  exact ⟨rfl, rfl, by rw [e7]; omega⟩

/-- When the canvas height fits and no record reaches below `bottom`, the
rectangle of computePatternRect starts at y = 0 and its height is the highest
Y plus one stitch height, plus the border allowance. -/
theorem height_eq (c : Config) (hc : c.Valid) (v : List Nat) (hh : c.FitsHeight v)
    (hne : v ≠ [] ∨ c.Border > 0) (charset : List Char)
    (hY : ∀ r ∈ charset, r.Y + c.StitchHeight ≤ bottomOf c v) :
    (computePatternRect c charset).MinY = 0 ∧
    (computePatternRect c charset).MaxY = (computePatternRect c charset).Dy ∧
    (computePatternRect c charset).Dy
      = highestY 0 charset + c.StitchHeight
        + (if c.Border > 0 then c.SpacingHeight + c.BorderHeight + c.SpacingHeight else 0) := by
  obtain ⟨e1, e2, e3, e4, hs, hb, e7, e8⟩ := fitsHeight_facts c hc v hh
  have hr := rowsOf_nonneg c hc v
  have hsh : 1 ≤ c.StitchHeight := hc.2.2.2.2
  have h0 := (le_highestY charset 0).1
  have hbot : c.StitchHeight ≤ bottomOf c v := by
    rcases hne with hv | hB
    · have hpos := rowsOf_pos c hc v hv
      have : c.StitchHeight ≤ rowsOf c v * c.StitchHeight := by nlinarith
      rw [e4, e3]; split_ifs <;> omega
    · have hR : 0 ≤ rowsOf c v * c.StitchHeight := mul_nonneg hr (by omega)
      have : c.StitchHeight ≤ c.Border * c.StitchHeight := by nlinarith
      rw [e4, e3, if_pos hB]; omega
  have hhi : highestY 0 charset + c.StitchHeight ≤ bottomOf c v := by
    rcases highestY_attained charset 0 with h | ⟨r, hr, h⟩
    · rw [h]; omega
    · rw [h]; exact hY r hr
  have a1 : add64 (highestY 0 charset) c.StitchHeight = highestY 0 charset + c.StitchHeight := by
    apply add64_of_range
    · omega
    · split_ifs at e7 <;> omega
  by_cases hB : c.Border > 0
  · rw [if_pos hB] at e3 e7
    have a2 : add64 c.SpacingHeight c.BorderHeight = c.SpacingHeight + c.BorderHeight :=
      add64_of_range _ _ (by omega) (by omega)
    have a3 : add64 (c.SpacingHeight + c.BorderHeight) c.SpacingHeight
        = c.SpacingHeight + c.BorderHeight + c.SpacingHeight :=
      add64_of_range _ _ (by omega) (by omega)
    have a4 : add64 (highestY 0 charset + c.StitchHeight)
        (c.SpacingHeight + c.BorderHeight + c.SpacingHeight)
        = highestY 0 charset + c.StitchHeight
          + (c.SpacingHeight + c.BorderHeight + c.SpacingHeight) :=
      add64_of_range _ _ (by omega) (by omega)
    simp only [computePatternRect, Rect, Rectangle.Dy, a1, a2, a3, a4, if_pos hB]
    rw [if_neg (by omega), if_neg (by omega)]
    have a5 := sub64_of_range (highestY 0 charset + c.StitchHeight
          + (c.SpacingHeight + c.BorderHeight + c.SpacingHeight)) 0 (by omega) (by omega)
    rw [a5]
    exact ⟨rfl, by omega, by omega⟩
  · rw [if_neg hB] at e3 e7
    simp only [computePatternRect, Rect, Rectangle.Dy, a1, if_neg hB]
    rw [if_neg (by omega), if_neg (by omega)]
    have a5 := sub64_of_range (highestY 0 charset + c.StitchHeight) 0 (by omega) (by omega)
    rw [a5]
    exact ⟨rfl, by omega, by omega⟩

theorem length_le_of_pairwise_lt (l : List Nat) (a n : Nat)
    (hp : l.Pairwise (fun x y => x < y)) (hr : ∀ x ∈ l, a ≤ x ∧ x < a + n) :
    l.length ≤ n := by
  have hnd : l.Nodup := hp.imp (fun h => Nat.ne_of_lt h)
  have hsub : l.toFinset ⊆ Finset.Ico a (a + n) := by
    intro x hx
    rw [List.mem_toFinset] at hx
    rw [Finset.mem_Ico]
    exact hr x hx
  have := Finset.card_le_card hsub
  rw [List.toFinset_card_of_nodup hnd, Nat.card_Ico] at this
  omega

theorem cells_column_count (R : Nat) (hR : 0 < R) (bs : List Nat) (i k : Nat) :
    (cells R i bs).countP (fun p => decide (p.2 / R = k)) ≤ R := by
  rw [List.countP_eq_length_filter]
  have hsub : ((cells R i bs).filter (fun p => decide (p.2 / R = k))).Sublist (cells R i bs) :=
    List.filter_sublist _
  have hp := (cells_pairwise R bs i).sublist hsub
  have hp2 : (((cells R i bs).filter (fun p => decide (p.2 / R = k))).map Prod.snd).Pairwise
      (fun x y => x < y) := by
    rw [List.pairwise_map]; exact hp
  have := length_le_of_pairwise_lt _ (k * R) R hp2 (by
    intro x hx
    rw [List.mem_map] at hx
    obtain ⟨p, hp, rfl⟩ := hx
    rw [List.mem_filter] at hp
    have hk : p.2 / R = k := by simpa using hp.2
    have h1 := Nat.div_add_mod p.2 R
    have h2 := Nat.mod_lt p.2 hR
    rw [hk, Nat.mul_comm] at h1
    omega)
  simpa using this

/-- A cell index below `len(v)` lies in a column below `Columns`. -/
theorem col_lt (c : Config) (hc : c.Valid) (v : List Nat) (i : Nat) (hi : i < v.length) :
    ((i / (rowsOf c v).toNat : Nat) : Int) < c.Columns := by
  have hv : v ≠ [] := by rintro rfl; simp at hi
  have hpos := rowsOf_pos c hc v hv
  have hcast : (((rowsOf c v).toNat : Nat) : Int) = rowsOf c v :=
    Int.toNat_of_nonneg (le_of_lt hpos)
  have hR : 0 < (rowsOf c v).toNat := by omega
  have hlen := length_le_rows_mul c hc v
  have hC : 0 ≤ c.Columns := by have := hc.1; omega
  have hC2 : ((c.Columns.toNat : Nat) : Int) = c.Columns := Int.toNat_of_nonneg hC
  have h1 : i < (rowsOf c v).toNat * c.Columns.toNat := by
    have : ((i : Nat) : Int) < (((rowsOf c v).toNat * c.Columns.toNat : Nat) : Int) := by
      push_cast; rw [hcast, hC2]; omega
    exact_mod_cast this
  have h2 : i / (rowsOf c v).toNat < c.Columns.toNat := by
    rw [Nat.div_lt_iff_lt_mul hR, Nat.mul_comm]; exact h1
  omega

/-- When the canvas width fits, the column cursor of a column below `Columns`
has not wrapped. -/
theorem colX_exact (c : Config) (hc : c.Valid) (hw : c.FitsWidth) (k : Nat)
    (hk : (k : Int) < c.Columns) :
    wrap64 (c.SpacingWidth + (k : Int) * (c.ColumnWidth + c.SpacingWidth))
      = c.SpacingWidth + (k : Int) * (c.ColumnWidth + c.SpacingWidth) := by
  obtain ⟨-, -, -, hD, hS, hW, hlt⟩ := fitsWidth_facts c hc hw
  have hk0 : (0 : Int) ≤ (k : Int) := Int.natCast_nonneg k
  have h1 : 0 ≤ (k : Int) * (c.ColumnWidth + c.SpacingWidth) := mul_nonneg hk0 (le_of_lt hD)
  have h2 : (k : Int) * (c.ColumnWidth + c.SpacingWidth)
      ≤ c.Columns * (c.ColumnWidth + c.SpacingWidth) :=
    mul_le_mul_of_nonneg_right (le_of_lt hk) (le_of_lt hD)
  exact wrap64_of_range _ (by omega) (by omega)

/-- When the canvas height fits, every record of the layout sits at a cell
index `i` below `len(v)`: column `i / rows`, row `i mod rows`. -/
theorem record_index (c : Config) (hc : c.Valid) (v : List Nat) (hh : c.FitsHeight v) :
    ∀ r ∈ buildCharacterSet c v, ∃ i : Nat, i < v.length ∧ 0 < (rowsOf c v).toNat ∧
      r.X = wrap64 (c.SpacingWidth
        + ((i / (rowsOf c v).toNat : Nat) : Int) * (c.ColumnWidth + c.SpacingWidth)) ∧
      r.Y = topOf c + ((i % (rowsOf c v).toNat : Nat) : Int) * c.StitchHeight ∧
      (r.Value = space →
        i % (rowsOf c v).toNat ≠ 0 ∧ i % (rowsOf c v).toNat + 1 ≠ (rowsOf c v).toNat) := by
  intro r hr
  rw [buildCharacterSet_eq_cells c hc v hh, List.mem_map] at hr
  obtain ⟨p, hp, rfl⟩ := hr
  have hv : v ≠ [] := by rintro rfl; simp [cells] at hp
  have hpos := rowsOf_pos c hc v hv
  have hR : 0 < (rowsOf c v).toNat := by omega
  have hb := cells_index_bounds _ v 0 p hp
  exact ⟨p.2, by omega, hR, rfl, rfl, fun hs => cells_space _ v 0 p hp hs⟩

/-- When the canvas height fits, every record sits on a row `j < rows` of the
band, and a space record neither on the first nor on the last row. -/
theorem record_row (c : Config) (hc : c.Valid) (v : List Nat) (hh : c.FitsHeight v) :
    ∀ r ∈ buildCharacterSet c v, ∃ j : Nat,
      (j : Int) < rowsOf c v ∧
      r.Y = topOf c + (j : Int) * c.StitchHeight ∧
      (r.Value = space → j ≠ 0 ∧ (j : Int) + 1 ≠ rowsOf c v) := by
  intro r hr
  obtain ⟨i, -, hR, -, hY, hs⟩ := record_index c hc v hh r hr
  have hcast : (((rowsOf c v).toNat : Nat) : Int) = rowsOf c v :=
    Int.toNat_of_nonneg (by omega)
  refine ⟨i % (rowsOf c v).toNat, ?_, hY, ?_⟩
  · have := Nat.mod_lt i hR; omega
  · intro h
    obtain ⟨h1, h2⟩ := hs h
    exact ⟨h1, by omega⟩

/-- When the canvas fits, every record of the layout sits in a column
`k < Columns` on a row `j < rows`, at the exact position of that cell. -/
theorem record_cell (c : Config) (hc : c.Valid) (v : List Nat) (hf : c.Fits v) :
    ∀ r ∈ buildCharacterSet c v, ∃ k j : Nat,
      (k : Int) < c.Columns ∧ (j : Int) < rowsOf c v ∧
      r.X = c.SpacingWidth + (k : Int) * (c.ColumnWidth + c.SpacingWidth) ∧
      r.Y = topOf c + (j : Int) * c.StitchHeight ∧
      (r.Value = space → j ≠ 0 ∧ (j : Int) + 1 ≠ rowsOf c v) := by
  intro r hr
  obtain ⟨i, hi, hR, hX, hY, hs⟩ := record_index c hc v hf.2 r hr
  have hcast : (((rowsOf c v).toNat : Nat) : Int) = rowsOf c v :=
    Int.toNat_of_nonneg (by omega)
  have hk := col_lt c hc v i hi
  refine ⟨i / (rowsOf c v).toNat, i % (rowsOf c v).toNat, hk, ?_, ?_, hY, ?_⟩
  · have := Nat.mod_lt i hR; omega
  · rw [hX, colX_exact c hc hf.1 _ hk]
  · intro h
    obtain ⟨h1, h2⟩ := hs h
    exact ⟨h1, by omega⟩

/-- Every record of the layout ends at or above `bottom`, when the canvas
height fits. -/
theorem record_above_bottom (c : Config) (hc : c.Valid) (v : List Nat) (hh : c.FitsHeight v) :
    ∀ r ∈ buildCharacterSet c v, topOf c ≤ r.Y ∧ r.Y + c.StitchHeight ≤ bottomOf c v := by
  intro r hr
  obtain ⟨j, hj, hY, -⟩ := record_row c hc v hh r hr
  obtain ⟨-, -, -, e4, -, -, -, -⟩ := fitsHeight_facts c hc v hh
  have hsh : 1 ≤ c.StitchHeight := hc.2.2.2.2
  have hj0 : (0 : Int) ≤ (j : Int) := Int.natCast_nonneg j
  have h1 : 0 ≤ (j : Int) * c.StitchHeight := mul_nonneg hj0 (by omega)
  have h2 : ((j : Int) + 1) * c.StitchHeight ≤ rowsOf c v * c.StitchHeight :=
    mul_le_mul_of_nonneg_right (by omega) (by omega)
  have h3 : ((j : Int) + 1) * c.StitchHeight = (j : Int) * c.StitchHeight + c.StitchHeight := by
    ring
  rw [hY, e4]
  constructor <;> omega

/-- A sufficient condition for `Fits` that mentions the length of the text
only: the rows are at most `len(v)`. -/
theorem fits_of_length (c : Config) (hc : c.Valid) (v : List Nat)
    (hw : c.exactWidth < 2 ^ 63)
    (hh : ((v.length : Int)
        + (if c.Border > 0 then 2 * (2 * c.Spacing + c.Border) else c.Spacing))
          * c.StitchHeight < 2 ^ 63) :
    c.Fits v := by
  refine ⟨hw, ?_⟩
  unfold Config.FitsHeight Config.exactHeight
  have h1 := rowsOf_le_length c hc v
  have hsh : 1 ≤ c.StitchHeight := hc.2.2.2.2
  have h2 : (rowsOf c v
        + (if c.Border > 0 then 2 * (2 * c.Spacing + c.Border) else c.Spacing))
          * c.StitchHeight
      ≤ ((v.length : Int)
        + (if c.Border > 0 then 2 * (2 * c.Spacing + c.Border) else c.Spacing))
          * c.StitchHeight :=
    mul_le_mul_of_nonneg_right (by omega) (by omega)
  omega

/-! ### The layout at flags that make the arithmetic wrap -/

theorem wideSpacing_layout :
    buildCharacterSet wideSpacingConfig [65, 66] = [⟨65, -4, -4⟩, ⟨66, 20, -4⟩] := by
  unfold buildCharacterSet bottomOf
  rw [rowsOf_eq wideSpacingConfig [65, 66] 1 (by decide) (by decide) (by decide)]
  decide

theorem zeroStride_layout :
    buildCharacterSet zeroStrideConfig [65, 66]
      = [⟨65, -30064771072, 25769803740⟩, ⟨66, -30064771072, 25769803740⟩] := by
  unfold buildCharacterSet bottomOf
  rw [rowsOf_eq zeroStrideConfig [65, 66] 1 (by decide) (by decide) (by decide)]
  decide

theorem tallStitch_layout :
    buildCharacterSet tallStitchConfig [65, 66, 67, 68, 69]
      = [⟨65, 4, -9223372036854775808⟩, ⟨66, 22, -9223372036854775808⟩,
         ⟨67, 40, -9223372036854775808⟩, ⟨68, 58, -9223372036854775808⟩,
         ⟨69, 76, -9223372036854775808⟩] := by
  unfold buildCharacterSet bottomOf
  rw [rowsOf_eq tallStitchConfig [65, 66, 67, 68, 69] 5 (by decide) (by decide) (by decide)]
  decide

/-- C8 as stated fails: with `-columns 4611686018427387904 -spacing 0
-stitch-width 1` (all accepted by the validation) `Columns * 7` wraps to
-2^62, image.Rect orders the corners and the width is 2^62, while the formula
of the claim gives 7 * 2^62. -/
theorem canvas_width_wraps :
    manyColumnsConfig.Valid ∧
    (computePatternRect manyColumnsConfig []).Dx = 4611686018427387904 ∧
    manyColumnsConfig.Columns * 7 * manyColumnsConfig.StitchWidth
        + ((manyColumnsConfig.Columns - 1) + 2) * manyColumnsConfig.Spacing
          * manyColumnsConfig.StitchWidth = 32281802128991715328 ∧
    ¬ ((computePatternRect manyColumnsConfig []).Dx
        = manyColumnsConfig.Columns * 7 * manyColumnsConfig.StitchWidth
          + ((manyColumnsConfig.Columns - 1) + 2) * manyColumnsConfig.Spacing
            * manyColumnsConfig.StitchWidth) := by
  refine ⟨by decide, by decide, by decide, by decide⟩

/-- C8, amended. For a valid configuration whose canvas width
`(Columns*7 + ((Columns-1)+2)*Spacing) * StitchWidth` is below 2^63, the width
of the rectangle returned by computePatternRect is
`Columns*7*StitchWidth + ((Columns-1)+2)*Spacing*StitchWidth`, whatever the
record list. -/
theorem canvas_width_formula (c : Config) (hc : c.Valid) (hw : c.FitsWidth)
    (charset : List Char) :
    (computePatternRect c charset).Dx
      = c.Columns * 7 * c.StitchWidth + ((c.Columns - 1) + 2) * c.Spacing * c.StitchWidth := by
  rw [(width_eq c hc hw charset).2.2]
  unfold Config.exactWidth
  ring

theorem canvas_width_formula_witness :
    defaultConfig.Valid ∧ defaultConfig.FitsWidth ∧
    (computePatternRect defaultConfig [⟨65, 4, 18⟩]).Dx
      = defaultConfig.Columns * 7 * defaultConfig.StitchWidth
        + ((defaultConfig.Columns - 1) + 2) * defaultConfig.Spacing * defaultConfig.StitchWidth :=
  ⟨by decide, by decide,
    canvas_width_formula defaultConfig (by decide) (by decide) [⟨65, 4, 18⟩]⟩

theorem tallSpacing_layout :
    buildCharacterSet tallSpacingConfig [65, 66]
      = [⟨65, 2305843009213693951, 9223372036854775804⟩,
         ⟨66, 2305843009213693951, -9223372036854775808⟩] := by
  unfold buildCharacterSet bottomOf
  rw [rowsOf_eq tallSpacingConfig [65, 66] 2 (by decide) (by decide) (by decide)]
  decide

theorem wideStitch_layout :
    buildCharacterSet wideStitchConfig [65, 66, 67]
      = [⟨65, 0, 6⟩, ⟨66, 8070450532247928832, 6⟩, ⟨67, -2305843009213693952, 6⟩] := by
  unfold buildCharacterSet bottomOf
  rw [rowsOf_eq wideStitchConfig [65, 66, 67] 1 (by decide) (by decide) (by decide)]
  decide

/-- C1 as stated fails: with `-spacing 4611686018427387903 -stitch-width 4
-stitch-height 4 -border 0` (accepted by the validation) and the text "AB" the
spacing in pixels wraps to -4, the records sit at (-4, -4) and (20, -4) and the
canvas is 68 by 4 pixels from the origin, so neither `0 ≤ X` nor `0 ≤ Y` holds. -/
theorem records_outside_canvas :
    wideSpacingConfig.Valid ∧
    buildCharacterSet wideSpacingConfig [65, 66] = [⟨65, -4, -4⟩, ⟨66, 20, -4⟩] ∧
    computePatternRect wideSpacingConfig (buildCharacterSet wideSpacingConfig [65, 66])
      = ⟨0, 0, 68, 4⟩ ∧
    ¬ (∀ r ∈ buildCharacterSet wideSpacingConfig [65, 66],
      0 ≤ r.X ∧
      r.X + 7 * wideSpacingConfig.StitchWidth
        ≤ (computePatternRect wideSpacingConfig
            (buildCharacterSet wideSpacingConfig [65, 66])).Dx
          - wideSpacingConfig.SpacingWidth ∧
      0 ≤ r.Y ∧
      r.Y + wideSpacingConfig.StitchHeight
        ≤ (computePatternRect wideSpacingConfig
            (buildCharacterSet wideSpacingConfig [65, 66])).Dy) := by
  rw [wideSpacing_layout]
  exact ⟨by decide, rfl, by decide, by decide⟩

/-- C1, amended. For a valid configuration whose canvas is less than 2^63
pixels wide and high, every record of buildCharacterSet has its 7-stitch cell
inside the canvas of computePatternRect: the rectangle starts at the origin,
`0 ≤ X`, `X + 7*StitchWidth ≤ width - SpacingWidth`, `0 ≤ Y` and
`Y + StitchHeight ≤ height`. -/
theorem records_inside_canvas (c : Config) (hc : c.Valid) (v : List Nat) (hf : c.Fits v) :
    ∀ r ∈ buildCharacterSet c v,
      (computePatternRect c (buildCharacterSet c v)).MinX = 0 ∧
      (computePatternRect c (buildCharacterSet c v)).MinY = 0 ∧
      0 ≤ r.X ∧
      r.X + 7 * c.StitchWidth
        ≤ (computePatternRect c (buildCharacterSet c v)).Dx - c.SpacingWidth ∧
      0 ≤ r.Y ∧
      r.Y + c.StitchHeight ≤ (computePatternRect c (buildCharacterSet c v)).Dy := by
  intro r hr
  have hv : v ≠ [] := by
    rintro rfl
    simp [buildCharacterSet, layoutLoop] at hr
  obtain ⟨eCW, -, -, hD, hSW, hW, -⟩ := fitsWidth_facts c hc hf.1
  obtain ⟨-, -, -, -, hSH, hBH, -, -⟩ := fitsHeight_facts c hc v hf.2
  have htop := topOf_nonneg c hc v hf.2
  obtain ⟨hx0, -, hw⟩ := width_eq c hc hf.1 (buildCharacterSet c v)
  obtain ⟨hy0, -, hh⟩ := height_eq c hc v hf.2 (Or.inl hv) (buildCharacterSet c v)
    (fun q hq => (record_above_bottom c hc v hf.2 q hq).2)
  obtain ⟨k, j, hk, hj, hX, hY, -⟩ := record_cell c hc v hf r hr
  have hmax := (le_highestY (buildCharacterSet c v) 0).2 r hr
  have hk0 : (0 : Int) ≤ (k : Int) := Int.natCast_nonneg k
  have hj0 : (0 : Int) ≤ (j : Int) := Int.natCast_nonneg j
  have hsh : 1 ≤ c.StitchHeight := hc.2.2.2.2
  have hkD : 0 ≤ (k : Int) * (c.ColumnWidth + c.SpacingWidth) := mul_nonneg hk0 (le_of_lt hD)
  have hjS : 0 ≤ (j : Int) * c.StitchHeight := mul_nonneg hj0 (by omega)
  refine ⟨hx0, hy0, ?_, ?_, ?_, ?_⟩
  · rw [hX]; omega
  · rw [hX, hw, ← hW, ← eCW]
    have : ((k : Int) + 1) * (c.ColumnWidth + c.SpacingWidth)
        ≤ c.Columns * (c.ColumnWidth + c.SpacingWidth) :=
      mul_le_mul_of_nonneg_right (by omega) (le_of_lt hD)
    have e : ((k : Int) + 1) * (c.ColumnWidth + c.SpacingWidth)
        = (k : Int) * (c.ColumnWidth + c.SpacingWidth) + (c.ColumnWidth + c.SpacingWidth) := by
      ring
    omega
  · rw [hY]; omega
  · rw [hh]; split_ifs <;> omega

theorem records_inside_canvas_witness :
    defaultConfig.Valid ∧ defaultConfig.Fits [72, 105, 32, 33] ∧
    ∀ r ∈ buildCharacterSet defaultConfig [72, 105, 32, 33],
      (computePatternRect defaultConfig
        (buildCharacterSet defaultConfig [72, 105, 32, 33])).MinX = 0 ∧
      (computePatternRect defaultConfig
        (buildCharacterSet defaultConfig [72, 105, 32, 33])).MinY = 0 ∧
      0 ≤ r.X ∧
      r.X + 7 * defaultConfig.StitchWidth
        ≤ (computePatternRect defaultConfig
            (buildCharacterSet defaultConfig [72, 105, 32, 33])).Dx
          - defaultConfig.SpacingWidth ∧
      0 ≤ r.Y ∧
      r.Y + defaultConfig.StitchHeight
        ≤ (computePatternRect defaultConfig
            (buildCharacterSet defaultConfig [72, 105, 32, 33])).Dy :=
  ⟨by decide, fits_of_length defaultConfig (by decide) _ (by decide) (by decide),
    records_inside_canvas defaultConfig (by decide) [72, 105, 32, 33]
      (fits_of_length defaultConfig (by decide) _ (by decide) (by decide))⟩

/-- C2. The record values of buildCharacterSet, in order, are the bytes of `v`
with only space bytes removed: they form a sublist of `v`, their non-space
part is the non-space part of `v`, and there are at most `len(v)` records. -/
theorem record_values_subsequence (c : Config) (hc : c.Valid) (v : List Nat) :
    ((buildCharacterSet c v).map Char.Value).Sublist v ∧
    ((buildCharacterSet c v).map Char.Value).filter (fun b => decide (b ≠ space))
      = v.filter (fun b => decide (b ≠ space)) ∧
    (buildCharacterSet c v).length ≤ v.length := by
  have _ := hc
  obtain ⟨hsub, hfil⟩ :=
    layoutLoop_values c (topOf c) (bottomOf c v) v c.SpacingWidth (topOf c)
  refine ⟨hsub, hfil, ?_⟩
  have := hsub.length_le
  simpa [buildCharacterSet] using this

theorem record_values_subsequence_witness :
    defaultConfig.Valid ∧
    ((buildCharacterSet defaultConfig [32, 72, 105, 32, 33]).map Char.Value).Sublist
      [32, 72, 105, 32, 33] ∧
    ((buildCharacterSet defaultConfig [32, 72, 105, 32, 33]).map Char.Value).filter
        (fun b => decide (b ≠ space))
      = [32, 72, 105, 32, 33].filter (fun b => decide (b ≠ space)) ∧
    (buildCharacterSet defaultConfig [32, 72, 105, 32, 33]).length
      ≤ [32, 72, 105, 32, 33].length :=
  ⟨by decide, record_values_subsequence defaultConfig (by decide) [32, 72, 105, 32, 33]⟩

/-- C3 as stated fails, in two ways. With `-columns 2 -spacing 4294967289
-stitch-width 4294967296` the column stride wraps to 0 and the two records of
"AB" get the same X and Y. With `-columns 1 -spacing 2305843009213693951
-border 0 -stitch-width 1 -stitch-height 4` the row cursor wraps from 2^63 - 4
to -2^63, so the second record of "AB" lies above `top` and the records are not
increasing. Both sets of flags are accepted by the validation. -/
theorem records_share_cell :
    zeroStrideConfig.Valid ∧ tallSpacingConfig.Valid ∧
    buildCharacterSet zeroStrideConfig [65, 66]
      = [⟨65, -30064771072, 25769803740⟩, ⟨66, -30064771072, 25769803740⟩] ∧
    ¬ (buildCharacterSet zeroStrideConfig [65, 66]).Pairwise
        (fun a b => a.X < b.X ∨ (a.X = b.X ∧ a.Y < b.Y)) ∧
    buildCharacterSet tallSpacingConfig [65, 66]
      = [⟨65, 2305843009213693951, 9223372036854775804⟩,
         ⟨66, 2305843009213693951, -9223372036854775808⟩] ∧
    ¬ (∀ r ∈ buildCharacterSet tallSpacingConfig [65, 66], topOf tallSpacingConfig ≤ r.Y) ∧
    ¬ (buildCharacterSet tallSpacingConfig [65, 66]).Pairwise
        (fun a b => a.X < b.X ∨ (a.X = b.X ∧ a.Y < b.Y)) := by
  rw [zeroStride_layout, tallSpacing_layout]
  exact ⟨by decide, by decide, rfl, by decide, rfl, by decide, by decide⟩

/-- C3, amended. For a valid configuration whose canvas is less than 2^63
pixels wide and high, with `top`, `rows` and `bottom = top + rows*StitchHeight`
as computed by buildCharacterSet, every record has `top ≤ Y < bottom` with
`Y - top` a multiple of StitchHeight, and the record list is strictly increasing
in the lexicographic order on `(X, Y)`. -/
theorem records_in_band_and_ordered (c : Config) (hc : c.Valid) (v : List Nat)
    (hf : c.Fits v) :
    bottomOf c v = topOf c + rowsOf c v * c.StitchHeight ∧
    (∀ r ∈ buildCharacterSet c v,
      topOf c ≤ r.Y ∧ r.Y < bottomOf c v ∧ c.StitchHeight ∣ (r.Y - topOf c)) ∧
    (buildCharacterSet c v).Pairwise
      (fun a b => a.X < b.X ∨ (a.X = b.X ∧ a.Y < b.Y)) := by
  obtain ⟨-, -, -, hD, -, -, -⟩ := fitsWidth_facts c hc hf.1
  obtain ⟨-, -, -, e4, -, -, -, -⟩ := fitsHeight_facts c hc v hf.2
  have hsh : 1 ≤ c.StitchHeight := hc.2.2.2.2
  refine ⟨e4, ?_, ?_⟩
  · intro r hr
    obtain ⟨h1, h2⟩ := record_above_bottom c hc v hf.2 r hr
    obtain ⟨j, -, hY, -⟩ := record_row c hc v hf.2 r hr
    refine ⟨h1, by omega, ?_⟩
    rw [hY]; exact ⟨(j : Int), by ring⟩
  · rw [buildCharacterSet_eq_cells c hc v hf.2, List.pairwise_map]
    refine (cells_pairwise (rowsOf c v).toNat v 0).imp_of_mem ?_
    intro p q hp hq hpq
    have hv : v ≠ [] := by rintro rfl; simp [cells] at hp
    have hRpos : 0 < (rowsOf c v).toNat := by
      have := rowsOf_pos c hc v hv; omega
    have hpb := (cells_index_bounds _ v 0 p hp).2
    have hqb := (cells_index_bounds _ v 0 q hq).2
    simp only [place]
    rw [colX_exact c hc hf.1 _ (col_lt c hc v p.2 (by omega)),
      colX_exact c hc hf.1 _ (col_lt c hc v q.2 (by omega))]
    have hdiv : p.2 / (rowsOf c v).toNat ≤ q.2 / (rowsOf c v).toNat :=
      Nat.div_le_div_right (le_of_lt hpq)
    rcases Nat.lt_or_eq_of_le hdiv with hlt | heq
    · left
      have : ((p.2 / (rowsOf c v).toNat : Nat) : Int) < ((q.2 / (rowsOf c v).toNat : Nat) : Int) := by
        exact_mod_cast hlt
      nlinarith
    · right
      refine ⟨by rw [heq], ?_⟩
      have h1 := Nat.div_add_mod p.2 (rowsOf c v).toNat
      have h2 := Nat.div_add_mod q.2 (rowsOf c v).toNat
      rw [heq] at h1
      have hmod : p.2 % (rowsOf c v).toNat < q.2 % (rowsOf c v).toNat := by omega
      have : ((p.2 % (rowsOf c v).toNat : Nat) : Int) < ((q.2 % (rowsOf c v).toNat : Nat) : Int) := by
        exact_mod_cast hmod
      nlinarith

theorem records_in_band_and_ordered_witness :
    defaultConfig.Valid ∧ defaultConfig.Fits [72, 105, 32, 33, 33] ∧
    (bottomOf defaultConfig [72, 105, 32, 33, 33]
      = topOf defaultConfig
        + rowsOf defaultConfig [72, 105, 32, 33, 33] * defaultConfig.StitchHeight ∧
    (∀ r ∈ buildCharacterSet defaultConfig [72, 105, 32, 33, 33],
      topOf defaultConfig ≤ r.Y ∧
      r.Y < bottomOf defaultConfig [72, 105, 32, 33, 33] ∧
      defaultConfig.StitchHeight ∣ (r.Y - topOf defaultConfig)) ∧
    (buildCharacterSet defaultConfig [72, 105, 32, 33, 33]).Pairwise
      (fun a b => a.X < b.X ∨ (a.X = b.X ∧ a.Y < b.Y))) :=
  ⟨by decide, fits_of_length defaultConfig (by decide) _ (by decide) (by decide),
    records_in_band_and_ordered defaultConfig (by decide) [72, 105, 32, 33, 33]
      (fits_of_length defaultConfig (by decide) _ (by decide) (by decide))⟩

/-- C4 as stated fails, in two ways. With `-columns 1 -stitch-height
4611686018427387904` the product `rows * StitchHeight` wraps, `bottom` is
-2^62 and each of the five records of "ABCDE" opens a column of its own, at
X = 4, 22, 40, 58, 76, so the column index is not below `Columns = 1`. With
`-columns 2 -spacing 4294967289 -stitch-width 4294967296` the stride wraps to 0
and both records of "AB" have the X of column 0 although `rows = 1`. -/
theorem records_beyond_columns :
    tallStitchConfig.Valid ∧ zeroStrideConfig.Valid ∧
    buildCharacterSet tallStitchConfig [65, 66, 67, 68, 69]
      = [⟨65, 4, -9223372036854775808⟩, ⟨66, 22, -9223372036854775808⟩,
         ⟨67, 40, -9223372036854775808⟩, ⟨68, 58, -9223372036854775808⟩,
         ⟨69, 76, -9223372036854775808⟩] ∧
    ¬ (∀ r ∈ buildCharacterSet tallStitchConfig [65, 66, 67, 68, 69], ∃ k : Int,
      0 ≤ k ∧ k < tallStitchConfig.Columns ∧
      r.X = tallStitchConfig.SpacingWidth
        + k * (tallStitchConfig.ColumnWidth + tallStitchConfig.SpacingWidth)) ∧
    rowsOf zeroStrideConfig [65, 66] = 1 ∧
    ¬ (∀ k : Int,
      (((buildCharacterSet zeroStrideConfig [65, 66]).countP
        (fun r => decide (r.X = zeroStrideConfig.SpacingWidth
          + k * (zeroStrideConfig.ColumnWidth + zeroStrideConfig.SpacingWidth))) : Nat) : Int)
        ≤ rowsOf zeroStrideConfig [65, 66]) := by
  have hrows : rowsOf zeroStrideConfig [65, 66] = 1 :=
    rowsOf_eq zeroStrideConfig [65, 66] 1 (by decide) (by decide) (by decide)
  refine ⟨by decide, by decide, tallStitch_layout, ?_, hrows, ?_⟩
  · intro h
    obtain ⟨k, h0, h1, h2⟩ := h ⟨66, 22, -9223372036854775808⟩
      (by rw [tallStitch_layout]; simp)
    have e1 : tallStitchConfig.SpacingWidth = 4 := by decide
    have e2 : tallStitchConfig.ColumnWidth = 14 := by decide
    have e3 : tallStitchConfig.Columns = 1 := rfl
    rw [e3] at h1
    rw [e1, e2] at h2
    simp only at h2
    omega
  · intro h
    have h0 := h 0
    rw [zeroStride_layout, hrows] at h0
    revert h0
    decide

/-- C4, amended. For a valid configuration whose canvas is less than 2^63
pixels wide and high, every record of buildCharacterSet has
`X = SpacingWidth + k*(ColumnWidth + SpacingWidth)` for a column index
`0 ≤ k < Columns`, and for every `k` at most `rows = ceil(len(v)/Columns)`
records have that X. -/
theorem records_per_column (c : Config) (hc : c.Valid) (v : List Nat) (hf : c.Fits v) :
    (∀ r ∈ buildCharacterSet c v, ∃ k : Int, 0 ≤ k ∧ k < c.Columns ∧
      r.X = c.SpacingWidth + k * (c.ColumnWidth + c.SpacingWidth)) ∧
    ∀ k : Int,
      (((buildCharacterSet c v).countP
        (fun r => decide (r.X = c.SpacingWidth + k * (c.ColumnWidth + c.SpacingWidth))) : Nat) : Int)
        ≤ rowsOf c v := by
  obtain ⟨-, -, -, hD, -, -, -⟩ := fitsWidth_facts c hc hf.1
  constructor
  · intro r hr
    obtain ⟨k, j, hk, -, hX, -, -⟩ := record_cell c hc v hf r hr
    exact ⟨(k : Int), Int.natCast_nonneg k, hk, hX⟩
  · intro k
    have hnn := rowsOf_nonneg c hc v
    have hcast : (((rowsOf c v).toNat : Nat) : Int) = rowsOf c v := Int.toNat_of_nonneg hnn
    rw [buildCharacterSet_eq_cells c hc v hf.2, List.countP_map]
    by_cases hR : (rowsOf c v).toNat = 0
    · have hv : v = [] := by
        by_contra hv
        have := rowsOf_pos c hc v hv
        omega
      subst hv
      simp [cells]
      exact hnn
    · have hRpos : 0 < (rowsOf c v).toNat := Nat.pos_of_ne_zero hR
      have hcount : List.countP
          ((fun r : Char => decide (r.X = c.SpacingWidth + k * (c.ColumnWidth + c.SpacingWidth)))
            ∘ place c (topOf c) c.SpacingWidth (rowsOf c v).toNat)
          (cells (rowsOf c v).toNat 0 v)
          ≤ List.countP (fun p => decide (p.2 / (rowsOf c v).toNat = k.toNat))
              (cells (rowsOf c v).toNat 0 v) := by
        apply List.countP_mono_left
        intro p hpm hp
        have hpb := (cells_index_bounds _ v 0 p hpm).2
        simp only [Function.comp, place, decide_eq_true_eq] at hp ⊢
        rw [colX_exact c hc hf.1 _ (col_lt c hc v p.2 (by omega))] at hp
        have h1 : ((p.2 / (rowsOf c v).toNat : Nat) : Int) = k := by
          have h2 : (((p.2 / (rowsOf c v).toNat : Nat) : Int) - k)
              * (c.ColumnWidth + c.SpacingWidth) = 0 := by linarith
          rcases mul_eq_zero.mp h2 with h3 | h3
          · omega
          · omega
        rw [← h1, Int.toNat_natCast]
      have := cells_column_count (rowsOf c v).toNat hRpos v 0 k.toNat
      omega

theorem records_per_column_witness :
    defaultConfig.Valid ∧ defaultConfig.Fits [72, 105, 32, 33, 33] ∧
    ((∀ r ∈ buildCharacterSet defaultConfig [72, 105, 32, 33, 33], ∃ k : Int,
      0 ≤ k ∧ k < defaultConfig.Columns ∧
      r.X = defaultConfig.SpacingWidth
        + k * (defaultConfig.ColumnWidth + defaultConfig.SpacingWidth)) ∧
    ∀ k : Int,
      (((buildCharacterSet defaultConfig [72, 105, 32, 33, 33]).countP
        (fun r => decide (r.X = defaultConfig.SpacingWidth
          + k * (defaultConfig.ColumnWidth + defaultConfig.SpacingWidth))) : Nat) : Int)
        ≤ rowsOf defaultConfig [72, 105, 32, 33, 33]) :=
  ⟨by decide, fits_of_length defaultConfig (by decide) _ (by decide) (by decide),
    records_per_column defaultConfig (by decide) [72, 105, 32, 33, 33]
      (fits_of_length defaultConfig (by decide) _ (by decide) (by decide))⟩

theorem default_abspaceb_rows : rowsOf defaultConfig [97, 32, 98] = 1 :=
  rowsOf_eq defaultConfig [97, 32, 98] 1 (by decide) (by decide) (by decide)

/-- C9 as stated fails: with the default flags (3 columns) and the text "a b"
there is one row, so the top row is also the last row. After `a` the cursor is
at (22, 18), at the last row; the space met there is dropped by the test for
the column top, which leaves the cursor where it is, and `b` is placed at
X = 22, not in the next column at X = 40. -/
theorem space_at_single_row_keeps_cursor :
    defaultConfig.Valid ∧
    buildCharacterSet defaultConfig [97, 32, 98] = [⟨97, 4, 18⟩, ⟨98, 22, 18⟩] ∧
    topOf defaultConfig
      + (rowsOf defaultConfig [97, 32, 98] - 1) * defaultConfig.StitchHeight = 18 ∧
    cursorLoop defaultConfig (topOf defaultConfig) (bottomOf defaultConfig [97, 32, 98])
      defaultConfig.SpacingWidth (topOf defaultConfig) [97] = (22, 18) ∧
    cursorLoop defaultConfig (topOf defaultConfig) (bottomOf defaultConfig [97, 32, 98])
      defaultConfig.SpacingWidth (topOf defaultConfig) [97, 32] = (22, 18) ∧
    ¬ (∀ (x y : Int) (bs : List Nat),
      y ≥ sub64 (bottomOf defaultConfig [97, 32, 98]) defaultConfig.StitchHeight →
      layoutLoop defaultConfig (topOf defaultConfig) (bottomOf defaultConfig [97, 32, 98])
          x y (space :: bs)
        = layoutLoop defaultConfig (topOf defaultConfig) (bottomOf defaultConfig [97, 32, 98])
            (add64 x (add64 defaultConfig.ColumnWidth defaultConfig.SpacingWidth))
            (topOf defaultConfig) bs) := by
  have hb : bottomOf defaultConfig [97, 32, 98] = 21 := by
    unfold bottomOf; rw [default_abspaceb_rows]; decide
  refine ⟨by decide, ?_, ?_, ?_, ?_, ?_⟩
  · unfold buildCharacterSet; rw [hb]; decide
  · rw [default_abspaceb_rows]; decide
  · rw [hb]; decide
  · rw [hb]; decide
  · intro h
    have h1 := h 22 18 [98]
    rw [hb] at h1
    revert h1
    decide

/-- C9, amended. No record of buildCharacterSet whose value is a space sits at
the top row (`Y = top`) or at the last row (`Y = bottom - StitchHeight`, which
is `top + (rows-1)*StitchHeight` stored in a Go `int`, and exactly that when
the canvas height is below 2^63). A space met with the cursor at the column
top is dropped with the cursor unchanged, also when the top row is the last
row; a space met with the cursor at the last row, below the column top, is
dropped and the next byte is laid out from the top of the next column. -/
theorem no_space_at_column_ends (c : Config) (hc : c.Valid) (v : List Nat) :
    (∀ r ∈ buildCharacterSet c v, r.Value = space →
      r.Y ≠ topOf c ∧ r.Y ≠ sub64 (bottomOf c v) c.StitchHeight) ∧
    sub64 (bottomOf c v) c.StitchHeight
      = wrap64 (topOf c + (rowsOf c v - 1) * c.StitchHeight) ∧
    (c.FitsHeight v → v ≠ [] →
      sub64 (bottomOf c v) c.StitchHeight = topOf c + (rowsOf c v - 1) * c.StitchHeight) ∧
    (∀ pre post : List Nat, v = pre ++ space :: post →
      (cursorLoop c (topOf c) (bottomOf c v) c.SpacingWidth (topOf c) pre).2 = topOf c →
      buildCharacterSet c v
        = layoutLoop c (topOf c) (bottomOf c v) c.SpacingWidth (topOf c) pre
          ++ layoutLoop c (topOf c) (bottomOf c v)
              (cursorLoop c (topOf c) (bottomOf c v) c.SpacingWidth (topOf c) pre).1
              (topOf c) post) ∧
    (∀ pre post : List Nat, v = pre ++ space :: post →
      (cursorLoop c (topOf c) (bottomOf c v) c.SpacingWidth (topOf c) pre).2 ≠ topOf c →
      (cursorLoop c (topOf c) (bottomOf c v) c.SpacingWidth (topOf c) pre).2
        ≥ sub64 (bottomOf c v) c.StitchHeight →
      buildCharacterSet c v
        = layoutLoop c (topOf c) (bottomOf c v) c.SpacingWidth (topOf c) pre
          ++ layoutLoop c (topOf c) (bottomOf c v)
              (add64 (cursorLoop c (topOf c) (bottomOf c v) c.SpacingWidth (topOf c) pre).1
                (add64 c.ColumnWidth c.SpacingWidth))
              (topOf c) post) := by
  have hlast : sub64 (bottomOf c v) c.StitchHeight
      = wrap64 (topOf c + (rowsOf c v - 1) * c.StitchHeight) := by
    have e : (rowsOf c v - 1) * c.StitchHeight
        = rowsOf c v * c.StitchHeight - c.StitchHeight := by ring
    rw [e]
    unfold bottomOf sub64 add64 mul64 wrap64
    omega
  refine ⟨?_, hlast, ?_, ?_, ?_⟩
  · intro r hr hs
    obtain ⟨h1, h2⟩ := layoutLoop_space c (topOf c) (bottomOf c v) v c.SpacingWidth (topOf c)
      r hr hs
    exact ⟨h1, by omega⟩
  · intro hh hv
    obtain ⟨-, -, -, e4, -, -, e7, e8⟩ := fitsHeight_facts c hc v hh
    have ht := topOf_nonneg c hc v hh
    have hpos := rowsOf_pos c hc v hv
    have hsh : 1 ≤ c.StitchHeight := hc.2.2.2.2
    have h1 : 0 ≤ (rowsOf c v - 1) * c.StitchHeight := mul_nonneg (by omega) (by omega)
    have e : (rowsOf c v - 1) * c.StitchHeight
        = rowsOf c v * c.StitchHeight - c.StitchHeight := by ring
    rw [hlast]
    apply wrap64_of_range
    · omega
    · split_ifs at e7 <;> omega
  · intro pre post hv hy
    unfold buildCharacterSet
    rw [hv] at *
    generalize bottomOf c (pre ++ space :: post) = bottom at *
    rw [layoutLoop_append, layoutLoop, if_pos ⟨rfl, hy⟩, hy]
  · intro pre post hv hy hl
    unfold buildCharacterSet
    rw [hv] at *
    generalize bottomOf c (pre ++ space :: post) = bottom at *
    rw [layoutLoop_append, layoutLoop, if_neg (fun h => hy h.2), if_pos ⟨rfl, hl⟩]

theorem no_space_at_column_ends_witness :
    defaultConfig.Valid ∧
    ((∀ r ∈ buildCharacterSet defaultConfig [32, 72, 105, 32, 33], r.Value = space →
      r.Y ≠ topOf defaultConfig ∧
      r.Y ≠ sub64 (bottomOf defaultConfig [32, 72, 105, 32, 33]) defaultConfig.StitchHeight) ∧
    sub64 (bottomOf defaultConfig [32, 72, 105, 32, 33]) defaultConfig.StitchHeight
      = wrap64 (topOf defaultConfig
          + (rowsOf defaultConfig [32, 72, 105, 32, 33] - 1) * defaultConfig.StitchHeight) ∧
    (defaultConfig.FitsHeight [32, 72, 105, 32, 33] → [32, 72, 105, 32, 33] ≠ [] →
      sub64 (bottomOf defaultConfig [32, 72, 105, 32, 33]) defaultConfig.StitchHeight
        = topOf defaultConfig
          + (rowsOf defaultConfig [32, 72, 105, 32, 33] - 1) * defaultConfig.StitchHeight) ∧
    (∀ pre post : List Nat, [32, 72, 105, 32, 33] = pre ++ space :: post →
      (cursorLoop defaultConfig (topOf defaultConfig)
          (bottomOf defaultConfig [32, 72, 105, 32, 33])
          defaultConfig.SpacingWidth (topOf defaultConfig) pre).2 = topOf defaultConfig →
      buildCharacterSet defaultConfig [32, 72, 105, 32, 33]
        = layoutLoop defaultConfig (topOf defaultConfig)
            (bottomOf defaultConfig [32, 72, 105, 32, 33])
            defaultConfig.SpacingWidth (topOf defaultConfig) pre
          ++ layoutLoop defaultConfig (topOf defaultConfig)
              (bottomOf defaultConfig [32, 72, 105, 32, 33])
              (cursorLoop defaultConfig (topOf defaultConfig)
                (bottomOf defaultConfig [32, 72, 105, 32, 33])
                defaultConfig.SpacingWidth (topOf defaultConfig) pre).1
              (topOf defaultConfig) post) ∧
    (∀ pre post : List Nat, [32, 72, 105, 32, 33] = pre ++ space :: post →
      (cursorLoop defaultConfig (topOf defaultConfig)
          (bottomOf defaultConfig [32, 72, 105, 32, 33])
          defaultConfig.SpacingWidth (topOf defaultConfig) pre).2 ≠ topOf defaultConfig →
      (cursorLoop defaultConfig (topOf defaultConfig)
          (bottomOf defaultConfig [32, 72, 105, 32, 33])
          defaultConfig.SpacingWidth (topOf defaultConfig) pre).2
        ≥ sub64 (bottomOf defaultConfig [32, 72, 105, 32, 33]) defaultConfig.StitchHeight →
      buildCharacterSet defaultConfig [32, 72, 105, 32, 33]
        = layoutLoop defaultConfig (topOf defaultConfig)
            (bottomOf defaultConfig [32, 72, 105, 32, 33])
            defaultConfig.SpacingWidth (topOf defaultConfig) pre
          ++ layoutLoop defaultConfig (topOf defaultConfig)
              (bottomOf defaultConfig [32, 72, 105, 32, 33])
              (add64 (cursorLoop defaultConfig (topOf defaultConfig)
                  (bottomOf defaultConfig [32, 72, 105, 32, 33])
                  defaultConfig.SpacingWidth (topOf defaultConfig) pre).1
                (add64 defaultConfig.ColumnWidth defaultConfig.SpacingWidth))
              (topOf defaultConfig) post)) :=
  ⟨by decide, no_space_at_column_ends defaultConfig (by decide) [32, 72, 105, 32, 33]⟩

/-- C10 as stated fails, in two ways. With `-columns 1 -stitch-height
4611686018427387904` and "ABCDE" (`rows = 5`) the band is one row high after
wrap-around, so record 1 sits at X = 22, Y = top, where the claim puts it at
X = 4, one row down. With `-spacing 0 -stitch-width 1152921504606846976` and
"ABC" (`rows = 1`) the X of the third column wraps: record 2 sits at X = -2^61
where the claim gives `SpacingWidth + 2*(ColumnWidth + SpacingWidth)`. -/
theorem column_major_wraps :
    tallStitchConfig.Valid ∧ wideStitchConfig.Valid ∧
    rowsOf tallStitchConfig [65, 66, 67, 68, 69] = 5 ∧
    (buildCharacterSet tallStitchConfig [65, 66, 67, 68, 69])[1]?
      = some ⟨66, 22, -9223372036854775808⟩ ∧
    ¬ ((buildCharacterSet tallStitchConfig [65, 66, 67, 68, 69])[1]? = some
        { Value := 66
          X := tallStitchConfig.SpacingWidth
            + ((1 : Int) / rowsOf tallStitchConfig [65, 66, 67, 68, 69])
              * (tallStitchConfig.ColumnWidth + tallStitchConfig.SpacingWidth)
          Y := topOf tallStitchConfig
            + ((1 : Int) % rowsOf tallStitchConfig [65, 66, 67, 68, 69])
              * tallStitchConfig.StitchHeight }) ∧
    rowsOf wideStitchConfig [65, 66, 67] = 1 ∧
    (buildCharacterSet wideStitchConfig [65, 66, 67])[2]?
      = some ⟨67, -2305843009213693952, 6⟩ ∧
    ¬ ((buildCharacterSet wideStitchConfig [65, 66, 67])[2]? = some
        { Value := 67
          X := wideStitchConfig.SpacingWidth
            + ((2 : Int) / rowsOf wideStitchConfig [65, 66, 67])
              * (wideStitchConfig.ColumnWidth + wideStitchConfig.SpacingWidth)
          Y := topOf wideStitchConfig
            + ((2 : Int) % rowsOf wideStitchConfig [65, 66, 67])
              * wideStitchConfig.StitchHeight }) := by
  have h5 : rowsOf tallStitchConfig [65, 66, 67, 68, 69] = 5 :=
    rowsOf_eq tallStitchConfig [65, 66, 67, 68, 69] 5 (by decide) (by decide) (by decide)
  have h1 : rowsOf wideStitchConfig [65, 66, 67] = 1 :=
    rowsOf_eq wideStitchConfig [65, 66, 67] 1 (by decide) (by decide) (by decide)
  rw [tallStitch_layout, wideStitch_layout, h5, h1]
  exact ⟨by decide, by decide, rfl, rfl, by decide, rfl, rfl, by decide⟩

/-- C10, amended. For a valid configuration whose canvas is less than 2^63
pixels wide and high, and a non-empty `v` without space bytes,
buildCharacterSet yields exactly `len(v)` records, record `i` holding `v[i]` at
`X = SpacingWidth + (i / rows)*(ColumnWidth + SpacingWidth)` and
`Y = top + (i mod rows)*StitchHeight`; for `v = "AB"` and one column these are
two records with the same X, one StitchHeight apart, valued 0x41 and 0x42. -/
theorem column_major_layout (c : Config) (hc : c.Valid) (v : List Nat) (hf : c.Fits v)
    (hne : v ≠ []) (hns : ∀ b ∈ v, b ≠ space) :
    (buildCharacterSet c v).length = v.length ∧
    (∀ (i : Nat) (hi : i < v.length),
      (buildCharacterSet c v)[i]? = some
        { Value := v[i]
          X := c.SpacingWidth + ((i : Int) / rowsOf c v) * (c.ColumnWidth + c.SpacingWidth)
          Y := topOf c + ((i : Int) % rowsOf c v) * c.StitchHeight }) ∧
    (v = [0x41, 0x42] → c.Columns = 1 →
      buildCharacterSet c v
        = [{ Value := 0x41, X := c.SpacingWidth, Y := topOf c },
           { Value := 0x42, X := c.SpacingWidth, Y := topOf c + c.StitchHeight }]) := by
  have hpos := rowsOf_pos c hc v hne
  have hcast : (((rowsOf c v).toNat : Nat) : Int) = rowsOf c v :=
    Int.toNat_of_nonneg (le_of_lt hpos)
  have heq : buildCharacterSet c v
      = ((v.enumFrom 0).map (fun p => (p.2, p.1))).map
          (place c (topOf c) c.SpacingWidth (rowsOf c v).toNat) := by
    rw [buildCharacterSet_eq_cells c hc v hf.2, cells_no_space _ v 0 hns]
  have hget : ∀ (i : Nat) (hi : i < v.length),
      (buildCharacterSet c v)[i]? = some
        { Value := v[i]
          X := c.SpacingWidth + ((i : Int) / rowsOf c v) * (c.ColumnWidth + c.SpacingWidth)
          Y := topOf c + ((i : Int) % rowsOf c v) * c.StitchHeight } := by
    intro i hi
    rw [heq]
    simp only [List.getElem?_map, List.getElem?_enumFrom, List.getElem?_eq_getElem hi,
      Option.map_some', place, Nat.zero_add]
    rw [colX_exact c hc hf.1 _ (col_lt c hc v i hi), Int.natCast_div, Int.natCast_mod, hcast]
  refine ⟨?_, hget, ?_⟩
  · rw [heq]; simp
  · intro hv hcol
    subst hv
    have hrows : rowsOf c [0x41, 0x42] = 2 := by
      unfold rowsOf
      rw [hcol]
      simp
    have h0 := hget 0 (by simp)
    have h1 := hget 1 (by simp)
    have hlen : (buildCharacterSet c [0x41, 0x42]).length = 2 := by rw [heq]; simp
    rw [hrows] at h0 h1
    simp only [List.getElem_cons_zero, List.getElem_cons_succ, Nat.cast_zero, Nat.cast_one,
      Int.zero_ediv, Int.zero_emod, zero_mul, add_zero] at h0 h1
    have e1 : (1 : Int) / 2 = 0 := by decide
    have e2 : (1 : Int) % 2 = 1 := by decide
    rw [e1, e2] at h1
    simp only [zero_mul, add_zero, one_mul] at h1
    match hb : buildCharacterSet c [0x41, 0x42], hlen with
    | [a, b], _ =>
      rw [hb] at h0 h1
      simp only [List.getElem?_cons_zero, List.getElem?_cons_succ, Option.some.injEq] at h0 h1
      rw [h0, h1]

theorem column_major_layout_witness :
    oneColumnConfig.Valid ∧ oneColumnConfig.Fits [0x41, 0x42] ∧
    [0x41, 0x42] ≠ [] ∧ (∀ b ∈ [0x41, 0x42], b ≠ space) ∧
    ((buildCharacterSet oneColumnConfig [0x41, 0x42]).length = [0x41, 0x42].length ∧
    (∀ (i : Nat) (hi : i < [0x41, 0x42].length),
      (buildCharacterSet oneColumnConfig [0x41, 0x42])[i]? = some
        { Value := [0x41, 0x42][i]
          X := oneColumnConfig.SpacingWidth
            + ((i : Int) / rowsOf oneColumnConfig [0x41, 0x42])
              * (oneColumnConfig.ColumnWidth + oneColumnConfig.SpacingWidth)
          Y := topOf oneColumnConfig
            + ((i : Int) % rowsOf oneColumnConfig [0x41, 0x42])
              * oneColumnConfig.StitchHeight }) ∧
    ([0x41, 0x42] = [0x41, 0x42] → oneColumnConfig.Columns = 1 →
      buildCharacterSet oneColumnConfig [0x41, 0x42]
        = [{ Value := 0x41, X := oneColumnConfig.SpacingWidth, Y := topOf oneColumnConfig },
           { Value := 0x42, X := oneColumnConfig.SpacingWidth,
             Y := topOf oneColumnConfig + oneColumnConfig.StitchHeight }])) :=
  ⟨by decide, fits_of_length oneColumnConfig (by decide) _ (by decide) (by decide),
    by decide, by decide,
    column_major_layout oneColumnConfig (by decide) [0x41, 0x42]
      (fits_of_length oneColumnConfig (by decide) _ (by decide) (by decide))
      (by decide) (by decide)⟩

/-! ## Lemmas: the text filter -/

theorem replaceFrom_mem (old new : List Nat) (s : List Nat) (k x : Nat)
    (hx : x ∈ replaceFrom old new k s) : x ∈ s ∨ x ∈ new := by
  induction s generalizing k with
  | nil => simp [replaceFrom] at hx
  | cons b t ih =>
    cases k with
    | succ k =>
      rw [replaceFrom] at hx
      rcases ih k hx with h | h
      · exact Or.inl (List.mem_cons_of_mem _ h)
      · exact Or.inr h
    | zero =>
      rw [replaceFrom] at hx
      split_ifs at hx with h1
      · rcases List.mem_append.mp hx with h | h
        · exact Or.inr h
        · rcases ih _ h with h | h
          · exact Or.inl (List.mem_cons_of_mem _ h)
          · exact Or.inr h
      · rcases List.mem_cons.mp hx with h | h
        · exact Or.inl (by rw [h]; exact List.mem_cons_self _ _)
        · rcases ih _ h with h | h
          · exact Or.inl (List.mem_cons_of_mem _ h)
          · exact Or.inr h

theorem replace_single_not_mem (a : Nat) (new s : List Nat) (ha : a ∉ new) :
    a ∉ replaceFrom [a] new 0 s := by
  induction s with
  | nil => simp [replaceFrom]
  | cons b t ih =>
    rw [replaceFrom]
    by_cases h : b = a
    · subst h
      simp [ha, ih]
    · have h' : ¬ a = b := fun e => h e.symm
      simp [h, h', ih]

theorem replaceFrom_of_absent (old new s : List Nat) (h : ¬ old <:+: s) :
    replaceFrom old new 0 s = s := by
  induction s with
  | nil => simp [replaceFrom]
  | cons b t ih =>
    rw [replaceFrom]
    have h1 : ¬ old.isPrefixOf (b :: t) = true := by
      rw [List.isPrefixOf_iff_prefix]
      exact fun hp => h hp.isInfix
    have h2 : ¬ old <:+: t := fun hi => h (hi.trans (List.suffix_cons b t).isInfix)
    rw [if_neg h1, ih h2]

theorem replaceFrom_keeps (old new : List Nat) (ho : old ≠ []) (b : Nat) (hb : b ∉ old)
    (s : List Nat)
    (k : Nat) (hk : s.take k <:+ old) (hks : k ≤ s.length) (hs : b ∈ s) :
    b ∈ replaceFrom old new k s := by
  induction s generalizing k with
  | nil => simp at hs
  | cons x t ih =>
    cases k with
    | succ k =>
      rw [replaceFrom]
      rw [List.take_succ_cons] at hk
      have hx : x ∈ old := hk.subset (List.mem_cons_self _ _)
      have hne : b ≠ x := fun e => hb (e ▸ hx)
      have hbt : b ∈ t := by
        rcases List.mem_cons.mp hs with h | h
        · exact absurd h hne
        · exact h
      have hk' : t.take k <:+ old := (List.suffix_cons x (t.take k)).trans hk
      exact ih k hk' (by simp at hks; omega) hbt
    | zero =>
      rw [replaceFrom]
      split_ifs with h1
      · rw [List.isPrefixOf_iff_prefix] at h1
        obtain ⟨r, hr⟩ := h1
        cases old with
        | nil =>
          exact absurd rfl ho
        | cons o old' =>
          simp only [List.cons_append, List.cons.injEq] at hr
          obtain ⟨rfl, hr⟩ := hr
          have hne : b ≠ o := fun e => hb (e ▸ List.mem_cons_self _ _)
          have hbt : b ∈ t := by
            rcases List.mem_cons.mp hs with h | h
            · exact absurd h hne
            · exact h
          apply List.mem_append_right
          apply ih _ _ _ hbt
          · simp only [List.length_cons, Nat.add_sub_cancel]
            rw [← hr, List.take_left']
            · exact List.suffix_cons _ _
            · rfl
          · simp only [List.length_cons, Nat.add_sub_cancel]
            rw [← hr]; simp
      · rcases List.mem_cons.mp hs with h | h
        · rw [h]; exact List.mem_cons_self _ _
        · exact List.mem_cons_of_mem _ (ih 0 (by simp) (by simp) h)


theorem strip_final (tbl : List (List Nat)) (n : Nat) (s : List Nat) :
    strip tbl n s <:+ s := by
  induction n generalizing s with
  | zero => exact List.suffix_refl s
  | succ n ih =>
    rw [strip]
    split
    · next w _ => exact (ih (s.drop w.length)).trans (List.drop_suffix _ _)
    · exact List.suffix_refl s

theorem strip_of_none (tbl : List (List Nat)) (n : Nat) (s : List Nat)
    (h : tbl.find? (fun w => w.isPrefixOf s) = none) : strip tbl n s = s := by
  cases n with
  | zero => rfl
  | succ n => rw [strip, h]

theorem strip_fixed (tbl : List (List Nat)) (ht : ∀ w ∈ tbl, w ≠ []) (n : Nat) (s : List Nat)
    (hn : s.length ≤ n) :
    tbl.find? (fun w => w.isPrefixOf (strip tbl n s)) = none := by
  induction n generalizing s with
  | zero =>
    have hs : s = [] := List.length_eq_zero.mp (by omega)
    subst hs
    rw [strip, List.find?_eq_none]
    intro w hw
    have := ht w hw
    cases w with
    | nil => exact absurd rfl this
    | cons a l => simp [List.isPrefixOf]
  | succ n ih =>
    rw [strip]
    split
    · next w hw =>
      have hmem := List.mem_of_find?_eq_some hw
      have hne := ht w hmem
      have hpre := List.find?_some hw
      simp only [List.isPrefixOf_iff_prefix] at hpre
      have hlen : 0 < w.length := List.length_pos.mpr hne
      have hle := hpre.length_le
      apply ih
      rw [List.length_drop]; omega
    · next h => exact h

theorem strip_keeps (tbl : List (List Nat)) (b : Nat) (hb : ∀ w ∈ tbl, b ∉ w) (n : Nat)
    (s : List Nat) (hs : b ∈ s) : b ∈ strip tbl n s := by
  induction n generalizing s with
  | zero => exact hs
  | succ n ih =>
    rw [strip]
    split
    · next w hw =>
      have hmem := List.mem_of_find?_eq_some hw
      have hpre := List.find?_some hw
      simp only [List.isPrefixOf_iff_prefix] at hpre
      obtain ⟨r, hr⟩ := hpre
      apply ih
      rw [← hr, List.drop_left]
      rw [← hr] at hs
      rcases List.mem_append.mp hs with h | h
      · exact absurd h (hb w hmem)
      · exact h
    · exact hs

theorem strip_spaces (n : Nat) (s : List Nat) (hs : ∀ b ∈ s, b = 32) (hn : s.length ≤ n) :
    strip whiteSpace n s = [] := by
  induction n generalizing s with
  | zero => exact List.length_eq_zero.mp (by simpa using hn)
  | succ n ih =>
    cases s with
    | nil => rfl
    | cons b t =>
      have hb : b = 32 := hs b (List.mem_cons_self _ _)
      subst hb
      have : whiteSpace.find? (fun w => w.isPrefixOf (32 :: t)) = some [32] := by
        simp [whiteSpace, List.find?, List.isPrefixOf]
      rw [strip, this]
      exact ih t (fun x hx => hs x (List.mem_cons_of_mem _ hx)) (by simpa using hn)


theorem whiteSpace_ne_nil : ∀ w ∈ whiteSpace, w ≠ [] := by decide

theorem whiteSpace_reverse_ne_nil : ∀ w ∈ whiteSpace.map List.reverse, w ≠ [] := by decide

theorem whiteSpace_bytes : ∀ w ∈ whiteSpace, ∀ x ∈ w, x ≤ 0x20 ∨ 0x80 ≤ x := by decide

theorem whiteSpace_reverse_bytes :
    ∀ w ∈ whiteSpace.map List.reverse, ∀ x ∈ w, x ≤ 0x20 ∨ 0x80 ≤ x := by decide

theorem TrimLeft_final (s : List Nat) : TrimLeft s <:+ s := strip_final _ _ _

theorem TrimRight_initial (s : List Nat) : TrimRight s <+: s := by
  unfold TrimRight
  have := strip_final (whiteSpace.map List.reverse) s.length s.reverse
  have h := List.reverse_prefix.mpr this
  rwa [List.reverse_reverse] at h

theorem TrimSpace_within (s : List Nat) : TrimSpace s <:+: s :=
  (TrimRight_initial _).isInfix.trans (TrimLeft_final s).isInfix

theorem TrimLeft_fixed (s : List Nat) :
    whiteSpace.find? (fun w => w.isPrefixOf (TrimLeft s)) = none :=
  strip_fixed _ whiteSpace_ne_nil _ _ (le_refl _)

theorem TrimSpace_idem (s : List Nat) : TrimSpace (TrimSpace s) = TrimSpace s := by
  have hL : TrimLeft (TrimSpace s) = TrimSpace s := by
    apply strip_of_none
    rw [List.find?_eq_none]
    intro w hw hpre
    have h1 := TrimLeft_fixed s
    rw [List.find?_eq_none] at h1
    apply h1 w hw
    simp only [List.isPrefixOf_iff_prefix] at hpre ⊢
    exact hpre.trans (TrimRight_initial _)
  have hR : TrimRight (TrimSpace s) = TrimSpace s := by
    have hfix := strip_fixed (whiteSpace.map List.reverse) whiteSpace_reverse_ne_nil
      (TrimLeft s).length (TrimLeft s).reverse (by simp)
    have hrev : (TrimSpace s).reverse
        = strip (whiteSpace.map List.reverse) (TrimLeft s).length (TrimLeft s).reverse := by
      simp [TrimSpace, TrimRight]
    unfold TrimRight
    rw [hrev, strip_of_none _ _ _ hfix, ← hrev, List.reverse_reverse]
  show TrimRight (TrimLeft (TrimSpace s)) = TrimSpace s
  rw [hL, hR]

theorem TrimSpace_spaces (s : List Nat) (hs : ∀ b ∈ s, b = 32) : TrimSpace s = [] := by
  have h : TrimLeft s = [] := strip_spaces _ s hs (le_refl _)
  simp [TrimSpace, h, TrimRight, strip]

theorem TrimSpace_keeps (s : List Nat) (b : Nat) (h1 : 0x21 ≤ b) (h2 : b ≤ 0x7E)
    (hs : b ∈ s) : b ∈ TrimSpace s := by
  have hL : b ∈ TrimLeft s := by
    apply strip_keeps _ _ _ _ _ hs
    intro w hw hbw
    have := whiteSpace_bytes w hw b hbw
    omega
  unfold TrimSpace TrimRight
  rw [List.mem_reverse]
  apply strip_keeps _ _ _ _ _ (List.mem_reverse.mpr hL)
  intro w hw hbw
  have := whiteSpace_reverse_bytes w hw b hbw
  omega

theorem Replace_mem (s old new : List Nat) (x : Nat) (hx : x ∈ Replace s old new) :
    x ∈ s ∨ x ∈ new := replaceFrom_mem old new s 0 x hx

theorem Replace_keeps (s old new : List Nat) (ho : old ≠ []) (b : Nat) (hb : b ∉ old)
    (hs : b ∈ s) : b ∈ Replace s old new :=
  replaceFrom_keeps old new ho b hb s 0 (by simp) (by simp) hs

theorem normalize_clean (v : List Nat) : ∀ x ∈ normalize v, x ≠ 13 ∧ x ≠ 10 ∧ x ≠ 9 := by
  intro x hx
  have h5 := (TrimSpace_within _).subset hx
  have h1 : (13 : Nat) ∉ Replace v bCR [] := replace_single_not_mem 13 [] v (by simp)
  have h2 : (10 : Nat) ∉ Replace (Replace v bCR []) bLF bSpace :=
    replace_single_not_mem 10 bSpace _ (by simp [bSpace])
  have h3 : (9 : Nat) ∉ Replace (Replace (Replace v bCR []) bLF bSpace) bTab bSpace :=
    replace_single_not_mem 9 bSpace _ (by simp [bSpace])
  rcases Replace_mem _ _ _ x h5 with h4 | h4
  · refine ⟨?_, ?_, ?_⟩
    · rintro rfl
      rcases Replace_mem _ _ _ _ h4 with h | h
      · rcases Replace_mem _ _ _ _ h with h | h
        · exact h1 h
        · simp [bSpace] at h
      · simp [bSpace] at h
    · rintro rfl
      rcases Replace_mem _ _ _ _ h4 with h | h
      · exact h2 h
      · simp [bSpace] at h
    · rintro rfl
      exact h3 h4
  · have : x = 32 := by simpa [bSpace] using h4
    omega

theorem normalize_whitespace (v : List Nat)
    (hv : ∀ b ∈ v, b = 32 ∨ b = 9 ∨ b = 13 ∨ b = 10) : normalize v = [] := by
  apply TrimSpace_spaces
  intro x hx
  have hclean : ∀ y, y ∈ Replace (Replace (Replace v bCR []) bLF bSpace) bTab bSpace →
      y = 32 := by
    intro y hy
    have h3 : (9 : Nat) ∉ Replace (Replace (Replace v bCR []) bLF bSpace) bTab bSpace :=
      replace_single_not_mem 9 bSpace _ (by simp [bSpace])
    have h2 : (10 : Nat) ∉ Replace (Replace v bCR []) bLF bSpace :=
      replace_single_not_mem 10 bSpace _ (by simp [bSpace])
    have h1 : (13 : Nat) ∉ Replace v bCR [] := replace_single_not_mem 13 [] v (by simp)
    rcases Replace_mem _ _ _ _ hy with h | h
    · rcases Replace_mem _ _ _ _ h with h' | h'
      · rcases Replace_mem _ _ _ _ h' with h'' | h''
        · rcases hv y h'' with e | e | e | e
          · exact e
          · subst e; exact absurd hy h3
          · subst e; exact absurd h' h1
          · subst e; exact absurd h h2
        · simp at h''
      · simpa [bSpace] using h'
    · simpa [bSpace] using h
  rcases Replace_mem _ _ _ _ hx with h | h
  · exact hclean x h
  · simpa [bSpace] using h

theorem normalize_keeps (v : List Nat) (b : Nat) (h1 : 0x21 ≤ b) (h2 : b ≤ 0x7E)
    (hb : b ∈ v) : b ∈ normalize v := by
  apply TrimSpace_keeps _ b h1 h2
  apply Replace_keeps _ _ _ (by simp [b2Space]) b (by simp [b2Space]; omega)
  apply Replace_keeps _ _ _ (by simp [bTab]) b (by simp [bTab]; omega)
  apply Replace_keeps _ _ _ (by simp [bLF]) b (by simp [bLF]; omega)
  exact Replace_keeps _ _ _ (by simp [bCR]) b (by simp [bCR]; omega) hb

theorem normalize_fixed (v : List Nat) (hd : ¬ b2Space <:+: normalize v) :
    normalize (normalize v) = normalize v := by
  have hc := normalize_clean v
  have single : ∀ a : Nat, a ∉ normalize v → ¬ [a] <:+: normalize v :=
    fun a ha hi => ha (hi.subset (List.mem_singleton_self a))
  have e1 : Replace (normalize v) bCR [] = normalize v :=
    replaceFrom_of_absent _ _ _ (single 13 (fun h => (hc 13 h).1 rfl))
  have e2 : Replace (normalize v) bLF bSpace = normalize v :=
    replaceFrom_of_absent _ _ _ (single 10 (fun h => (hc 10 h).2.1 rfl))
  have e3 : Replace (normalize v) bTab bSpace = normalize v :=
    replaceFrom_of_absent _ _ _ (single 9 (fun h => (hc 9 h).2.2 rfl))
  have e4 : Replace (normalize v) b2Space bSpace = normalize v :=
    replaceFrom_of_absent _ _ _ hd
  have e5 : TrimSpace (normalize v) = normalize v := TrimSpace_idem _
  have key : ∀ w : List Nat, Replace w bCR [] = w → Replace w bLF bSpace = w →
      Replace w bTab bSpace = w → Replace w b2Space bSpace = w → TrimSpace w = w →
      normalize w = w := by
    intro w a1 a2 a3 a4 a5
    unfold normalize
    simp only [a1, a2, a3, a4, a5]
  exact key _ e1 e2 e3 e4 e5

theorem Repeat_eq (b : List Nat) (n : Nat) :
    Repeat b n = (List.replicate n b).flatten ∧ (Repeat b n).length = n * b.length := by
  induction n with
  | zero => simp [Repeat]
  | succ n ih =>
    refine ⟨?_, ?_⟩
    · rw [Repeat, ih.1, List.replicate_succ, List.flatten_cons]
    · rw [Repeat, List.length_append, ih.2]; ring

theorem filterText_ok_one (v w : List Nat) (h : filterText v 1 = .ok w) :
    normalize v ≠ [] ∧ w = normalize v := by
  unfold filterText at h
  simp only at h
  split_ifs at h with h1 h2
  · simp only [Except.ok.injEq] at h
    refine ⟨fun e => h1 (by rw [e]; rfl), ?_⟩
    rw [← h]
    simp [Repeat]

theorem filterText_eq (v : List Nat) (n : Int) (hv : normalize v ≠ []) (hn : 0 ≤ n) :
    filterText v n = .ok (Repeat (normalize v) n.toNat) := by
  unfold filterText
  have h1 : ¬ (normalize v).length = 0 := fun h => hv (List.length_eq_zero.mp h)
  have h2 : ¬ n < 0 := by omega
  simp only [h1, h2, if_false]

theorem filterText_error_iff (v : List Nat) (n : Int) :
    filterText v n = .error .emptyAfterFiltering ↔ normalize v = [] := by
  unfold filterText
  by_cases h : normalize v = []
  · simp [h]
  · have h1 : ¬ (normalize v).length = 0 := fun e => h (List.length_eq_zero.mp e)
    simp only [h1, if_false, h, iff_false]
    split_ifs <;> simp

/-- C5 (as stated, refuted). A run of three spaces is collapsed to two by the
single replacement pass, and filtering the result again collapses it to one:
filterText is not idempotent on "a   b". -/
theorem filterText_twice_differs :
    filterText [97, 32, 32, 32, 98] 1 = .ok [97, 32, 32, 98] ∧
    filterText [97, 32, 32, 98] 1 = .ok [97, 32, 98] ∧
    ([97, 32, 98] : List Nat) ≠ [97, 32, 32, 98] :=
  ⟨rfl, rfl, by decide⟩

/-- C5 (amended). When filterText(v, 1) succeeds and its result holds no two
adjacent spaces, filtering the result again with repeat 1 yields the same
bytes. -/
theorem filterText_idempotent (v w : List Nat) (h : filterText v 1 = .ok w)
    (hd : ¬ b2Space <:+: w) : filterText w 1 = .ok w := by
  obtain ⟨hne, hw⟩ := filterText_ok_one v w h
  subst hw
  have hfix := normalize_fixed v hd
  rw [filterText_eq _ 1 (by rw [hfix]; exact hne) (by omega), hfix]
  simp [Repeat]

theorem filterText_idempotent_witness :
    filterText [32, 97, 9, 98, 13, 10] 1 = .ok [97, 32, 98] ∧
    ¬ b2Space <:+: [97, 32, 98] ∧
    filterText [97, 32, 98] 1 = .ok [97, 32, 98] :=
  ⟨rfl, by decide, filterText_idempotent [32, 97, 9, 98, 13, 10] [97, 32, 98] rfl (by decide)⟩

/-- C6. When filterText(v, 1) succeeds with `w` and `n ≥ 1`, filterText(v, n)
is `n` copies of `w` concatenated, of length `n * len(w)`. -/
theorem filterText_repeat (v w : List Nat) (h : filterText v 1 = .ok w) (n : Int)
    (hn : 1 ≤ n) :
    filterText v n = .ok (List.replicate n.toNat w).flatten ∧
    (((List.replicate n.toNat w).flatten.length : Nat) : Int) = n * (w.length : Int) := by
  obtain ⟨hne, hw⟩ := filterText_ok_one v w h
  subst hw
  have hr := Repeat_eq (normalize v) n.toNat
  refine ⟨?_, ?_⟩
  · rw [filterText_eq v n hne (by omega), hr.1]
  · rw [← hr.1, hr.2]
    push_cast
    rw [Int.toNat_of_nonneg (by omega)]

theorem filterText_repeat_witness :
    filterText [32, 97, 9, 98, 13, 10] 1 = .ok [97, 32, 98] ∧ (1 : Int) ≤ 3 ∧
    (filterText [32, 97, 9, 98, 13, 10] 3
        = .ok (List.replicate (3 : Int).toNat [97, 32, 98]).flatten ∧
     (((List.replicate (3 : Int).toNat [97, 32, 98]).flatten.length : Nat) : Int)
        = 3 * (([97, 32, 98] : List Nat).length : Int)) :=
  ⟨rfl, by decide, filterText_repeat [32, 97, 9, 98, 13, 10] [97, 32, 98] rfl 3 (by decide)⟩

/-- C7. filterText fails with the empty-after-filtering error exactly when the
text left after removing CRs, replacing LF and tab by space, collapsing double
spaces and trimming is empty; it fails for every input made only of space,
tab, CR and LF bytes, and for `n ≥ 1` it succeeds with a non-empty result on
every input holding a printable non-space ASCII byte (0x21..0x7E). -/
theorem filterText_empty_error (v : List Nat) (n : Int) :
    (filterText v n = .error .emptyAfterFiltering ↔
      TrimSpace (Replace (Replace (Replace (Replace v bCR []) bLF bSpace) bTab bSpace)
        b2Space bSpace) = []) ∧
    ((∀ b ∈ v, b = 32 ∨ b = 9 ∨ b = 13 ∨ b = 10) →
      filterText v n = .error .emptyAfterFiltering) ∧
    ((∃ b ∈ v, 0x21 ≤ b ∧ b ≤ 0x7E) → 1 ≤ n →
      ∃ w, filterText v n = .ok w ∧ w ≠ []) := by
  refine ⟨filterText_error_iff v n, ?_, ?_⟩
  · intro hv
    exact (filterText_error_iff v n).mpr (normalize_whitespace v hv)
  · rintro ⟨b, hb, h1, h2⟩ hn
    have hmem := normalize_keeps v b h1 h2 hb
    have hne : normalize v ≠ [] := List.ne_nil_of_mem hmem
    refine ⟨_, filterText_eq v n hne (by omega), ?_⟩
    obtain ⟨k, hk⟩ : ∃ k, n.toNat = k + 1 := ⟨n.toNat - 1, by omega⟩
    rw [hk, Repeat]
    intro h
    exact hne (List.append_eq_nil.mp h).1

theorem filterText_empty_error_witness :
    filterText [32, 9, 13, 10] 1 = .error .emptyAfterFiltering ∧
    filterText [] 1 = .error .emptyAfterFiltering ∧
    ∃ w, filterText [32, 72, 105, 10] 2 = .ok w ∧ w ≠ [] :=
  ⟨(filterText_empty_error [32, 9, 13, 10] 1).2.1 (by decide),
   (filterText_empty_error [] 1).2.1 (by decide),
   (filterText_empty_error [32, 72, 105, 10] 2).2.2 ⟨72, by decide, by decide, by decide⟩
     (by decide)⟩

theorem TrimSpace_head (s : List Nat) : (TrimSpace s).head? ≠ some 32 := by
  intro h
  have h1 := TrimLeft_fixed s
  rw [List.find?_eq_none] at h1
  have hmem : [32] ∈ whiteSpace := by decide
  apply h1 [32] hmem
  rw [List.isPrefixOf_iff_prefix]
  have hp : [32] <+: TrimSpace s := by
    cases hts : TrimSpace s with
    | nil => rw [hts] at h; simp at h
    | cons a t =>
      rw [hts] at h
      simp only [List.head?_cons, Option.some.injEq] at h
      subst h
      exact ⟨t, rfl⟩
  exact hp.trans (TrimRight_initial _)

theorem TrimSpace_last (s : List Nat) : (TrimSpace s).getLast? ≠ some 32 := by
  intro h
  have hfix := strip_fixed (whiteSpace.map List.reverse) whiteSpace_reverse_ne_nil
    (TrimLeft s).length (TrimLeft s).reverse (by simp)
  have hrev : (TrimSpace s).reverse
      = strip (whiteSpace.map List.reverse) (TrimLeft s).length (TrimLeft s).reverse := by
    simp [TrimSpace, TrimRight]
  rw [← hrev, List.find?_eq_none] at hfix
  have hmem : [32] ∈ whiteSpace.map List.reverse := by decide
  apply hfix [32] hmem
  rw [List.isPrefixOf_iff_prefix]
  have hh : (TrimSpace s).reverse.head? = some 32 := by
    rw [List.head?_reverse]; exact h
  cases hts : (TrimSpace s).reverse with
  | nil => rw [hts] at hh; simp at hh
  | cons a t =>
    rw [hts] at hh
    simp only [List.head?_cons, Option.some.injEq] at hh
    subst hh
    exact ⟨t, rfl⟩

theorem Repeat_mem (u : List Nat) (n x : Nat) (hx : x ∈ Repeat u n) : x ∈ u := by
  induction n with
  | zero => simp [Repeat] at hx
  | succ n ih =>
    rw [Repeat] at hx
    rcases List.mem_append.mp hx with h | h
    · exact h
    · exact ih h

theorem Repeat_succ_right (u : List Nat) (n : Nat) : Repeat u (n + 1) = Repeat u n ++ u := by
  induction n with
  | zero => simp [Repeat]
  | succ n ih =>
    have e : Repeat u (n + 1 + 1) = u ++ Repeat u (n + 1) := rfl
    rw [e]
    conv_lhs => rw [ih]
    rw [← List.append_assoc]
    rfl

/-- C15. When filterText succeeds (`n ≥ 1`) its result holds no carriage
return, line feed or tab byte, and neither its first nor its last byte is a
space. -/
theorem filterText_result_clean (v w : List Nat) (n : Int) (hn : 1 ≤ n)
    (h : filterText v n = .ok w) :
    (∀ x ∈ w, x ≠ 13 ∧ x ≠ 10 ∧ x ≠ 9) ∧ w.head? ≠ some 32 ∧ w.getLast? ≠ some 32 := by
  have hne : normalize v ≠ [] := by
    intro e
    rw [(filterText_error_iff v n).mpr e] at h
    cases h
  rw [filterText_eq v n hne (by omega)] at h
  simp only [Except.ok.injEq] at h
  subst h
  obtain ⟨k, hk⟩ : ∃ k, n.toNat = k + 1 := ⟨n.toNat - 1, by omega⟩
  obtain ⟨a, t, hat⟩ : ∃ a t, normalize v = a :: t := List.exists_cons_of_ne_nil hne
  refine ⟨?_, ?_, ?_⟩
  · intro x hx
    exact normalize_clean v x (Repeat_mem _ _ _ hx)
  · rw [hk, Repeat]
    have := TrimSpace_head
      (Replace (Replace (Replace (Replace v bCR []) bLF bSpace) bTab bSpace) b2Space bSpace)
    change (normalize v).head? ≠ some 32 at this
    rw [hat] at this ⊢
    simpa using this
  · rw [hk, Repeat_succ_right]
    have := TrimSpace_last
      (Replace (Replace (Replace (Replace v bCR []) bLF bSpace) bTab bSpace) b2Space bSpace)
    change (normalize v).getLast? ≠ some 32 at this
    rw [List.getLast?_append_of_ne_nil _ hne]
    exact this

theorem filterText_result_clean_witness :
    (1 : Int) ≤ 2 ∧
    filterText [32, 72, 9, 105, 13, 10] 2 = .ok [72, 32, 105, 72, 32, 105] ∧
    ((∀ x ∈ [72, 32, 105, 72, 32, 105], x ≠ 13 ∧ x ≠ 10 ∧ x ≠ 9) ∧
      [72, 32, 105, 72, 32, 105].head? ≠ some 32 ∧
      [72, 32, 105, 72, 32, 105].getLast? ≠ some 32) :=
  ⟨by decide, rfl,
    filterText_result_clean [32, 72, 9, 105, 13, 10] [72, 32, 105, 72, 32, 105] 2
      (by decide) rfl⟩

theorem exists_max_Y (l : List Char) (hl : l ≠ []) :
    ∃ r ∈ l, ∀ q ∈ l, q.Y ≤ r.Y := by
  induction l with
  | nil => exact absurd rfl hl
  | cons a t ih =>
    by_cases ht : t = []
    · subst ht
      exact ⟨a, List.mem_cons_self _ _, by simp⟩
    · obtain ⟨r, hr, hmax⟩ := ih ht
      by_cases hle : r.Y ≤ a.Y
      · refine ⟨a, List.mem_cons_self _ _, ?_⟩
        intro q hq
        rcases List.mem_cons.mp hq with h | h
        · rw [h]
        · exact le_trans (hmax q h) hle
      · refine ⟨r, List.mem_cons_of_mem _ hr, ?_⟩
        intro q hq
        rcases List.mem_cons.mp hq with h | h
        · rw [h]; omega
        · exact hmax q h

theorem records_ne_nil (c : Config) (v : List Nat) (hne : v ≠ [])
    (hfirst : v.head? ≠ some space) : buildCharacterSet c v ≠ [] := by
  cases v with
  | nil => exact absurd rfl hne
  | cons b bs =>
    have hb : b ≠ space := by
      intro e; apply hfirst; simp [e]
    unfold buildCharacterSet
    rw [layoutLoop, if_neg (fun h => hb h.1), if_neg (fun h => hb h.1)]
    simp

/-- C18 as stated fails: with `-spacing 4611686018427387903 -stitch-width 4
-stitch-height 4 -border 0` and the text "AB" the spacing in pixels wraps to
-4, both records have Y = -4, the loop of computePatternRect starts from 0 and
never sees a larger Y, and the height is 4 while `maxY + StitchHeight` is 0. -/
theorem canvas_height_wraps :
    wideSpacingConfig.Valid ∧ [65, 66] ≠ [] ∧ [65, 66].head? ≠ some space ∧
    buildCharacterSet wideSpacingConfig [65, 66] = [⟨65, -4, -4⟩, ⟨66, 20, -4⟩] ∧
    (computePatternRect wideSpacingConfig (buildCharacterSet wideSpacingConfig [65, 66])).Dy
      = 4 ∧
    ¬ (∀ maxY : Int, (∃ r ∈ buildCharacterSet wideSpacingConfig [65, 66], r.Y = maxY) →
      (∀ q ∈ buildCharacterSet wideSpacingConfig [65, 66], q.Y ≤ maxY) →
      (computePatternRect wideSpacingConfig
          (buildCharacterSet wideSpacingConfig [65, 66])).Dy
        = maxY + wideSpacingConfig.StitchHeight
          + (if wideSpacingConfig.Border > 0
              then 2 * wideSpacingConfig.SpacingHeight + wideSpacingConfig.BorderHeight
              else 0)) := by
  rw [wideSpacing_layout]
  refine ⟨by decide, by decide, by decide, rfl, by decide, ?_⟩
  intro h
  have h1 := h (-4) ⟨⟨65, -4, -4⟩, by simp, rfl⟩ (by decide)
  revert h1
  decide

/-- C18, amended. For a valid configuration whose canvas height is below 2^63
and a non-empty `v` whose first byte is not a space, the records have a largest
Y, and for that `maxY` the canvas height is
`maxY + StitchHeight + (2*SpacingHeight + BorderHeight if Border > 0, else 0)`:
with a border the margin below the last stitch row equals `top`; without one
there is no bottom margin while the top margin is SpacingHeight. -/
theorem canvas_height_formula (c : Config) (hc : c.Valid) (v : List Nat)
    (hh : c.FitsHeight v) (hne : v ≠ []) (hfirst : v.head? ≠ some space) :
    (∃ r ∈ buildCharacterSet c v, ∀ q ∈ buildCharacterSet c v, q.Y ≤ r.Y) ∧
    ∀ maxY : Int, (∃ r ∈ buildCharacterSet c v, r.Y = maxY) →
      (∀ q ∈ buildCharacterSet c v, q.Y ≤ maxY) →
      (computePatternRect c (buildCharacterSet c v)).Dy
        = maxY + c.StitchHeight
          + (if c.Border > 0 then 2 * c.SpacingHeight + c.BorderHeight else 0) ∧
      (c.Border > 0 →
        (computePatternRect c (buildCharacterSet c v)).Dy - (maxY + c.StitchHeight)
          = topOf c) ∧
      (¬ c.Border > 0 →
        (computePatternRect c (buildCharacterSet c v)).Dy - (maxY + c.StitchHeight) = 0 ∧
        topOf c = c.SpacingHeight) := by
  refine ⟨exists_max_Y _ (records_ne_nil c v hne hfirst), ?_⟩
  rintro maxY ⟨r, hr, hrY⟩ hmax
  have htop := topOf_nonneg c hc v hh
  obtain ⟨-, -, htopdef, -, -, -, -, -⟩ := fitsHeight_facts c hc v hh
  have hmax0 : 0 ≤ maxY := by
    have := (record_above_bottom c hc v hh r hr).1
    omega
  have hhigh : highestY 0 (buildCharacterSet c v) = maxY := by
    have h1 := (le_highestY (buildCharacterSet c v) 0).2 r hr
    rcases highestY_attained (buildCharacterSet c v) 0 with h2 | ⟨q, hq, h2⟩
    · rw [h2] at h1 ⊢; omega
    · have := hmax q hq
      rw [h2] at h1 ⊢; omega
  have hD := (height_eq c hc v hh (Or.inl hne) (buildCharacterSet c v)
    (fun q hq => (record_above_bottom c hc v hh q hq).2)).2.2
  rw [hhigh] at hD
  refine ⟨?_, ?_, ?_⟩
  · rw [hD]; split_ifs <;> ring
  · intro hb
    rw [hD, htopdef, if_pos hb, if_pos hb]; ring
  · intro hb
    rw [hD, htopdef, if_neg hb, if_neg hb]
    exact ⟨by ring, rfl⟩

theorem canvas_height_formula_witness :
    defaultConfig.Valid ∧ defaultConfig.FitsHeight [72, 105] ∧
    [72, 105] ≠ [] ∧ [72, 105].head? ≠ some space ∧
    ((∃ r ∈ buildCharacterSet defaultConfig [72, 105],
        ∀ q ∈ buildCharacterSet defaultConfig [72, 105], q.Y ≤ r.Y) ∧
    ∀ maxY : Int, (∃ r ∈ buildCharacterSet defaultConfig [72, 105], r.Y = maxY) →
      (∀ q ∈ buildCharacterSet defaultConfig [72, 105], q.Y ≤ maxY) →
      (computePatternRect defaultConfig (buildCharacterSet defaultConfig [72, 105])).Dy
        = maxY + defaultConfig.StitchHeight
          + (if defaultConfig.Border > 0
              then 2 * defaultConfig.SpacingHeight + defaultConfig.BorderHeight else 0) ∧
      (defaultConfig.Border > 0 →
        (computePatternRect defaultConfig (buildCharacterSet defaultConfig [72, 105])).Dy
          - (maxY + defaultConfig.StitchHeight) = topOf defaultConfig) ∧
      (¬ defaultConfig.Border > 0 →
        (computePatternRect defaultConfig (buildCharacterSet defaultConfig [72, 105])).Dy
          - (maxY + defaultConfig.StitchHeight) = 0 ∧
        topOf defaultConfig = defaultConfig.SpacingHeight)) :=
  ⟨by decide, (fits_of_length defaultConfig (by decide) _ (by decide) (by decide)).2,
    by decide, by decide,
    canvas_height_formula defaultConfig (by decide) [72, 105]
      (fits_of_length defaultConfig (by decide) _ (by decide) (by decide)).2
      (by decide) (by decide)⟩

theorem SetNRGBA_Rect (img : Image) (x y : Int) (clr : NRGBA) :
    (img.SetNRGBA x y clr).Rect = img.Rect := by
  unfold Image.SetNRGBA
  split_ifs <;> rfl

theorem SetNRGBA_Pix (img : Image) (x y : Int) (clr : NRGBA) (qx qy : Int) :
    (img.SetNRGBA x y clr).Pix qx qy
      = if img.Rect.In x y ∧ qx = x ∧ qy = y then clr else img.Pix qx qy := by
  unfold Image.SetNRGBA
  by_cases hin : img.Rect.In x y
  · rw [if_pos hin]
    simp only [hin, true_and]
  · rw [if_neg hin, if_neg (fun h => hin h.1)]

theorem fillRow_spec (x py : Int) (clr : NRGBA) (n : Nat) (img : Image) :
    ((List.range n).foldl (fun im dx => im.SetNRGBA (x + (dx : Int)) py clr) img).Rect
      = img.Rect ∧
    ∀ qx qy : Int,
      ((List.range n).foldl (fun im dx => im.SetNRGBA (x + (dx : Int)) py clr) img).Pix qx qy
        = if img.Rect.In qx qy ∧ qy = py ∧ x ≤ qx ∧ qx < x + (n : Int) then clr
          else img.Pix qx qy := by
  induction n with
  | zero =>
    refine ⟨rfl, ?_⟩
    intro qx qy
    simp only [List.range_zero, List.foldl_nil, Nat.cast_zero, add_zero]
    rw [if_neg]; omega
  | succ n ih =>
    rw [List.range_succ, List.foldl_append]
    simp only [List.foldl_cons, List.foldl_nil]
    generalize (List.range n).foldl (fun im dx => im.SetNRGBA (x + (dx : Int)) py clr) img
      = F at ih ⊢
    obtain ⟨hR, hP⟩ := ih
    constructor
    · rw [SetNRGBA_Rect, hR]
    · intro qx qy
      rw [SetNRGBA_Pix, hR, hP]
      by_cases hq : img.Rect.In (x + (n : Int)) py ∧ qx = x + (n : Int) ∧ qy = py
      · obtain ⟨hin, rfl, rfl⟩ := hq
        rw [if_pos ⟨hin, rfl, rfl⟩, if_pos]
        exact ⟨hin, rfl, by omega, by push_cast; omega⟩
      · rw [if_neg hq]
        by_cases h1 : img.Rect.In qx qy ∧ qy = py ∧ x ≤ qx ∧ qx < x + (n : Int)
        · rw [if_pos h1, if_pos]
          exact ⟨h1.1, h1.2.1, h1.2.2.1, by push_cast; omega⟩
        · rw [if_neg h1, if_neg]
          rintro ⟨a, b, c1, d⟩
          push_cast at d
          by_cases e : qx = x + (n : Int)
          · apply hq
            refine ⟨?_, e, b⟩
            rw [← e, ← b]; exact a
          · exact h1 ⟨a, b, c1, by omega⟩

/-- Painting a block: bounds are kept and exactly the pixels of the block that
lie inside the bounds take the colour. -/
theorem block_spec (x y w : Int) (clr : NRGBA) (m : Nat) (img : Image) :
    ((List.range m).foldl
        (fun im cy =>
          (List.range w.toNat).foldl
            (fun im2 cx => im2.SetNRGBA (x + (cx : Int)) (y + (cy : Int)) clr) im)
        img).Rect = img.Rect ∧
    ∀ qx qy : Int,
      ((List.range m).foldl
        (fun im cy =>
          (List.range w.toNat).foldl
            (fun im2 cx => im2.SetNRGBA (x + (cx : Int)) (y + (cy : Int)) clr) im)
        img).Pix qx qy
        = if img.Rect.In qx qy ∧ x ≤ qx ∧ qx < x + w ∧ y ≤ qy ∧ qy < y + (m : Int) then clr
          else img.Pix qx qy := by
  induction m with
  | zero =>
    refine ⟨rfl, ?_⟩
    intro qx qy
    simp only [List.range_zero, List.foldl_nil, Nat.cast_zero, add_zero]
    rw [if_neg]; omega
  | succ m ih =>
    rw [List.range_succ, List.foldl_append]
    simp only [List.foldl_cons, List.foldl_nil]
    generalize (List.range m).foldl
        (fun im cy =>
          (List.range w.toNat).foldl
            (fun im2 cx => im2.SetNRGBA (x + (cx : Int)) (y + (cy : Int)) clr) im)
        img = F at ih ⊢
    obtain ⟨hR, hP⟩ := ih
    obtain ⟨hR2, hP2⟩ := fillRow_spec x (y + (m : Int)) clr w.toNat F
    constructor
    · rw [hR2, hR]
    · intro qx qy
      rw [hP2, hR, hP]
      have hw : x + ((w.toNat : Nat) : Int) = if 0 ≤ w then x + w else x := by
        split_ifs with h0
        · rw [Int.toNat_of_nonneg h0]
        · have : w.toNat = 0 := by omega
          rw [this]; simp
      rw [hw]
      by_cases hin : img.Rect.In qx qy
      · by_cases h0 : 0 ≤ w
        · simp only [hin, true_and, if_pos h0]
          push_cast
          split_ifs <;> first | rfl | (exfalso; omega)
        · simp only [hin, true_and, if_neg h0]
          push_cast
          split_ifs <;> first | rfl | (exfalso; omega)
      · simp only [hin, false_and, if_false]

theorem fillRect_spec (img : Image) (x y w h : Int) (clr : NRGBA) :
    (fillRect img x y w h clr).Rect = img.Rect ∧
    ∀ qx qy : Int,
      (fillRect img x y w h clr).Pix qx qy
        = if img.Rect.In qx qy ∧ x ≤ qx ∧ qx < add64 x w ∧ y ≤ qy ∧ qy < add64 y h then clr
          else img.Pix qx qy := by
  obtain ⟨hR, hP⟩ := block_spec x y (add64 x w - x) clr (add64 y h - y).toNat img
  have e : fillRect img x y w h clr
      = (List.range (add64 y h - y).toNat).foldl
        (fun im cy =>
          (List.range (add64 x w - x).toNat).foldl
            (fun im2 cx => im2.SetNRGBA (x + (cx : Int)) (y + (cy : Int)) clr) im)
        img := by
    unfold fillRect fillRow
    rfl
  rw [e]
  refine ⟨hR, ?_⟩
  intro qx qy
  rw [hP]
  have hiff : (img.Rect.In qx qy ∧ x ≤ qx ∧ qx < x + (add64 x w - x) ∧ y ≤ qy ∧
      qy < y + (((add64 y h - y).toNat : Nat) : Int))
      ↔ (img.Rect.In qx qy ∧ x ≤ qx ∧ qx < add64 x w ∧ y ≤ qy ∧ qy < add64 y h) := by
    constructor
    · rintro ⟨a, b, c, d, e⟩
      exact ⟨a, b, by omega, d, by omega⟩
    · rintro ⟨a, b, c, d, e⟩
      exact ⟨a, b, by omega, d, by omega⟩
  simp only [hiff]

theorem plotBit_spec (img : Image) (x y sw sh : Int) (clr : NRGBA) :
    (plotBit img x y sw sh clr).2 = x + sw ∧
    (plotBit img x y sw sh clr).1.Rect = img.Rect ∧
    ∀ qx qy : Int,
      (plotBit img x y sw sh clr).1.Pix qx qy
        = if img.Rect.In qx qy ∧ x ≤ qx ∧ qx < x + sw ∧ y ≤ qy ∧ qy < y + sh then clr
          else img.Pix qx qy := by
  obtain ⟨hR, hP⟩ := block_spec x y sw clr sh.toNat img
  unfold plotBit
  refine ⟨rfl, hR, ?_⟩
  intro qx qy
  simp only
  rw [hP]
  by_cases h0 : 0 ≤ sh
  · rw [Int.toNat_of_nonneg h0]
  · have : sh.toNat = 0 := by omega
    rw [this]
    rw [if_neg (by push_cast; omega), if_neg (by omega)]

theorem plotBits_spec (y sw sh : Int) (cs : List NRGBA) (img : Image) (x : Int) :
    (plotBits img x y sw sh cs).1.Rect = img.Rect ∧
    ∀ qx qy : Int,
      (plotBits img x y sw sh cs).1.Pix qx qy
        = if img.Rect.In qx qy ∧ x ≤ qx ∧ qx < x + (cs.length : Int) * sw ∧
              y ≤ qy ∧ qy < y + sh
          then cs.getD ((qx - x) / sw).toNat ⟨0, 0, 0, 0⟩
          else img.Pix qx qy := by
  induction cs generalizing img x with
  | nil =>
    refine ⟨rfl, fun qx qy => ?_⟩
    rw [if_neg]
    · rfl
    · simp only [List.length_nil, Nat.cast_zero, zero_mul, add_zero]
      omega
  | cons c cs ih =>
    obtain ⟨hx, hR, hP⟩ := plotBit_spec img x y sw sh c
    have e : plotBits img x y sw sh (c :: cs)
        = plotBits (plotBit img x y sw sh c).1 (plotBit img x y sw sh c).2 y sw sh cs := rfl
    rw [e]
    generalize plotBit img x y sw sh c = p at hx hR hP ⊢
    obtain ⟨hR2, hP2⟩ := ih p.1 p.2
    refine ⟨by rw [hR2, hR], fun qx qy => ?_⟩
    rw [hP2, hP, hR, hx]
    have hlen : (((c :: cs).length : Nat) : Int) * sw = (cs.length : Int) * sw + sw := by
      simp only [List.length_cons]; push_cast; ring
    rw [hlen]
    have hL0 : (0 < sw → 0 ≤ (cs.length : Int) * sw) ∧ (sw ≤ 0 → (cs.length : Int) * sw ≤ 0) := by
      have hn : (0 : Int) ≤ (cs.length : Int) := Int.natCast_nonneg _
      exact ⟨fun h => mul_nonneg hn (le_of_lt h), fun h => mul_nonpos_of_nonneg_of_nonpos hn h⟩
    generalize (cs.length : Int) * sw = L at hL0 ⊢
    by_cases hin : img.Rect.In qx qy
    swap
    · rw [if_neg (fun h => hin h.1), if_neg (fun h => hin h.1), if_neg (fun h => hin h.1)]
    by_cases hy : y ≤ qy ∧ qy < y + sh
    swap
    · rw [if_neg (fun h => hy h.2.2.2), if_neg (fun h => hy h.2.2.2),
        if_neg (fun h => hy h.2.2.2)]
    by_cases h1 : x + sw ≤ qx ∧ qx < x + sw + L
    · rw [if_pos ⟨hin, h1.1, h1.2, hy.1, hy.2⟩]
      by_cases hsw : 0 < sw
      · rw [if_pos ⟨hin, by omega, by omega, hy.1, hy.2⟩]
        have hd : (qx - x) / sw = (qx - (x + sw)) / sw + 1 := by
          have : qx - x = (qx - (x + sw)) + sw := by ring
          rw [this, Int.add_ediv_of_dvd_right (dvd_refl sw), Int.ediv_self (by omega)]
        have hnn : 0 ≤ (qx - (x + sw)) / sw := Int.ediv_nonneg (by omega) (by omega)
        rw [hd, Int.toNat_add hnn (by omega)]
        simp
      · exfalso
        have := hL0.2 (by omega)
        omega
    · rw [if_neg (fun h => h1 ⟨h.2.1, h.2.2.1⟩)]
      by_cases h0 : x ≤ qx ∧ qx < x + sw
      · rw [if_pos ⟨hin, h0.1, h0.2, hy.1, hy.2⟩]
        by_cases hL : qx < x + (L + sw)
        · rw [if_pos ⟨hin, h0.1, hL, hy.1, hy.2⟩]
          have hd : (qx - x) / sw = 0 := Int.ediv_eq_zero_of_lt (by omega) (by omega)
          rw [hd]; rfl
        · exfalso
          have := hL0.1 (by omega)
          omega
      · rw [if_neg (fun h => h0 ⟨h.2.1, h.2.2.1⟩)]
        rw [if_neg]
        rintro ⟨-, a, b, -, -⟩
        by_cases hsw : 0 < sw
        · exact h1 ⟨by omega, by omega⟩
        · have := hL0.2 (by omega)
          omega


theorem Plot_spec (r : Char) (img : Image) (sw sh : Int) (colors : NRGBA × NRGBA) :
    (r.Plot img sw sh colors).Rect = img.Rect ∧
    ∀ qx qy : Int,
      (r.Plot img sw sh colors).Pix qx qy
        = if r.Value ≠ space ∧ img.Rect.In qx qy ∧ r.X ≤ qx ∧ qx < r.X + 7 * sw ∧
              r.Y ≤ qy ∧ qy < r.Y + sh
          then colorAt colors ((r.Value >>> (6 - ((qx - r.X) / sw).toNat)) &&& 1)
          else img.Pix qx qy := by
  by_cases hv : r.Value = space
  · have e : r.Plot img sw sh colors = img := by unfold Char.Plot; rw [if_pos hv]
    rw [e]
    refine ⟨rfl, fun qx qy => ?_⟩
    rw [if_neg (fun h => h.1 hv)]
  · have e : r.Plot img sw sh colors
        = (plotBits img r.X r.Y sw sh
            [colorAt colors ((r.Value >>> 6) &&& 1), colorAt colors ((r.Value >>> 5) &&& 1),
             colorAt colors ((r.Value >>> 4) &&& 1), colorAt colors ((r.Value >>> 3) &&& 1),
             colorAt colors ((r.Value >>> 2) &&& 1), colorAt colors ((r.Value >>> 1) &&& 1),
             colorAt colors ((r.Value >>> 0) &&& 1)]).1 := by
      unfold Char.Plot
      rw [if_neg hv]
      rfl
    rw [e]
    generalize hcs : [colorAt colors ((r.Value >>> 6) &&& 1), colorAt colors ((r.Value >>> 5) &&& 1),
             colorAt colors ((r.Value >>> 4) &&& 1), colorAt colors ((r.Value >>> 3) &&& 1),
             colorAt colors ((r.Value >>> 2) &&& 1), colorAt colors ((r.Value >>> 1) &&& 1),
             colorAt colors ((r.Value >>> 0) &&& 1)] = cs
    obtain ⟨hR, hP⟩ := plotBits_spec r.Y sw sh cs img r.X
    refine ⟨hR, fun qx qy => ?_⟩
    rw [hP]
    have hlen : ((cs.length : Nat) : Int) = 7 := by rw [← hcs]; rfl
    rw [hlen]
    by_cases hcell : img.Rect.In qx qy ∧ r.X ≤ qx ∧ qx < r.X + 7 * sw ∧ r.Y ≤ qy ∧ qy < r.Y + sh
    · rw [if_pos hcell, if_pos ⟨hv, hcell⟩]
      obtain ⟨-, c1, c2, -, -⟩ := hcell
      have hsw : 0 < sw := by omega
      have d1 : (qx - r.X) / sw * sw ≤ qx - r.X := Int.ediv_mul_le _ (by omega)
      have d3 : 0 ≤ (qx - r.X) / sw := Int.ediv_nonneg (by omega) (by omega)
      have d4 : (qx - r.X) / sw < 7 := by
        by_contra hge
        have : 7 * sw ≤ (qx - r.X) / sw * sw := by nlinarith
        omega
      have hn : ((qx - r.X) / sw).toNat < 7 := by omega
      generalize ((qx - r.X) / sw).toNat = n at hn ⊢
      rw [← hcs]
      interval_cases n <;> rfl
    · rw [if_neg hcell, if_neg (fun h => hcell h.2)]

/-- C11. For a record whose value is not a space and whose cell lies inside the
image, Plot leaves the bounds alone, gives every pixel of the cell the colour
`colors[(Value >> (6 - (px - X)/sw)) & 1]` and changes no other pixel; for a
record whose value is a space, Plot returns the image unchanged. -/
theorem plot_paints_cell (r : Char) (img : Image) (sw sh : Int) (colors : NRGBA × NRGBA) :
    (r.Value ≠ space →
      img.Rect.MinX ≤ r.X ∧ r.X + 7 * sw ≤ img.Rect.MaxX ∧
        img.Rect.MinY ≤ r.Y ∧ r.Y + sh ≤ img.Rect.MaxY →
      (r.Plot img sw sh colors).Rect = img.Rect ∧
      (∀ px py : Int, r.X ≤ px → px < r.X + 7 * sw → r.Y ≤ py → py < r.Y + sh →
        (r.Plot img sw sh colors).Pix px py
          = colorAt colors ((r.Value >>> (6 - ((px - r.X) / sw).toNat)) &&& 1)) ∧
      (∀ px py : Int, ¬ (r.X ≤ px ∧ px < r.X + 7 * sw ∧ r.Y ≤ py ∧ py < r.Y + sh) →
        (r.Plot img sw sh colors).Pix px py = img.Pix px py)) ∧
    (r.Value = space → r.Plot img sw sh colors = img) := by
  obtain ⟨hR, hP⟩ := Plot_spec r img sw sh colors
  refine ⟨fun hv hin => ⟨hR, ?_, ?_⟩, ?_⟩
  · intro px py h1 h2 h3 h4
    rw [hP, if_pos]
    refine ⟨hv, ?_, h1, h2, h3, h4⟩
    unfold Rectangle.In
    omega
  · intro px py hn
    rw [hP, if_neg]
    exact fun h => hn ⟨h.2.2.1, h.2.2.2.1, h.2.2.2.2.1, h.2.2.2.2.2⟩
  · intro hv
    unfold Char.Plot
    rw [if_pos hv]

theorem plot_paints_cell_witness :
    sampleChar.Value ≠ space ∧
    (sampleImage.Rect.MinX ≤ sampleChar.X ∧ sampleChar.X + 7 * 2 ≤ sampleImage.Rect.MaxX ∧
      sampleImage.Rect.MinY ≤ sampleChar.Y ∧ sampleChar.Y + 3 ≤ sampleImage.Rect.MaxY) ∧
    ((sampleChar.Plot sampleImage 2 3 defaultConfig.Colors).Rect = sampleImage.Rect ∧
      (∀ px py : Int, sampleChar.X ≤ px → px < sampleChar.X + 7 * 2 →
        sampleChar.Y ≤ py → py < sampleChar.Y + 3 →
        (sampleChar.Plot sampleImage 2 3 defaultConfig.Colors).Pix px py
          = colorAt defaultConfig.Colors
              ((sampleChar.Value >>> (6 - ((px - sampleChar.X) / 2).toNat)) &&& 1)) ∧
      (∀ px py : Int,
        ¬ (sampleChar.X ≤ px ∧ px < sampleChar.X + 7 * 2 ∧
            sampleChar.Y ≤ py ∧ py < sampleChar.Y + 3) →
        (sampleChar.Plot sampleImage 2 3 defaultConfig.Colors).Pix px py
          = sampleImage.Pix px py)) :=
  ⟨by decide, by decide,
    (plot_paints_cell sampleChar sampleImage 2 3 defaultConfig.Colors).1
      (by decide) (by decide)⟩

theorem plotAll_spec (sw sh : Int) (colors : NRGBA × NRGBA) (charset : List Char)
    (img : Image) :
    (charset.foldl (fun im ch => ch.Plot im sw sh colors) img).Rect = img.Rect ∧
    ∀ qx qy : Int,
      (∀ r ∈ charset, r.Value ≠ space →
        ¬ (r.X ≤ qx ∧ qx < r.X + 7 * sw ∧ r.Y ≤ qy ∧ qy < r.Y + sh)) →
      (charset.foldl (fun im ch => ch.Plot im sw sh colors) img).Pix qx qy = img.Pix qx qy := by
  induction charset generalizing img with
  | nil => exact ⟨rfl, fun _ _ _ => rfl⟩
  | cons a l ih =>
    simp only [List.foldl_cons]
    obtain ⟨hR, hP⟩ := Plot_spec a img sw sh colors
    obtain ⟨hR2, hP2⟩ := ih (a.Plot img sw sh colors)
    refine ⟨by rw [hR2, hR], fun qx qy hout => ?_⟩
    rw [hP2 qx qy (fun r hr => hout r (List.mem_cons_of_mem _ hr)), hP, if_neg]
    rintro ⟨hv, -, hcell⟩
    exact hout a (List.mem_cons_self _ _) hv hcell

theorem wideSpacingBorder_layout :
    buildCharacterSet wideSpacingBorderConfig [65] = [⟨65, -4, 0⟩] := by
  unfold buildCharacterSet bottomOf
  rw [rowsOf_eq wideSpacingBorderConfig [65] 1 (by decide) (by decide) (by decide)]
  decide

/-- The image of drawPattern when a border is drawn: the background, the two
border bands, then the records. -/
theorem drawPattern_border (c : Config) (hb : c.Border > 0) (cs : List Char) :
    drawPattern c cs
      = cs.foldl (fun im ch => ch.Plot im c.StitchWidth c.StitchHeight c.Colors)
          (fillRect
            (fillRect
              (fillRect (NewNRGBA (computePatternRect c cs)) 0 0
                (computePatternRect c cs).Dx (computePatternRect c cs).Dy c.Colors.1)
              c.SpacingWidth c.SpacingHeight
              (sub64 (computePatternRect c cs).Dx (mul64 c.SpacingWidth 2))
              c.BorderHeight c.Colors.2)
            c.SpacingWidth
            (sub64 (sub64 (computePatternRect c cs).Dy c.SpacingHeight) c.BorderHeight)
            (sub64 (computePatternRect c cs).Dx (mul64 c.SpacingWidth 2))
            c.BorderHeight c.Colors.2) := by
  unfold drawPattern
  simp only [if_pos hb]

/-- With a border, drawPattern plots the records on an image with the bounds
of computePatternRect. -/
theorem drawPattern_border_image (c : Config) (hb : c.Border > 0) (cs : List Char) :
    ∃ f2 : Image, f2.Rect = computePatternRect c cs ∧
      drawPattern c cs
        = cs.foldl (fun im ch => ch.Plot im c.StitchWidth c.StitchHeight c.Colors) f2 := by
  refine ⟨_, ?_, drawPattern_border c hb cs⟩
  rw [(fillRect_spec _ _ _ _ _ _).1, (fillRect_spec _ _ _ _ _ _).1,
    (fillRect_spec _ _ _ _ _ _).1]
  rfl

/-- C12 as stated fails: with `-spacing 4611686018427387903 -border 2
-stitch-width 4 -stitch-height 4` and the text "A" the spacing in pixels wraps
to -4, the column top is 0 and the image is 68 by 4 pixels. Both border bands
cover the whole image, and the cell of `A`, at (-4, 0), is painted over them:
the pixel (0, 0) lies in the top band of the claim and has colour Colors[0]. -/
theorem border_band_overwritten :
    wideSpacingBorderConfig.Valid ∧ wideSpacingBorderConfig.Border > 0 ∧
    buildCharacterSet wideSpacingBorderConfig [65] = [⟨65, -4, 0⟩] ∧
    computePatternRect wideSpacingBorderConfig (buildCharacterSet wideSpacingBorderConfig [65])
      = ⟨0, 0, 68, 4⟩ ∧
    (wideSpacingBorderConfig.SpacingWidth ≤ 0 ∧
      0 < (drawPattern wideSpacingBorderConfig
            (buildCharacterSet wideSpacingBorderConfig [65])).Rect.Dx
          - wideSpacingBorderConfig.SpacingWidth ∧
      wideSpacingBorderConfig.SpacingHeight ≤ 0 ∧
      0 < wideSpacingBorderConfig.SpacingHeight + wideSpacingBorderConfig.BorderHeight) ∧
    (drawPattern wideSpacingBorderConfig (buildCharacterSet wideSpacingBorderConfig [65])).Pix 0 0
      = colorAt wideSpacingBorderConfig.Colors 0 ∧
    (drawPattern wideSpacingBorderConfig (buildCharacterSet wideSpacingBorderConfig [65])).Pix 0 0
      ≠ colorAt wideSpacingBorderConfig.Colors 1 := by
  have hrect : computePatternRect wideSpacingBorderConfig [⟨65, -4, 0⟩] = ⟨0, 0, 68, 4⟩ := by
    decide
  have hb : wideSpacingBorderConfig.Border > 0 := by decide
  have key : ∀ f2 : Image, f2.Rect = ⟨0, 0, 68, 4⟩ →
      ((List.foldl (fun im (ch : Char) => ch.Plot im wideSpacingBorderConfig.StitchWidth
          wideSpacingBorderConfig.StitchHeight wideSpacingBorderConfig.Colors) f2
          [⟨65, -4, 0⟩]).Rect = ⟨0, 0, 68, 4⟩ ∧
       (List.foldl (fun im (ch : Char) => ch.Plot im wideSpacingBorderConfig.StitchWidth
          wideSpacingBorderConfig.StitchHeight wideSpacingBorderConfig.Colors) f2
          [⟨65, -4, 0⟩]).Pix 0 0 = colorAt wideSpacingBorderConfig.Colors 0) := by
    intro f2 h
    simp only [List.foldl_cons, List.foldl_nil]
    obtain ⟨pR, pP⟩ := Plot_spec ⟨65, -4, 0⟩ f2 wideSpacingBorderConfig.StitchWidth
      wideSpacingBorderConfig.StitchHeight wideSpacingBorderConfig.Colors
    rw [pR, pP, h, if_pos (by decide)]
    exact ⟨rfl, by decide⟩
  obtain ⟨f2, hR2, hdraw⟩ := drawPattern_border_image wideSpacingBorderConfig hb [⟨65, -4, 0⟩]
  rw [hrect] at hR2
  obtain ⟨kR, kP⟩ := key f2 hR2
  rw [← hdraw] at kR kP
  rw [wideSpacingBorder_layout, hrect, kR, kP]
  exact ⟨by decide, hb, rfl, rfl, by decide, rfl, by decide⟩

/-- C12, amended. For a valid configuration with a border whose canvas is less
than 2^63 pixels wide and high, in the image of drawPattern over the layout of
`v` (width W, height H) every pixel with `SpacingWidth ≤ x < W - SpacingWidth`
in the top band `SpacingHeight ≤ y < SpacingHeight + BorderHeight` or in the
bottom band `H - SpacingHeight - BorderHeight ≤ y < H - SpacingHeight` has
colour Colors[1], and every pixel of the image outside both bands and outside
the cells of all non-space records has colour Colors[0]. -/
theorem border_bands_and_background (c : Config) (hc : c.Valid) (hb : c.Border > 0)
    (v : List Nat) (hf : c.Fits v) :
    (drawPattern c (buildCharacterSet c v)).Rect
      = computePatternRect c (buildCharacterSet c v) ∧
    (∀ x y : Int,
      c.SpacingWidth ≤ x →
      x < (drawPattern c (buildCharacterSet c v)).Rect.Dx - c.SpacingWidth →
      (c.SpacingHeight ≤ y ∧ y < c.SpacingHeight + c.BorderHeight ∨
        (drawPattern c (buildCharacterSet c v)).Rect.Dy - c.SpacingHeight - c.BorderHeight ≤ y ∧
          y < (drawPattern c (buildCharacterSet c v)).Rect.Dy - c.SpacingHeight) →
      (drawPattern c (buildCharacterSet c v)).Pix x y = colorAt c.Colors 1) ∧
    (∀ x y : Int,
      0 ≤ x → x < (drawPattern c (buildCharacterSet c v)).Rect.Dx →
      0 ≤ y → y < (drawPattern c (buildCharacterSet c v)).Rect.Dy →
      ¬ (c.SpacingWidth ≤ x ∧
          x < (drawPattern c (buildCharacterSet c v)).Rect.Dx - c.SpacingWidth ∧
          (c.SpacingHeight ≤ y ∧ y < c.SpacingHeight + c.BorderHeight ∨
            (drawPattern c (buildCharacterSet c v)).Rect.Dy - c.SpacingHeight - c.BorderHeight
                ≤ y ∧
              y < (drawPattern c (buildCharacterSet c v)).Rect.Dy - c.SpacingHeight)) →
      (∀ r ∈ buildCharacterSet c v, r.Value ≠ space →
        ¬ (r.X ≤ x ∧ x < r.X + 7 * c.StitchWidth ∧ r.Y ≤ y ∧ y < r.Y + c.StitchHeight)) →
      (drawPattern c (buildCharacterSet c v)).Pix x y = colorAt c.Colors 0) := by
  obtain ⟨eCW, -, -, hD, hSW, hW, hWlt⟩ := fitsWidth_facts c hc hf.1
  have hCW : 0 ≤ c.ColumnWidth := by
    have := hc.2.2.2.1
    rw [eCW]; omega
  obtain ⟨-, -, htop, e4, hSH, hBH, e7, e8⟩ := fitsHeight_facts c hc v hf.2
  rw [if_pos hb] at htop e7
  have hsh : 1 ≤ c.StitchHeight := hc.2.2.2.2
  have hC : 1 ≤ c.Columns := hc.1
  have hCD : c.ColumnWidth + c.SpacingWidth ≤ c.Columns * (c.ColumnWidth + c.SpacingWidth) := by
    nlinarith
  have hrecs := record_above_bottom c hc v hf.2
  obtain ⟨hmx, hMx, hw⟩ := width_eq c hc hf.1 (buildCharacterSet c v)
  obtain ⟨hmy, hMy, hh⟩ := height_eq c hc v hf.2 (Or.inr hb) (buildCharacterSet c v)
    (fun q hq => (hrecs q hq).2)
  rw [if_pos hb] at hh
  have hhi : highestY 0 (buildCharacterSet c v) + c.StitchHeight ≤ bottomOf c v := by
    have hr := rowsOf_nonneg c hc v
    have hR : 0 ≤ rowsOf c v * c.StitchHeight := mul_nonneg hr (by omega)
    have hB : c.StitchHeight ≤ c.BorderHeight := by
      obtain ⟨-, eB, -, -, -, -, -, -⟩ := fitsHeight_facts c hc v hf.2
      rw [eB]; nlinarith
    rcases highestY_attained (buildCharacterSet c v) 0 with h | ⟨r, hr, h⟩
    · rw [h, e4, htop]; omega
    · rw [h]; exact (hrecs r hr).2
  generalize hcs : buildCharacterSet c v = cs at *
  have hrec : ∀ r ∈ cs, topOf c ≤ r.Y ∧ r.Y ≤ highestY 0 cs :=
    fun r hr => ⟨(hrecs r hr).1, (le_highestY _ 0).2 r hr⟩
  have h0 := (le_highestY cs 0).1
  -- the arithmetic of drawPattern does not wrap
  have a0 : add64 0 (computePatternRect c cs).Dx = (computePatternRect c cs).Dx := by
    have h := add64_of_range 0 (computePatternRect c cs).Dx (by omega) (by omega)
    rw [h]; omega
  have a1 : add64 0 (computePatternRect c cs).Dy = (computePatternRect c cs).Dy := by
    have h := add64_of_range 0 (computePatternRect c cs).Dy (by omega) (by omega)
    rw [h]; omega
  have a2 : mul64 c.SpacingWidth 2 = c.SpacingWidth * 2 :=
    mul64_of_range _ _ (by omega) (by omega)
  have a3 : sub64 (computePatternRect c cs).Dx (c.SpacingWidth * 2)
      = (computePatternRect c cs).Dx - c.SpacingWidth * 2 :=
    sub64_of_range _ _ (by omega) (by omega)
  have a4 : add64 c.SpacingWidth ((computePatternRect c cs).Dx - c.SpacingWidth * 2)
      = (computePatternRect c cs).Dx - c.SpacingWidth := by
    have h := add64_of_range c.SpacingWidth
      ((computePatternRect c cs).Dx - c.SpacingWidth * 2) (by omega) (by omega)
    rw [h]; omega
  have a5 : add64 c.SpacingHeight c.BorderHeight = c.SpacingHeight + c.BorderHeight :=
    add64_of_range _ _ (by omega) (by omega)
  have a6 : sub64 (computePatternRect c cs).Dy c.SpacingHeight
      = (computePatternRect c cs).Dy - c.SpacingHeight :=
    sub64_of_range _ _ (by omega) (by omega)
  have a7 : sub64 ((computePatternRect c cs).Dy - c.SpacingHeight) c.BorderHeight
      = (computePatternRect c cs).Dy - c.SpacingHeight - c.BorderHeight :=
    sub64_of_range _ _ (by omega) (by omega)
  have a8 : add64 ((computePatternRect c cs).Dy - c.SpacingHeight - c.BorderHeight)
      c.BorderHeight = (computePatternRect c cs).Dy - c.SpacingHeight := by
    have h := add64_of_range ((computePatternRect c cs).Dy - c.SpacingHeight - c.BorderHeight)
      c.BorderHeight (by omega) (by omega)
    rw [h]; omega
  -- the image before the records are plotted
  obtain ⟨bR0, bP0⟩ := fillRect_spec (NewNRGBA (computePatternRect c cs)) 0 0
    (computePatternRect c cs).Dx (computePatternRect c cs).Dy c.Colors.1
  rw [a0, a1] at bP0
  generalize hf0 : fillRect (NewNRGBA (computePatternRect c cs)) 0 0
    (computePatternRect c cs).Dx (computePatternRect c cs).Dy c.Colors.1 = f0 at bR0 bP0
  obtain ⟨bR1, bP1⟩ := fillRect_spec f0 c.SpacingWidth c.SpacingHeight
    ((computePatternRect c cs).Dx - c.SpacingWidth * 2) c.BorderHeight c.Colors.2
  rw [a4, a5] at bP1
  generalize hf1 : fillRect f0 c.SpacingWidth c.SpacingHeight
    ((computePatternRect c cs).Dx - c.SpacingWidth * 2) c.BorderHeight c.Colors.2 = f1
    at bR1 bP1
  obtain ⟨bR2, bP2⟩ := fillRect_spec f1 c.SpacingWidth
    ((computePatternRect c cs).Dy - c.SpacingHeight - c.BorderHeight)
    ((computePatternRect c cs).Dx - c.SpacingWidth * 2) c.BorderHeight c.Colors.2
  rw [a4, a8] at bP2
  generalize hf2 : fillRect f1 c.SpacingWidth
    ((computePatternRect c cs).Dy - c.SpacingHeight - c.BorderHeight)
    ((computePatternRect c cs).Dx - c.SpacingWidth * 2) c.BorderHeight c.Colors.2 = f2
    at bR2 bP2
  have hdraw : drawPattern c cs
      = cs.foldl (fun im ch => ch.Plot im c.StitchWidth c.StitchHeight c.Colors) f2 := by
    rw [drawPattern_border c hb cs, a2, a3, a6, a7, hf0, hf1, hf2]
  obtain ⟨pR, pP⟩ := plotAll_spec c.StitchWidth c.StitchHeight c.Colors cs f2
  rw [← hdraw] at pR pP
  have hRect : (drawPattern c cs).Rect = computePatternRect c cs := by
    rw [pR, bR2, bR1, bR0]; rfl
  have hbase : (NewNRGBA (computePatternRect c cs)).Rect = computePatternRect c cs := rfl
  rw [hbase] at bR0 bP0
  rw [bR0] at bR1 bP1
  rw [bR1] at bR2 bP2
  rw [hRect]
  generalize hrect : computePatternRect c cs = rect at *
  refine ⟨rfl, ?_, ?_⟩
  · intro x y hx1 hx2 hband
    have hout : ∀ r ∈ cs, r.Value ≠ space →
        ¬ (r.X ≤ x ∧ x < r.X + 7 * c.StitchWidth ∧ r.Y ≤ y ∧ y < r.Y + c.StitchHeight) := by
      intro r hr _ hcell
      have := hrec r hr
      omega
    have hin : rect.In x y := by
      unfold Rectangle.In; omega
    rw [pP x y hout, bP2, bP1]
    have hc1 : colorAt c.Colors 1 = c.Colors.2 := rfl
    rw [hc1]
    rcases hband with hb1 | hb2
    · split_ifs with h2 h1
      · rfl
      · rfl
      · exact absurd ⟨hin, by omega, by omega, by omega, by omega⟩ h1
    · rw [if_pos ⟨hin, by omega, by omega, by omega, by omega⟩]
  · intro x y hx1 hx2 hy1 hy2 hnb hout
    have hin : rect.In x y := by
      unfold Rectangle.In; omega
    have hc0 : colorAt c.Colors 0 = c.Colors.1 := rfl
    rw [pP x y hout, bP2, bP1, bP0, hc0]
    rw [if_neg, if_neg, if_pos]
    · exact ⟨hin, by omega, by omega, by omega, by omega⟩
    · rintro ⟨-, a1, a2, a3, a4⟩
      exact hnb ⟨a1, by omega, Or.inl ⟨a3, a4⟩⟩
    · rintro ⟨-, a1, a2, a3, a4⟩
      exact hnb ⟨a1, by omega, Or.inr ⟨a3, by omega⟩⟩

theorem border_bands_and_background_witness :
    defaultConfig.Valid ∧ defaultConfig.Border > 0 ∧ defaultConfig.Fits [72, 105] ∧
    ((drawPattern defaultConfig (buildCharacterSet defaultConfig [72, 105])).Rect
      = computePatternRect defaultConfig (buildCharacterSet defaultConfig [72, 105]) ∧
    (∀ x y : Int,
      defaultConfig.SpacingWidth ≤ x →
      x < (drawPattern defaultConfig (buildCharacterSet defaultConfig [72, 105])).Rect.Dx
          - defaultConfig.SpacingWidth →
      (defaultConfig.SpacingHeight ≤ y ∧
          y < defaultConfig.SpacingHeight + defaultConfig.BorderHeight ∨
        (drawPattern defaultConfig (buildCharacterSet defaultConfig [72, 105])).Rect.Dy
            - defaultConfig.SpacingHeight - defaultConfig.BorderHeight ≤ y ∧
          y < (drawPattern defaultConfig (buildCharacterSet defaultConfig [72, 105])).Rect.Dy
              - defaultConfig.SpacingHeight) →
      (drawPattern defaultConfig (buildCharacterSet defaultConfig [72, 105])).Pix x y
        = colorAt defaultConfig.Colors 1) ∧
    (∀ x y : Int,
      0 ≤ x → x < (drawPattern defaultConfig (buildCharacterSet defaultConfig [72, 105])).Rect.Dx →
      0 ≤ y → y < (drawPattern defaultConfig (buildCharacterSet defaultConfig [72, 105])).Rect.Dy →
      ¬ (defaultConfig.SpacingWidth ≤ x ∧
          x < (drawPattern defaultConfig (buildCharacterSet defaultConfig [72, 105])).Rect.Dx
              - defaultConfig.SpacingWidth ∧
          (defaultConfig.SpacingHeight ≤ y ∧
              y < defaultConfig.SpacingHeight + defaultConfig.BorderHeight ∨
            (drawPattern defaultConfig (buildCharacterSet defaultConfig [72, 105])).Rect.Dy
                - defaultConfig.SpacingHeight - defaultConfig.BorderHeight ≤ y ∧
              y < (drawPattern defaultConfig (buildCharacterSet defaultConfig [72, 105])).Rect.Dy
                  - defaultConfig.SpacingHeight)) →
      (∀ r ∈ buildCharacterSet defaultConfig [72, 105], r.Value ≠ space →
        ¬ (r.X ≤ x ∧ x < r.X + 7 * defaultConfig.StitchWidth ∧
            r.Y ≤ y ∧ y < r.Y + defaultConfig.StitchHeight)) →
      (drawPattern defaultConfig (buildCharacterSet defaultConfig [72, 105])).Pix x y
        = colorAt defaultConfig.Colors 0)) :=
  ⟨by decide, by decide, fits_of_length defaultConfig (by decide) _ (by decide) (by decide),
    border_bands_and_background defaultConfig (by decide) (by decide) [72, 105]
      (fits_of_length defaultConfig (by decide) _ (by decide) (by decide))⟩

theorem rowsOf_oneColumn (v : List Nat) : rowsOf oneColumnConfig v = (v.length : Int) := by
  unfold rowsOf
  have : oneColumnConfig.Columns = 1 := rfl
  rw [this]
  simp

/-- C17 (as stated, refuted). With one column the filtered text "A B" is laid
out as three records, the middle one holding the space byte. -/
theorem space_record_emitted :
    filterText [65, 32, 66] 1 = .ok [65, 32, 66] ∧
    oneColumnConfig.Valid ∧
    buildCharacterSet oneColumnConfig [65, 32, 66]
      = [{ Value := 65, X := 4, Y := 18 }, { Value := 32, X := 4, Y := 21 },
         { Value := 66, X := 4, Y := 24 }] ∧
    (32 : Nat) = space := by
  refine ⟨rfl, by decide, ?_, rfl⟩
  have hrows := rowsOf_oneColumn [65, 32, 66]
  unfold buildCharacterSet bottomOf
  rw [hrows]
  decide

/-- With `-columns 1 -spacing 2305843009213693951 -border 0 -stitch-width 1
-stitch-height 4` the row cursor wraps while "A B" is laid out: the space is
recorded at Y = -2^63, far above the column top 2^63 - 4. -/
theorem space_record_wraps :
    tallSpacingConfig.Valid ∧
    topOf tallSpacingConfig = 9223372036854775804 ∧
    buildCharacterSet tallSpacingConfig [65, 32, 66]
      = [⟨65, 2305843009213693951, 9223372036854775804⟩,
         ⟨32, 2305843009213693951, -9223372036854775808⟩,
         ⟨66, 2305843009213693951, -9223372036854775804⟩] := by
  refine ⟨by decide, by decide, ?_⟩
  unfold buildCharacterSet bottomOf
  rw [rowsOf_eq tallSpacingConfig [65, 32, 66] 3 (by decide) (by decide) (by decide)]
  decide

/-- C17 (amended). Every record of buildCharacterSet whose value is a space
was met below the column top and above the last row of its column, as the loop
tests them: such a space is recorded and the cursor moves one row down (or to
the next column when that row reaches `bottom`), and for such a record the
space skip of Plot is taken, leaving the image unchanged. When the canvas
height is below 2^63 the record lies strictly between the top row and the last
row, `top < Y` and `Y + StitchHeight < bottom`, and the cursor moves to
`Y + StitchHeight` in the same column. -/
theorem space_records_mid_column (c : Config) (hc : c.Valid) (v : List Nat) :
    (∀ r ∈ buildCharacterSet c v, r.Value = space →
      r.Y ≠ topOf c ∧ r.Y < sub64 (bottomOf c v) c.StitchHeight ∧
      ∀ (img : Image) (sw sh : Int) (colors : NRGBA × NRGBA), r.Plot img sw sh colors = img) ∧
    (∀ (x y : Int) (bs : List Nat), y ≠ topOf c → y < sub64 (bottomOf c v) c.StitchHeight →
      layoutLoop c (topOf c) (bottomOf c v) x y (space :: bs)
        = { Value := space, X := x, Y := y }
            :: (if add64 y c.StitchHeight ≥ bottomOf c v then
                layoutLoop c (topOf c) (bottomOf c v)
                  (add64 x (add64 c.ColumnWidth c.SpacingWidth)) (topOf c) bs
              else
                layoutLoop c (topOf c) (bottomOf c v) x (add64 y c.StitchHeight) bs)) ∧
    (c.FitsHeight v →
      (∀ r ∈ buildCharacterSet c v, r.Value = space →
        topOf c < r.Y ∧ r.Y + c.StitchHeight < bottomOf c v) ∧
      (v ≠ [] → ∀ (x y : Int) (bs : List Nat), -2 ^ 63 ≤ y → y ≠ topOf c →
        y + c.StitchHeight < bottomOf c v →
        layoutLoop c (topOf c) (bottomOf c v) x y (space :: bs)
          = { Value := space, X := x, Y := y }
              :: layoutLoop c (topOf c) (bottomOf c v) x (y + c.StitchHeight) bs)) := by
  have hsh : 1 ≤ c.StitchHeight := hc.2.2.2.2
  refine ⟨?_, ?_, ?_⟩
  · intro r hr hs
    obtain ⟨h1, h2⟩ := layoutLoop_space c (topOf c) (bottomOf c v) v c.SpacingWidth (topOf c)
      r hr hs
    refine ⟨h1, h2, ?_⟩
    intro img sw sh colors
    unfold Char.Plot
    rw [if_pos hs]
  · intro x y bs hy hlast
    rw [layoutLoop, if_neg (fun h => hy h.2), if_neg (fun h => by have := h.2; omega)]
  · intro hh
    obtain ⟨-, -, -, e4, -, -, e7, e8⟩ := fitsHeight_facts c hc v hh
    have ht := topOf_nonneg c hc v hh
    have hbot : bottomOf c v < 2 ^ 63 := by split_ifs at e7 <;> omega
    constructor
    · intro r hr hs
      obtain ⟨j, hj, hY, hsp⟩ := record_row c hc v hh r hr
      obtain ⟨hj0, hj1⟩ := hsp hs
      have hjpos : (1 : Int) ≤ (j : Int) := by omega
      have h1 : c.StitchHeight ≤ (j : Int) * c.StitchHeight := by nlinarith
      have h2 : ((j : Int) + 2) * c.StitchHeight ≤ rowsOf c v * c.StitchHeight :=
        mul_le_mul_of_nonneg_right (by omega) (by omega)
      have h3 : ((j : Int) + 2) * c.StitchHeight
          = (j : Int) * c.StitchHeight + 2 * c.StitchHeight := by ring
      rw [hY, e4]
      constructor <;> omega
    · intro hv x y bs hlo hy hlast
      have hpos := rowsOf_pos c hc v hv
      have h1 : c.StitchHeight ≤ rowsOf c v * c.StitchHeight := by nlinarith
      have hsub : sub64 (bottomOf c v) c.StitchHeight = bottomOf c v - c.StitchHeight :=
        sub64_of_range _ _ (by omega) (by omega)
      have hadd : add64 y c.StitchHeight = y + c.StitchHeight :=
        add64_of_range _ _ (by omega) (by omega)
      rw [layoutLoop, if_neg (fun h => hy h.2), hsub,
        if_neg (fun h => by have := h.2; omega), hadd, if_neg (by omega)]

theorem space_records_mid_column_witness :
    oneColumnConfig.Valid ∧
    ((∀ r ∈ buildCharacterSet oneColumnConfig [65, 32, 66], r.Value = space →
      r.Y ≠ topOf oneColumnConfig ∧
      r.Y < sub64 (bottomOf oneColumnConfig [65, 32, 66]) oneColumnConfig.StitchHeight ∧
      ∀ (img : Image) (sw sh : Int) (colors : NRGBA × NRGBA), r.Plot img sw sh colors = img) ∧
    (∀ (x y : Int) (bs : List Nat), y ≠ topOf oneColumnConfig →
      y < sub64 (bottomOf oneColumnConfig [65, 32, 66]) oneColumnConfig.StitchHeight →
      layoutLoop oneColumnConfig (topOf oneColumnConfig) (bottomOf oneColumnConfig [65, 32, 66])
          x y (space :: bs)
        = { Value := space, X := x, Y := y }
            :: (if add64 y oneColumnConfig.StitchHeight
                  ≥ bottomOf oneColumnConfig [65, 32, 66] then
                layoutLoop oneColumnConfig (topOf oneColumnConfig)
                  (bottomOf oneColumnConfig [65, 32, 66])
                  (add64 x (add64 oneColumnConfig.ColumnWidth oneColumnConfig.SpacingWidth))
                  (topOf oneColumnConfig) bs
              else
                layoutLoop oneColumnConfig (topOf oneColumnConfig)
                  (bottomOf oneColumnConfig [65, 32, 66]) x
                  (add64 y oneColumnConfig.StitchHeight) bs)) ∧
    (oneColumnConfig.FitsHeight [65, 32, 66] →
      (∀ r ∈ buildCharacterSet oneColumnConfig [65, 32, 66], r.Value = space →
        topOf oneColumnConfig < r.Y ∧
        r.Y + oneColumnConfig.StitchHeight < bottomOf oneColumnConfig [65, 32, 66]) ∧
      ([65, 32, 66] ≠ [] → ∀ (x y : Int) (bs : List Nat), -2 ^ 63 ≤ y →
        y ≠ topOf oneColumnConfig →
        y + oneColumnConfig.StitchHeight < bottomOf oneColumnConfig [65, 32, 66] →
        layoutLoop oneColumnConfig (topOf oneColumnConfig)
            (bottomOf oneColumnConfig [65, 32, 66]) x y (space :: bs)
          = { Value := space, X := x, Y := y }
              :: layoutLoop oneColumnConfig (topOf oneColumnConfig)
                  (bottomOf oneColumnConfig [65, 32, 66]) x
                  (y + oneColumnConfig.StitchHeight) bs))) :=
  ⟨by decide, space_records_mid_column oneColumnConfig (by decide) [65, 32, 66]⟩

theorem lor_32 (c : Nat) : c ||| 32 = if c / 32 % 2 = 0 then c + 32 else c := by
  have h1 : c = 2 ^ 6 * (c / 64) + c % 64 := by omega
  have hlt : c % 64 < 2 ^ 6 := by omega
  have h2 : 2 ^ 6 * (c / 64) + c % 64 = 2 ^ 6 * (c / 64) ||| c % 64 :=
    Nat.mul_add_lt_is_or hlt _
  have h3 : (c % 64 ||| 32) < 2 ^ 6 := Nat.or_lt_two_pow hlt (by decide)
  have h4 : c ||| 32 = 2 ^ 6 * (c / 64) + (c % 64 ||| 32) := by
    rw [Nat.mul_add_lt_is_or h3]
    conv_lhs => rw [h1, h2]
    rw [Nat.lor_assoc]
  have h5 : c % 64 ||| 32 = if c % 64 / 32 % 2 = 0 then c % 64 + 32 else c % 64 := by
    generalize c % 64 = r at hlt
    have : r < 64 := hlt
    interval_cases r <;> rfl
  rw [h4, h5]
  split_ifs <;> omega


theorem parseDigits_step (n c : Nat) (t : List Nat) (hn : n ≤ 15) :
    parseDigits n (c :: t)
      = if isHexDigit c then parseDigits (n * 16 + hexValue c) t else (0, some .malformed) := by
  rw [parseDigits, lor_32]
  unfold isHexDigit hexValue
  have h60 : ¬ n ≥ 2 ^ 60 := by
    have : (2 : Nat) ^ 60 = 1152921504606846976 := by norm_num
    omega
  by_cases h1 : 48 ≤ c ∧ c ≤ 57
  · rw [if_pos h1, if_neg (by omega), if_neg h60, if_neg (by omega), if_pos (Or.inl h1),
      if_pos h1]
  · rw [if_neg h1]
    by_cases h2 : c / 32 % 2 = 0
    · rw [if_pos h2]
      by_cases h3 : 65 ≤ c ∧ c ≤ 70
      · rw [if_pos (by omega), if_neg (by omega), if_neg h60, if_neg (by omega),
          if_pos (Or.inr (Or.inr h3)), if_neg h1, if_neg (by omega)]
        congr 2; omega
      · by_cases h4 : 97 ≤ c + 32 ∧ c + 32 ≤ 122
        · rw [if_pos h4, if_pos (by omega), if_neg (by omega)]
        · rw [if_neg h4, if_neg (by omega)]
    · rw [if_neg h2]
      by_cases h3 : 97 ≤ c ∧ c ≤ 102
      · rw [if_pos (by omega), if_neg (by omega), if_neg h60, if_neg (by omega),
          if_pos (Or.inr (Or.inl h3)), if_neg h1, if_pos h3]
        congr 2; omega
      · by_cases h4 : 97 ≤ c ∧ c ≤ 122
        · rw [if_pos h4, if_pos (by omega), if_neg (by omega)]
        · rw [if_neg h4, if_neg (by omega)]

theorem ParseUint16_pair (a b : Nat) :
    ParseUint16 [a, b]
      = if isHexDigit a ∧ isHexDigit b then (16 * hexValue a + hexValue b, none)
        else (0, some .malformed) := by
  unfold ParseUint16
  rw [if_neg (by simp), parseDigits_step 0 a [b] (by omega)]
  by_cases ha : isHexDigit a
  · have hva : hexValue a ≤ 15 := by
      unfold isHexDigit at ha
      unfold hexValue
      split_ifs <;> omega
    rw [if_pos ha, parseDigits_step _ b [] (by omega)]
    by_cases hb : isHexDigit b
    · rw [if_pos hb, if_pos ⟨ha, hb⟩, parseDigits]
      congr 1; omega
    · rw [if_neg hb, if_neg (fun h => hb h.2)]
  · rw [if_neg ha, if_neg (fun h => ha h.1)]

theorem hexValue_le (a : Nat) (ha : isHexDigit a) : hexValue a ≤ 15 := by
  unfold isHexDigit at ha
  unfold hexValue
  split_ifs <;> omega

theorem parseColor_eight (out : NRGBA) (s : List Nat) (d1 d2 d3 d4 d5 d6 : Nat)
    (hs : ToLower s = [48, 120, d1, d2, d3, d4, d5, d6]) :
    parseColor out s
      = ({ R := (ParseUint16 [d1, d2]).1 % 256, G := (ParseUint16 [d3, d4]).1 % 256,
           B := (ParseUint16 [d5, d6]).1 % 256, A := 0xff },
         (pickError (ParseUint16 [d1, d2]).2 (ParseUint16 [d3, d4]).2
            (ParseUint16 [d5, d6]).2).map ColorError.parse) := by
  unfold parseColor
  simp only [hs]
  rw [if_neg (by simp [List.isPrefixOf])]
  rfl

/-- C13. parseColor succeeds exactly when the lower-cased string has length 8,
starts with "0x" and its six remaining bytes are hexadecimal digits; on success
R, G and B are the values of the three digit pairs and A is 255. "0xFF0000"
gives R=255, G=0, B=0, A=255 and "0xzz0000" fails. -/
theorem parseColor_spec (out : NRGBA) (s : List Nat) :
    ((parseColor out s).2 = none ↔
      (ToLower s).length = 8 ∧ [48, 120] <+: ToLower s ∧
        ∀ b ∈ (ToLower s).drop 2, isHexDigit b) ∧
    (∀ d1 d2 d3 d4 d5 d6 : Nat, (parseColor out s).2 = none →
      ToLower s = [48, 120, d1, d2, d3, d4, d5, d6] →
      (parseColor out s).1
        = { R := 16 * hexValue d1 + hexValue d2, G := 16 * hexValue d3 + hexValue d4,
            B := 16 * hexValue d5 + hexValue d6, A := 255 }) ∧
    (s = [48, 120, 70, 70, 48, 48, 48, 48] →
      parseColor out s = ({ R := 255, G := 0, B := 0, A := 255 }, none)) ∧
    (s = [48, 120, 122, 122, 48, 48, 48, 48] → (parseColor out s).2 ≠ none) := by
  have key : ∀ d1 d2 d3 d4 d5 d6 : Nat, ToLower s = [48, 120, d1, d2, d3, d4, d5, d6] →
      ((parseColor out s).2 = none ↔
        isHexDigit d1 ∧ isHexDigit d2 ∧ isHexDigit d3 ∧ isHexDigit d4 ∧
          isHexDigit d5 ∧ isHexDigit d6) ∧
      ((parseColor out s).2 = none →
        (parseColor out s).1
          = { R := 16 * hexValue d1 + hexValue d2, G := 16 * hexValue d3 + hexValue d4,
              B := 16 * hexValue d5 + hexValue d6, A := 255 }) := by
    intro d1 d2 d3 d4 d5 d6 hs
    rw [parseColor_eight out s d1 d2 d3 d4 d5 d6 hs]
    simp only [ParseUint16_pair, pickError]
    by_cases h12 : isHexDigit d1 ∧ isHexDigit d2
    · by_cases h34 : isHexDigit d3 ∧ isHexDigit d4
      · by_cases h56 : isHexDigit d5 ∧ isHexDigit d6
        · have a1 := hexValue_le d1 h12.1
          have a2 := hexValue_le d2 h12.2
          have a3 := hexValue_le d3 h34.1
          have a4 := hexValue_le d4 h34.2
          have a5 := hexValue_le d5 h56.1
          have a6 := hexValue_le d6 h56.2
          simp only [h12, h34, h56, and_self, if_true]
          refine ⟨by simp, fun _ => ?_⟩
          congr 1 <;> omega
        · simp [h12, h34, h56]
      · simp [h12, h34]
        intro a b
        exact absurd ⟨a, b⟩ h34
    · simp [h12]
      intro a b
      exact absurd ⟨a, b⟩ h12
  refine ⟨?_, ?_, ?_, ?_⟩
  · constructor
    · intro h
      have hcond : (ToLower s).length = 8 ∧ [48, 120].isPrefixOf (ToLower s) = true := by
        by_contra hc
        have : (parseColor out s).2 = some (.invalidOrMissing (ToLower s)) := by
          unfold parseColor
          simp only
          rw [if_pos]
          by_contra hc2
          apply hc
          push_neg at hc2
          exact ⟨hc2.1, hc2.2⟩
        rw [this] at h
        cases h
      obtain ⟨hlen, hpre⟩ := hcond
      rw [List.isPrefixOf_iff_prefix] at hpre
      obtain ⟨t, ht⟩ := hpre
      have ht6 : t.length = 6 := by
        have := congrArg List.length ht
        simp at this
        omega
      match t, ht6 with
      | [d1, d2, d3, d4, d5, d6], _ =>
        have hs : ToLower s = [48, 120, d1, d2, d3, d4, d5, d6] := ht.symm
        have := ((key d1 d2 d3 d4 d5 d6 hs).1).mp h
        refine ⟨hlen, ⟨_, ht⟩, ?_⟩
        rw [hs]
        intro b hb
        simp only [List.drop_succ_cons, List.drop_zero, List.mem_cons, List.mem_singleton,
          List.not_mem_nil, or_false] at hb
        rcases hb with rfl | rfl | rfl | rfl | rfl | rfl
        · exact this.1
        · exact this.2.1
        · exact this.2.2.1
        · exact this.2.2.2.1
        · exact this.2.2.2.2.1
        · exact this.2.2.2.2.2
    · rintro ⟨hlen, ⟨t, ht⟩, hhex⟩
      have ht6 : t.length = 6 := by
        have := congrArg List.length ht
        simp at this
        omega
      match t, ht6 with
      | [d1, d2, d3, d4, d5, d6], _ =>
        have hs : ToLower s = [48, 120, d1, d2, d3, d4, d5, d6] := ht.symm
        rw [hs] at hhex
        apply ((key d1 d2 d3 d4 d5 d6 hs).1).mpr
        simp only [List.drop_succ_cons, List.drop_zero] at hhex
        exact ⟨hhex d1 (by simp), hhex d2 (by simp), hhex d3 (by simp), hhex d4 (by simp),
          hhex d5 (by simp), hhex d6 (by simp)⟩
  · intro d1 d2 d3 d4 d5 d6 h hs
    exact (key d1 d2 d3 d4 d5 d6 hs).2 h
  · rintro rfl
    rfl
  · rintro rfl
    intro h
    cases h

theorem parseColor_spec_witness :
    parseColor ⟨0, 0, 0, 0⟩ [48, 120, 70, 70, 48, 48, 48, 48]
      = ({ R := 255, G := 0, B := 0, A := 255 }, none) ∧
    (parseColor ⟨0, 0, 0, 0⟩ [48, 120, 122, 122, 48, 48, 48, 48]).2 ≠ none ∧
    (parseColor ⟨0, 0, 0, 0⟩ [48, 120, 54, 52, 55, 51, 56, 52]).1
      = { R := 16 * hexValue 54 + hexValue 52, G := 16 * hexValue 55 + hexValue 51,
          B := 16 * hexValue 56 + hexValue 52, A := 255 } :=
  ⟨(parseColor_spec ⟨0, 0, 0, 0⟩ [48, 120, 70, 70, 48, 48, 48, 48]).2.2.1 rfl,
   (parseColor_spec ⟨0, 0, 0, 0⟩ [48, 120, 122, 122, 48, 48, 48, 48]).2.2.2 rfl,
   (parseColor_spec ⟨0, 0, 0, 0⟩ [48, 120, 54, 52, 55, 51, 56, 52]).2.1 54 52 55 51 56 52
     (by decide) (by decide)⟩

theorem Clean_ne_empty (path : String) : Clean path ≠ "" := by
  unfold Clean
  by_cases h1 : path = ""
  · rw [if_pos h1]
    decide
  · rw [if_neg h1]
    dsimp only
    split_ifs with h2 h3 h4
    · decide
    · exact h3
    · decide
    · exact h4

theorem utf8ByteSize_pos (s : String) (h : s ≠ "") : s.utf8ByteSize ≠ 0 := by
  obtain ⟨l⟩ := s
  cases l with
  | nil => exact absurd rfl h
  | cons a t =>
    have : (String.mk (a :: t)).utf8ByteSize = (String.mk t).utf8ByteSize + a.utf8Size := rfl
    rw [this]
    have := Char.utf8Size_pos a
    omega

/-- The validation never rejects on the output path: it rejects exactly on the
numeric tests. -/
theorem validate_eq_none_iff (c : Config) (rep : Int) :
    validate c rep = none ↔
      (c.Columns < 1 ∨ c.Spacing < 0 ∨ c.Border < 0 ∨ c.StitchWidth < 1 ∨
        c.StitchHeight < 1 ∨ rep < 1) := by
  unfold validate
  simp only
  have h := utf8ByteSize_pos (Clean c.Output) (Clean_ne_empty _)
  constructor
  · intro hv
    by_contra hn
    rw [if_neg] at hv
    · cases hv
    · rintro (h1 | h2)
      · exact h h1
      · exact hn h2
  · intro hn
    rw [if_pos (Or.inr hn)]

/-- C14 (the code at the failing input). With `-out ""` and the other flags at
their defaults the cleaned output path is "." and the validation accepts the
configuration. -/
theorem validate_accepts_empty_output :
    emptyOutConfig.Output = "" ∧ Clean emptyOutConfig.Output = "." ∧
    (validate emptyOutConfig 1).isSome = true := by
  refine ⟨rfl, ?_, ?_⟩
  · have h : emptyOutConfig.Output = "" := rfl
    unfold Clean
    rw [if_pos h]
  · have h : ¬ validate emptyOutConfig 1 = none := by
      rw [validate_eq_none_iff]
      decide
    cases hv : validate emptyOutConfig 1 with
    | none => exact absurd hv h
    | some _ => rfl

theorem normalize_eq (v : List Nat) : normalize v = TrimSpace (squeeze v) := rfl

theorem replace_single_append (c : Nat) (new s1 s2 : List Nat) :
    replaceFrom [c] new 0 (s1 ++ s2)
      = replaceFrom [c] new 0 s1 ++ replaceFrom [c] new 0 s2 := by
  induction s1 with
  | nil => simp [replaceFrom]
  | cons x t ih =>
    rw [List.cons_append, replaceFrom, replaceFrom]
    have e : [c].isPrefixOf (x :: (t ++ s2)) = [c].isPrefixOf (x :: t) := by
      simp [List.isPrefixOf]
    rw [e]
    split_ifs
    · simp only [List.length_singleton, Nat.sub_self, ih, List.append_assoc]
    · rw [ih, List.cons_append]

theorem replace_single_run (c d : Nat) (s : List Nat) :
    replaceFrom [c] [d] 0 s = s.map (fun x => if x = c then d else x) := by
  induction s with
  | nil => simp [replaceFrom]
  | cons x t ih =>
    rw [replaceFrom]
    by_cases h : x = c
    · subst h
      simp [List.isPrefixOf, ih]
    · have h2 : ¬ c = x := fun e => h e.symm
      simp [List.isPrefixOf, ih, h, h2]

theorem replace_double_split (a : Nat) (ha : a ≠ 32) (s2 : List Nat) (s1 : List Nat)
    (k : Nat) (hk : k ≤ s1.length) :
    replaceFrom b2Space bSpace k (s1 ++ a :: s2)
      = replaceFrom b2Space bSpace k s1 ++ a :: replaceFrom b2Space bSpace 0 s2 := by
  induction s1 generalizing k with
  | nil =>
    have hk0 : k = 0 := by simpa using hk
    subst hk0
    have : b2Space.isPrefixOf (a :: s2) = false := by
      simp [b2Space, List.isPrefixOf, Ne.symm ha]
    simp [replaceFrom, this]
  | cons x t ih =>
    cases k with
    | succ k =>
      rw [List.cons_append, replaceFrom, replaceFrom]
      exact ih k (by simpa using hk)
    | zero =>
      rw [List.cons_append, replaceFrom, replaceFrom]
      by_cases hx : x = 32
      · subst hx
        cases t with
        | nil =>
          have e1 : b2Space.isPrefixOf (32 :: ([] ++ a :: s2)) = false := by
            simp [b2Space, List.isPrefixOf, Ne.symm ha]
          have e2 : b2Space.isPrefixOf [32] = false := by
            simp [b2Space, List.isPrefixOf]
          rw [e1, e2]
          simp only [Bool.false_eq_true, if_false, List.cons_append]
          rw [ih 0 (by simp)]
        | cons y t' =>
          have e : b2Space.isPrefixOf (32 :: (y :: t' ++ a :: s2))
              = b2Space.isPrefixOf (32 :: y :: t') := by
            simp [b2Space, List.isPrefixOf]
          rw [e]
          split_ifs
          · rw [ih _ (by simp [b2Space]), List.append_assoc]
          · rw [ih 0 (by simp), List.cons_append]
      · have e1 : b2Space.isPrefixOf (x :: (t ++ a :: s2)) = false := by
          simp [b2Space, List.isPrefixOf, Ne.symm hx]
        have e2 : b2Space.isPrefixOf (x :: t) = false := by
          simp [b2Space, List.isPrefixOf, Ne.symm hx]
        rw [e1, e2]
        simp only [Bool.false_eq_true, if_false, List.cons_append]
        rw [ih 0 (by simp)]

theorem replace_double_run (k : Nat) :
    replaceFrom b2Space bSpace 0 (List.replicate k 32) = List.replicate ((k + 1) / 2) 32 := by
  induction k using Nat.strong_induction_on with
  | _ k ih =>
    match k with
    | 0 => rfl
    | 1 => rfl
    | k + 2 =>
      have e : List.replicate (k + 2) 32 = 32 :: 32 :: List.replicate k 32 := rfl
      rw [e, replaceFrom]
      have hp : b2Space.isPrefixOf (32 :: 32 :: List.replicate k 32) = true := by
        simp [b2Space, List.isPrefixOf]
      rw [if_pos hp]
      have hl : b2Space.length - 1 = 1 := rfl
      rw [hl, replaceFrom, ih k (by omega)]
      have : (k + 2 + 1) / 2 = (k + 1) / 2 + 1 := by omega
      rw [this]
      rfl

theorem find_congr (tbl : List (List Nat)) (f g : List Nat → Bool)
    (h : ∀ w ∈ tbl, f w = g w) : tbl.find? f = tbl.find? g := by
  induction tbl with
  | nil => rfl
  | cons w t ih =>
    rw [List.find?_cons, List.find?_cons, h w (List.mem_cons_self _ _),
      ih (fun x hx => h x (List.mem_cons_of_mem _ hx))]

theorem isPrefixOf_append_plain (a : Nat) (R : List Nat) (w : List Nat) (ha : a ∉ w)
    (p : List Nat) : w.isPrefixOf (p ++ a :: R) = w.isPrefixOf p := by
  induction w generalizing p with
  | nil => simp [List.isPrefixOf]
  | cons x w' ih =>
    have hx : x ≠ a := fun e => ha (e ▸ List.mem_cons_self _ _)
    have hw' : a ∉ w' := fun h => ha (List.mem_cons_of_mem _ h)
    cases p with
    | nil => simp [List.isPrefixOf, hx]
    | cons y p' =>
      have := ih hw' p'
      simp only [List.cons_append, List.isPrefixOf]
      rw [show p'.append (a :: R) = p' ++ a :: R from rfl, this]

theorem strip_append_plain (tbl : List (List Nat)) (a : Nat) (ha : ∀ w ∈ tbl, a ∉ w)
    (R : List Nat) (n : Nat) (p : List Nat) :
    strip tbl n (p ++ a :: R) = strip tbl n p ++ a :: R := by
  induction n generalizing p with
  | zero => rfl
  | succ n ih =>
    have hfind : tbl.find? (fun w => w.isPrefixOf (p ++ a :: R))
        = tbl.find? (fun w => w.isPrefixOf p) :=
      find_congr tbl _ _ (fun w hw => isPrefixOf_append_plain a R w (ha w hw) p)
    rw [strip, strip, hfind]
    cases hf : tbl.find? (fun w => w.isPrefixOf p) with
    | none => rfl
    | some w =>
      simp only
      have hpre := List.find?_some hf
      simp only [List.isPrefixOf_iff_prefix] at hpre
      rw [List.drop_append_of_le_length hpre.length_le]
      exact ih _

theorem strip_nil (tbl : List (List Nat)) (n : Nat) :
    strip tbl n [] = [] := by
  have := strip_final tbl n []
  exact List.eq_nil_of_suffix_nil this

theorem strip_fuel (tbl : List (List Nat)) (ht : ∀ w ∈ tbl, w ≠ []) (n m : Nat)
    (s : List Nat) (hn : s.length ≤ n) (hm : s.length ≤ m) :
    strip tbl n s = strip tbl m s := by
  induction n generalizing m s with
  | zero =>
    have hs : s = [] := List.length_eq_zero.mp (by omega)
    subst hs
    rw [strip_nil tbl, strip_nil tbl]
  | succ n ih =>
    cases m with
    | zero =>
      have hs : s = [] := List.length_eq_zero.mp (by omega)
      subst hs
      rw [strip_nil tbl, strip_nil tbl]
    | succ m =>
      rw [strip, strip]
      cases hf : tbl.find? (fun w => w.isPrefixOf s) with
      | none => rfl
      | some w =>
        simp only
        have hmem := List.mem_of_find?_eq_some hf
        have hpre := List.find?_some hf
        simp only [List.isPrefixOf_iff_prefix] at hpre
        have hlen : 0 < w.length := List.length_pos.mpr (ht w hmem)
        have hle := hpre.length_le
        apply ih
        · rw [List.length_drop]; omega
        · rw [List.length_drop]; omega

theorem whiteSpace_ascii : ∀ w ∈ whiteSpace, ∀ x ∈ w,
    (x = 9 ∨ x = 10 ∨ x = 11 ∨ x = 12 ∨ x = 13 ∨ x = 32) ∨ 0x80 ≤ x := by decide

theorem whiteSpace_reverse_ascii : ∀ w ∈ whiteSpace.map List.reverse, ∀ x ∈ w,
    (x = 9 ∨ x = 10 ∨ x = 11 ∨ x = 12 ∨ x = 13 ∨ x = 32) ∨ 0x80 ≤ x := by decide

theorem TrimLeft_append_plain (a : Nat) (h1 : a < 0x80)
    (h2 : a ≠ 9 ∧ a ≠ 10 ∧ a ≠ 11 ∧ a ≠ 12 ∧ a ≠ 13 ∧ a ≠ 32) (p R : List Nat) :
    TrimLeft (p ++ a :: R) = TrimLeft p ++ a :: R := by
  unfold TrimLeft
  rw [strip_append_plain whiteSpace a _ R]
  · rw [strip_fuel whiteSpace whiteSpace_ne_nil (p ++ a :: R).length p.length p
      (by simp) (le_refl _)]
  · intro w hw hmem
    have := whiteSpace_ascii w hw a hmem
    omega

theorem TrimRight_append_plain (b : Nat) (h1 : b < 0x80)
    (h2 : b ≠ 9 ∧ b ≠ 10 ∧ b ≠ 11 ∧ b ≠ 12 ∧ b ≠ 13 ∧ b ≠ 32) (L q : List Nat) :
    TrimRight (L ++ b :: q) = L ++ b :: TrimRight q := by
  unfold TrimRight
  have e : (L ++ b :: q).reverse = q.reverse ++ b :: L.reverse := by simp
  rw [e, strip_append_plain (whiteSpace.map List.reverse) b _ L.reverse]
  · rw [strip_fuel (whiteSpace.map List.reverse) whiteSpace_reverse_ne_nil
      (L ++ b :: q).length q.length q.reverse (by simp; omega) (by simp)]
    simp
  · intro w hw hmem
    have := whiteSpace_reverse_ascii w hw b hmem
    omega

theorem TrimSpace_between (a b : Nat) (ha1 : a < 0x80)
    (ha2 : a ≠ 9 ∧ a ≠ 10 ∧ a ≠ 11 ∧ a ≠ 12 ∧ a ≠ 13 ∧ a ≠ 32) (hb1 : b < 0x80)
    (hb2 : b ≠ 9 ∧ b ≠ 10 ∧ b ≠ 11 ∧ b ≠ 12 ∧ b ≠ 13 ∧ b ≠ 32) (p M q : List Nat) :
    TrimSpace (p ++ a :: (M ++ b :: q)) = TrimLeft p ++ a :: (M ++ b :: TrimRight q) := by
  unfold TrimSpace
  rw [TrimLeft_append_plain a ha1 ha2]
  have e : TrimLeft p ++ a :: (M ++ b :: q) = (TrimLeft p ++ a :: M) ++ b :: q := by simp
  rw [e, TrimRight_append_plain b hb1 hb2]
  simp

theorem replace_single_cons_ne (c a : Nat) (new s : List Nat) (h : a ≠ c) :
    replaceFrom [c] new 0 (a :: s) = a :: replaceFrom [c] new 0 s := by
  rw [replaceFrom]
  have : [c].isPrefixOf (a :: s) = false := by
    simp [List.isPrefixOf, Ne.symm h]
  rw [this]
  rfl

theorem replace_single_between (c a b : Nat) (new p run q : List Nat) (ha : a ≠ c)
    (hb : b ≠ c) :
    Replace (p ++ a :: (run ++ b :: q)) [c] new
      = Replace p [c] new ++ a :: (Replace run [c] new ++ b :: Replace q [c] new) := by
  unfold Replace
  rw [replace_single_append, replace_single_cons_ne c a new _ ha, replace_single_append,
    replace_single_cons_ne c b new _ hb]

theorem run_to_spaces (run : List Nat) (hrun : ∀ x ∈ run, x = 32 ∨ x = 9 ∨ x = 10) :
    Replace (Replace (Replace run bCR []) bLF bSpace) bTab bSpace
      = List.replicate run.length 32 := by
  have h1 : Replace run bCR [] = run := by
    apply replaceFrom_of_absent
    intro hi
    have := hrun 13 (hi.subset (List.mem_singleton_self 13))
    omega
  rw [h1]
  unfold Replace bLF bTab bSpace
  rw [replace_single_run, replace_single_run, List.eq_replicate_iff]
  refine ⟨by simp, ?_⟩
  intro x hx
  simp only [List.map_map, List.mem_map, Function.comp] at hx
  obtain ⟨y, hy, rfl⟩ := hx
  rcases hrun y hy with h | h | h <;> subst h <;> rfl

theorem squeeze_between (a b : Nat) (ha : a ≠ 13 ∧ a ≠ 10 ∧ a ≠ 9 ∧ a ≠ 32)
    (hb : b ≠ 13 ∧ b ≠ 10 ∧ b ≠ 9 ∧ b ≠ 32) (p run q : List Nat)
    (hrun : ∀ x ∈ run, x = 32 ∨ x = 9 ∨ x = 10) :
    squeeze (p ++ a :: (run ++ b :: q))
      = squeeze p ++ a :: (List.replicate ((run.length + 1) / 2) 32 ++ b :: squeeze q) := by
  unfold squeeze
  rw [show bCR = [13] from rfl, replace_single_between 13 a b [] p run q ha.1 hb.1,
    show bLF = [10] from rfl, replace_single_between 10 a b _ _ _ _ ha.2.1 hb.2.1,
    show bTab = [9] from rfl, replace_single_between 9 a b _ _ _ _ ha.2.2.1 hb.2.2.1]
  have hr := run_to_spaces run hrun
  unfold bCR bLF bTab at hr
  rw [hr]
  unfold Replace
  rw [replace_double_split a ha.2.2.2 _ _ 0 (Nat.zero_le _),
    replace_double_split b hb.2.2.2 _ _ 0 (Nat.zero_le _), replace_double_run]

theorem filterText_one (v w : List Nat) (hw : normalize v = w) (hne : w ≠ []) :
    filterText v 1 = .ok w := by
  rw [filterText_eq v 1 (by rw [hw]; exact hne) (by omega), hw]
  simp [Repeat]

/-- C16 (as stated, refuted). A run of five spaces between two letters is
rendered as three spaces, not two; and a run of three spaces after a leading
vertical tab, or after the last byte of a leading EM SPACE (E2 80 83), is
trimmed away together with it. -/
theorem long_run_not_two_spaces :
    filterText [97, 32, 32, 32, 32, 32, 98] 1 = .ok [97, 32, 32, 32, 98] ∧
    filterText [11, 32, 32, 32, 98] 1 = .ok [98] ∧
    filterText [0xE2, 0x80, 0x83, 32, 32, 32, 98] 1 = .ok [98] :=
  ⟨rfl, rfl, rfl⟩

/-- C16 (amended). When two ASCII bytes that are not white space (below 0x80
and none of 0x09..0x0D, 0x20) are separated by a run of three or four bytes,
each a space, tab or line feed, filterText(v, 1) renders that run as exactly
two spaces; what stands before and after is filtered on its own. -/
theorem short_run_two_spaces (p q run : List Nat) (a b : Nat) (ha1 : a < 0x80)
    (ha2 : a ≠ 9 ∧ a ≠ 10 ∧ a ≠ 11 ∧ a ≠ 12 ∧ a ≠ 13 ∧ a ≠ 32) (hb1 : b < 0x80)
    (hb2 : b ≠ 9 ∧ b ≠ 10 ∧ b ≠ 11 ∧ b ≠ 12 ∧ b ≠ 13 ∧ b ≠ 32)
    (hrun : ∀ x ∈ run, x = 32 ∨ x = 9 ∨ x = 10)
    (hlen : run.length = 3 ∨ run.length = 4) :
    filterText (p ++ a :: (run ++ b :: q)) 1
      = .ok (TrimLeft (squeeze p) ++ a :: 32 :: 32 :: b :: TrimRight (squeeze q)) := by
  apply filterText_one
  · rw [normalize_eq, squeeze_between a b ⟨ha2.2.2.2.2.1, ha2.2.1, ha2.1, ha2.2.2.2.2.2⟩
      ⟨hb2.2.2.2.2.1, hb2.2.1, hb2.1, hb2.2.2.2.2.2⟩ p run q hrun,
      TrimSpace_between a b ha1 ha2 hb1 hb2]
    have : (run.length + 1) / 2 = 2 := by omega
    rw [this]
    rfl
  · simp

theorem short_run_two_spaces_witness :
    (97 : Nat) < 0x80 ∧
    ((97 : Nat) ≠ 9 ∧ (97 : Nat) ≠ 10 ∧ (97 : Nat) ≠ 11 ∧ (97 : Nat) ≠ 12 ∧ (97 : Nat) ≠ 13 ∧
      (97 : Nat) ≠ 32) ∧
    (98 : Nat) < 0x80 ∧
    ((98 : Nat) ≠ 9 ∧ (98 : Nat) ≠ 10 ∧ (98 : Nat) ≠ 11 ∧ (98 : Nat) ≠ 12 ∧ (98 : Nat) ≠ 13 ∧
      (98 : Nat) ≠ 32) ∧
    (∀ x ∈ [32, 9, 10], x = 32 ∨ x = 9 ∨ x = 10) ∧
    ([32, 9, 10].length = 3 ∨ [32, 9, 10].length = 4) ∧
    filterText ([32, 120] ++ 97 :: ([32, 9, 10] ++ 98 :: [13, 10])) 1
      = .ok (TrimLeft (squeeze [32, 120]) ++ 97 :: 32 :: 32 :: 98 :: TrimRight (squeeze [13, 10])) :=
  ⟨by decide, by decide, by decide, by decide, by decide, by decide,
    short_run_two_spaces [32, 120] [13, 10] [32, 9, 10] 97 98 (by decide) (by decide)
      (by decide) (by decide) (by decide) (by decide)⟩

theorem no_entry_leads (tbl : List (List Nat)) (hsp : ∀ w ∈ tbl, 32 ∈ w → w = [32])
    (a : List Nat) (ha : a ≠ []) (hno : ∀ w ∈ tbl, ¬ w <:+: a) (rest : List Nat) :
    tbl.find? (fun w => w.isPrefixOf (a ++ 32 :: rest)) = none := by
  rw [List.find?_eq_none]
  intro w hw hpre
  simp only [List.isPrefixOf_iff_prefix] at hpre
  rcases List.prefix_or_prefix_of_prefix hpre (List.prefix_append a (32 :: rest)) with h | h
  · exact hno w hw h.isInfix
  · obtain ⟨t, ht⟩ := h
    cases t with
    | nil =>
      rw [List.append_nil] at ht
      exact hno w hw (ht ▸ List.infix_refl a)
    | cons z t' =>
      rw [← ht, List.prefix_append_right_inj] at hpre
      obtain ⟨r, hr⟩ := hpre
      simp only [List.cons_append, List.cons.injEq] at hr
      have h32 : 32 ∈ w := by
        rw [← ht, hr.1]
        simp
      have hw1 := hsp w hw h32
      have hlen := congrArg List.length ht
      rw [hw1] at hlen
      have ha' : 0 < a.length := List.length_pos.mpr ha
      simp at hlen
      omega

theorem squeeze_id (s : List Nat) (hs : ∀ z ∈ s, z ≠ 13 ∧ z ≠ 10 ∧ z ≠ 9 ∧ z ≠ 32) :
    squeeze s = s := by
  have single : ∀ c : Nat, c ∉ s → ¬ [c] <:+: s :=
    fun c hc hi => hc (hi.subset (List.mem_singleton_self c))
  have e1 : Replace s bCR [] = s :=
    replaceFrom_of_absent _ _ _ (single 13 (fun h => (hs 13 h).1 rfl))
  have e2 : Replace s bLF bSpace = s :=
    replaceFrom_of_absent _ _ _ (single 10 (fun h => (hs 10 h).2.1 rfl))
  have e3 : Replace s bTab bSpace = s :=
    replaceFrom_of_absent _ _ _ (single 9 (fun h => (hs 9 h).2.2.1 rfl))
  have e4 : Replace s b2Space bSpace = s := by
    apply replaceFrom_of_absent
    intro hi
    exact (hs 32 (hi.subset (by simp [b2Space]))).2.2.2 rfl
  unfold squeeze
  rw [e1, e2, e3, e4]

theorem mem_of_no_whiteSpace (a : List Nat) (hwa : ∀ w ∈ whiteSpace, ¬ w <:+: a) :
    ∀ z ∈ a, z ≠ 13 ∧ z ≠ 10 ∧ z ≠ 9 ∧ z ≠ 32 := by
  intro z hz
  obtain ⟨s, t, rfl⟩ := List.append_of_mem hz
  have hin : [z] <:+: s ++ z :: t := ⟨s, t, by simp⟩
  refine ⟨?_, ?_, ?_, ?_⟩ <;> rintro rfl
  · exact hwa [13] (by decide) hin
  · exact hwa [10] (by decide) hin
  · exact hwa [9] (by decide) hin
  · exact hwa [32] (by decide) hin

theorem whiteSpace_space_entry : ∀ w ∈ whiteSpace, 32 ∈ w → w = [32] := by decide

theorem whiteSpace_reverse_space_entry :
    ∀ w ∈ whiteSpace.map List.reverse, 32 ∈ w → w = [32] := by decide

theorem TrimSpace_fixed_of_no_whiteSpace (a b : List Nat) (m : Nat) (ha : a ≠ [])
    (hb : b ≠ []) (hwa : ∀ w ∈ whiteSpace, ¬ w <:+: a) (hwb : ∀ w ∈ whiteSpace, ¬ w <:+: b) :
    TrimSpace (a ++ List.replicate (m + 1) 32 ++ b) = a ++ List.replicate (m + 1) 32 ++ b := by
  have hL : TrimLeft (a ++ List.replicate (m + 1) 32 ++ b)
      = a ++ List.replicate (m + 1) 32 ++ b := by
    apply strip_of_none
    have e : a ++ List.replicate (m + 1) 32 ++ b = a ++ 32 :: (List.replicate m 32 ++ b) := by
      simp [List.replicate_succ]
    rw [e]
    exact no_entry_leads whiteSpace whiteSpace_space_entry a ha hwa _
  unfold TrimSpace
  rw [hL]
  unfold TrimRight
  have e : (a ++ List.replicate (m + 1) 32 ++ b).reverse
      = b.reverse ++ 32 :: (List.replicate m 32 ++ a.reverse) := by
    simp [List.replicate_succ, List.reverse_replicate]
    have h2 : List.replicate m 32 ++ [32] = 32 :: List.replicate m (32 : Nat) := by
      rw [← List.replicate_succ', List.replicate_succ]
    have h3 : List.replicate m 32 ++ 32 :: a.reverse
        = (List.replicate m 32 ++ [32]) ++ a.reverse := by simp
    rw [h3, h2]
    rfl
  have hnone : (whiteSpace.map List.reverse).find?
      (fun w => w.isPrefixOf (a ++ List.replicate (m + 1) 32 ++ b).reverse) = none := by
    rw [e]
    apply no_entry_leads _ whiteSpace_reverse_space_entry _ (by simpa using hb)
    intro w hw hi
    rw [List.mem_map] at hw
    obtain ⟨w0, hw0, rfl⟩ := hw
    rw [List.reverse_infix] at hi
    exact hwb w0 hw0 hi
  rw [strip_of_none _ _ _ hnone, List.reverse_reverse]

/-- C19. For `k ≥ 1` and non-empty byte sequences `a`, `b` holding no white
space (no UTF-8 encoding of a white-space character occurs in them),
filterText(a ++ k spaces ++ b, 1) is `a ++ ceil(k/2) spaces ++ b`. -/
theorem interior_run_halved (a b : List Nat) (k : Nat) (hk : 1 ≤ k) (ha : a ≠ [])
    (hb : b ≠ []) (hwa : ∀ w ∈ whiteSpace, ¬ w <:+: a)
    (hwb : ∀ w ∈ whiteSpace, ¬ w <:+: b) :
    filterText (a ++ List.replicate k 32 ++ b) 1
      = .ok (a ++ List.replicate ((k + 1) / 2) 32 ++ b) := by
  have hma := mem_of_no_whiteSpace a hwa
  have hmb := mem_of_no_whiteSpace b hwb
  obtain ⟨x, a', rfl⟩ : ∃ x a', a = a' ++ [x] :=
    ⟨a.getLast ha, a.dropLast, (List.dropLast_append_getLast ha).symm⟩
  obtain ⟨y, b', rfl⟩ : ∃ y b', b = y :: b' := List.exists_cons_of_ne_nil hb
  have hx := hma x (by simp)
  have hy := hmb y (by simp)
  have hsq : squeeze (a' ++ [x] ++ List.replicate k 32 ++ y :: b')
      = a' ++ [x] ++ List.replicate ((k + 1) / 2) 32 ++ y :: b' := by
    have e : a' ++ [x] ++ List.replicate k 32 ++ y :: b'
        = a' ++ x :: (List.replicate k 32 ++ y :: b') := by simp
    rw [e, squeeze_between x y hx hy a' (List.replicate k 32) b'
      (fun z hz => Or.inl (List.eq_of_mem_replicate hz)),
      squeeze_id a' (fun z hz => hma z (by simp [hz])),
      squeeze_id b' (fun z hz => hmb z (by simp [hz]))]
    simp
  obtain ⟨m, hm⟩ : ∃ m, (k + 1) / 2 = m + 1 := ⟨(k + 1) / 2 - 1, by omega⟩
  apply filterText_one
  · rw [normalize_eq, hsq, hm]
    exact TrimSpace_fixed_of_no_whiteSpace (a' ++ [x]) (y :: b') m ha hb hwa hwb
  · simp

theorem interior_run_halved_witness :
    1 ≤ 5 ∧ ([72, 105] : List Nat) ≠ [] ∧ ([0xC3, 0xA9, 33] : List Nat) ≠ [] ∧
    (∀ w ∈ whiteSpace, ¬ w <:+: [72, 105]) ∧
    (∀ w ∈ whiteSpace, ¬ w <:+: [0xC3, 0xA9, 33]) ∧
    filterText ([72, 105] ++ List.replicate 5 32 ++ [0xC3, 0xA9, 33]) 1
      = .ok ([72, 105] ++ List.replicate ((5 + 1) / 2) 32 ++ [0xC3, 0xA9, 33]) :=
  ⟨by decide, by decide, by decide, by decide, by decide,
    interior_run_halved [72, 105] [0xC3, 0xA9, 33] 5 (by decide) (by decide) (by decide)
      (by decide) (by decide)⟩

end BinaryScarf
